import Mathlib

/-!
# Partition loading in the Milvus Go SDK client

A shallow embedding of `client/client_grpc_partition.go`, centred on
`LoadPartitions` and the wait loop it runs after the load request, and of the
generators of `test/common/utils.go` that the collection tests rely on.

* Go's `int64` values are embedded in `Int`; the code only compares them, so no
  wrap-around arithmetic is involved.
* A Go `map` is an association list that holds at most one entry per key
  (`GoMap`).
* Remote calls are answered by a service whose replies may depend on everything
  that happened earlier in the same invocation; every call is recorded, with
  its reply, in a chronological trace.
* The wait loop `for len(target) > 0` has no exit other than convergence, so
  its embedding takes a bound on the number of iterations and reports when the
  bound is used up.
-/

namespace Milvus

/-! ## Go maps -/

/-- A Go map as an association list. `GoMap.store` and `GoMap.delete` keep at
most one entry per key. -/
abbrev GoMap (κ : Type) (β : Type) := List (κ × β)

namespace GoMap

variable {κ β : Type} [DecidableEq κ]

/-- The two-valued read `v, has := m[key]`: `none` is `has == false`. -/
def lookup : GoMap κ β → κ → Option β
  | [], _ => none
  | (k, v) :: rest, key => if k = key then some v else lookup rest key

/-- The builtin `delete(m, key)`. -/
def delete (m : GoMap κ β) (key : κ) : GoMap κ β :=
  m.filter (fun e => decide (e.1 ≠ key))

/-- The assignment `m[key] = v`: any earlier entry of the key is replaced. -/
def store (m : GoMap κ β) (key : κ) (v : β) : GoMap κ β :=
  (key, v) :: delete m key

/-- The builtin `len(m)`. -/
def len (m : GoMap κ β) : Nat := m.length

/-- The keys present in the map. -/
def keys (m : GoMap κ β) : List κ := m.map Prod.fst

end GoMap

/-! ## Entities -/

/-- The fields of `entity.Segment` read by `LoadPartitions`
(`ParititionID` is the spelling of the source). -/
structure Segment where
  ID : Int
  ParititionID : Int
  NumRows : Int
deriving DecidableEq, Repr

/-- The type `entity.Partition`. -/
structure Partition where
  ID : Int
  Name : String
deriving DecidableEq, Repr

/-! ## The target snapshot and one reconciliation pass -/

/-- Lines 172-182 of `LoadPartitions`: the loop that fills `target` from the
persistent segment list, given the set `ids` of resolved partition ids. -/
def capture (ids : GoMap Int Unit) : List Segment → GoMap Int Segment → GoMap Int Segment
  | [], target => target
  | segment :: rest, target =>
    if segment.NumRows = 0 then
      capture ids rest target
    else
      match GoMap.lookup ids segment.ParititionID with
      | none => capture ids rest target
      | some _ => capture ids rest (GoMap.store target segment.ID segment)

/-- Lines 186-193 of `LoadPartitions`: the pass over the segments returned by a
successful `GetQuerySegmentInfo`, deleting every target that is observed with at
least its expected number of rows. -/
def reconcile : GoMap Int Segment → List Segment → GoMap Int Segment
  | target, [] => target
  | target, segment :: rest =>
    match GoMap.lookup target segment.ID with
    | some ts =>
      if segment.NumRows ≥ ts.NumRows then
        reconcile (GoMap.delete target segment.ID) rest
      else
        reconcile target rest
    | none => reconcile target rest

/-! ## Errors, replies and the trace of calls -/

/-- Error values that `client_grpc_partition.go` can return. `ErrClientNotReady`
and the helper `partNotExistsErr` are declared in other files of the package and
are kept as constructors of their own. `New` is `errors.New(text)`, which is also
what `fmt.Errorf` yields for a format without `%w`. `status` is the error that
`handleRespStatus` builds from a response status. `remote` is any error produced
outside this file (transport failures, errors of other client methods). -/
inductive Error where
  | ErrClientNotReady
  | partNotExistsErr (collName partitionName : String)
  | New (text : String)
  | status (code : Int) (reason : String)
  | remote (text : String)
deriving DecidableEq, Repr

/-- The Go pair `(resp, err)` returned by a generated gRPC method. -/
inductive Reply (α : Type) where
  | fail (err : Error)
  | ok (resp : α)
deriving DecidableEq, Repr

/-- The type `common.Status`; `ErrorCode` is the numeric value of the enum. -/
structure Status where
  ErrorCode : Int
  Reason : String
deriving DecidableEq, Repr

/-- The enum value `common.ErrorCode_Success`. -/
def ErrorCode_Success : Int := 0

/-- The type `server.BoolResponse`. -/
structure BoolResponse where
  Status : Status
  Value : Bool
deriving DecidableEq, Repr

/-- The type `server.ShowPartitionsResponse`, with the fields read here. -/
structure ShowPartitionsResponse where
  Status : Status
  PartitionNames : List String
  PartitionIDs : List Int
deriving DecidableEq, Repr

/-- One entry of the trace of an invocation: a call that leaves this file (or a
sleep), together with what it returned. -/
inductive Event where
  | checkCollectionExists (collName : String) (err : Option Error)
  | HasPartition (collName partitionName : String) (reply : Reply BoolResponse)
  | ShowPartitions (collName : String) (reply : Reply ShowPartitionsResponse)
  | LoadPartitions (collName : String) (partitionNames : List String) (reply : Reply Status)
  | GetPersistentSegmentInfo (collName : String) (segments : List Segment) (err : Option Error)
  | GetQuerySegmentInfo (collName : String) (segments : List Segment) (err : Option Error)
  | Sleep (milliseconds : Nat)
  | CreatePartition (collName partitionName : String) (reply : Reply Status)
  | DropPartition (collName partitionName : String) (reply : Reply Status)
  | ReleasePartitions (collName : String) (partitionNames : List String) (reply : Reply Status)
deriving DecidableEq, Repr

/-- The gRPC stub `server.MilvusServiceClient`, restricted to the methods that
`client_grpc_partition.go` calls. Each reply may depend on the trace so far. -/
structure MilvusServiceClient where
  HasPartition : List Event → String → String → Reply BoolResponse
  ShowPartitions : List Event → String → Reply ShowPartitionsResponse
  LoadPartitions : List Event → String → List String → Reply Status
  CreatePartition : List Event → String → String → Reply Status
  DropPartition : List Event → String → String → Reply Status
  ReleasePartitions : List Event → String → List String → Reply Status

/-- The receiver `c *grpcClient`. `service` is `none` for a nil service. The
methods `checkCollectionExists`, `GetPersistentSegmentInfo` and
`GetQuerySegmentInfo` are defined in other files of the package; they are taken
as given, each returning its Go result as a function of the trace so far. -/
structure grpcClient where
  service : Option MilvusServiceClient
  checkCollectionExists : List Event → String → Option Error
  GetPersistentSegmentInfo : List Event → String → List Segment × Option Error
  GetQuerySegmentInfo : List Event → String → List Segment × Option Error

/-- Modelled from the spec: `handleRespStatus` is defined outside the files at
hand. The spec has every service-level failure of the load request propagated
and a success status accepted, so the result is an error exactly when the status
code is not `ErrorCode_Success`. -/
def handleRespStatus (resp : Status) : Option Error :=
  if resp.ErrorCode = ErrorCode_Success then none
  else some (Error.status resp.ErrorCode resp.Reason)

/-! ## The client methods -/

/-- The method `HasPartition` (lines 90-107); the result is the Go pair
`(bool, error)`. -/
def HasPartition (c : grpcClient) (collName partitionName : String) (tr : List Event) :
    (Bool × Option Error) × List Event :=
  match c.service with
  | none => ((false, some Error.ErrClientNotReady), tr)
  | some service =>
    let reply := service.HasPartition tr collName partitionName
    let tr1 := tr ++ [Event.HasPartition collName partitionName reply]
    match reply with
    | Reply.fail err => ((false, some err), tr1)
    | Reply.ok resp =>
      if resp.Status.ErrorCode ≠ ErrorCode_Success then
        ((false, some (Error.New "request failed")), tr1)
      else
        ((resp.Value, none), tr1)

/-- The method `checkPartitionExists` (lines 53-67). -/
def checkPartitionExists (c : grpcClient) (collName partitionName : String)
    (tr : List Event) : Option Error × List Event :=
  let err := c.checkCollectionExists tr collName
  let tr1 := tr ++ [Event.checkCollectionExists collName err]
  match err with
  | some e => (some e, tr1)
  | none =>
    match HasPartition c collName partitionName tr1 with
    | ((_, some e), tr2) => (some e, tr2)
    | ((has, none), tr2) =>
      if !has then (some (Error.partNotExistsErr collName partitionName), tr2)
      else (none, tr2)

/-- The loop of `ShowPartitions` (lines 123-125). `none` is the run-time panic
of `resp.GetPartitionNames()[idx]` with `idx` out of range. -/
def pairPartitions (names : List String) :
    List Int → Nat → List Partition → Option (List Partition)
  | [], _, partitions => some partitions
  | partitionID :: rest, idx, partitions =>
    match names[idx]? with
    | none => none
    | some name => pairPartitions names rest (idx + 1) (partitions ++ [⟨partitionID, name⟩])

/-- The method `ShowPartitions` (lines 110-127); the result is the Go pair
`([]*entity.Partition, error)`, or `none` when the method panics. -/
def ShowPartitions (c : grpcClient) (collName : String) (tr : List Event) :
    Option (List Partition × Option Error) × List Event :=
  match c.service with
  | none => (some ([], some Error.ErrClientNotReady), tr)
  | some service =>
    let reply := service.ShowPartitions tr collName
    let tr1 := tr ++ [Event.ShowPartitions collName reply]
    match reply with
    | Reply.fail err => (some ([], some err), tr1)
    | Reply.ok resp =>
      match pairPartitions resp.PartitionNames resp.PartitionIDs 0 [] with
      | none => (none, tr1)
      | some partitions => (some (partitions, none), tr1)

/-! ## `LoadPartitions` -/

/-- How an invocation of `LoadPartitions` ends: it returns `err` (`none` is
`nil`), it panics, or it is still inside the wait loop when the iteration bound
of the embedding is used up. -/
inductive Outcome where
  | returned (err : Option Error)
  | panicked
  | waiting
deriving DecidableEq, Repr

/-- Lines 134-138 of `LoadPartitions`: the existence check of every name. -/
def checkPartitions (c : grpcClient) (collName : String) :
    List String → List Event → Option Error × List Event
  | [], tr => (none, tr)
  | partitionName :: rest, tr =>
    match checkPartitionExists c collName partitionName tr with
    | (some err, tr1) => (some err, tr1)
    | (none, tr1) => checkPartitions c collName rest tr1

/-- Lines 143-146 of `LoadPartitions`: the map `m` from partition name to id. -/
def nameMap : List Partition → GoMap String Int → GoMap String Int
  | [], m => m
  | partition :: rest, m => nameMap rest (GoMap.store m partition.Name partition.ID)

/-- Lines 148-155 of `LoadPartitions`: the set `ids` of the requested partitions,
or the error returned for the first name that `m` lacks. -/
def resolveIDs (collName : String) (m : GoMap String Int) :
    List String → GoMap Int Unit → Except Error (GoMap Int Unit)
  | [], ids => Except.ok ids
  | partitionName :: rest, ids =>
    match GoMap.lookup m partitionName with
    | none =>
      Except.error
        (Error.New ("Collection " ++ collName ++ " does not has partitions " ++ partitionName))
    | some id => resolveIDs collName m rest (GoMap.store ids id ())

/-- Lines 131-168 of `LoadPartitions`: everything up to and including the load
request. The result is either the outcome of an early exit or the set `ids`
with which the function goes on. -/
def validateAndLoad (c : grpcClient) (collName : String) (partitionNames : List String) :
    Except Outcome (GoMap Int Unit) × List Event :=
  match c.service with
  | none => (Except.error (Outcome.returned (some Error.ErrClientNotReady)), [])
  | some service =>
    match checkPartitions c collName partitionNames [] with
    | (some err, tr) => (Except.error (Outcome.returned (some err)), tr)
    | (none, tr) =>
      match ShowPartitions c collName tr with
      | (none, tr1) => (Except.error Outcome.panicked, tr1)
      | (some (_, some err), tr1) => (Except.error (Outcome.returned (some err)), tr1)
      | (some (partitions, none), tr1) =>
        match resolveIDs collName (nameMap partitions []) partitionNames [] with
        | Except.error err => (Except.error (Outcome.returned (some err)), tr1)
        | Except.ok ids =>
          let reply := service.LoadPartitions tr1 collName partitionNames
          let tr2 := tr1 ++ [Event.LoadPartitions collName partitionNames reply]
          match reply with
          | Reply.fail err => (Except.error (Outcome.returned (some err)), tr2)
          | Reply.ok resp =>
            match handleRespStatus resp with
            | some err => (Except.error (Outcome.returned (some err)), tr2)
            | none => (Except.ok ids, tr2)

/-- Lines 184-194 of `LoadPartitions`: the effect of one poll on `target`, given
what `GetQuerySegmentInfo` returned. The pass runs only when `err == nil`. -/
def pollCycle (target : GoMap Int Segment) (poll : List Segment × Option Error) :
    GoMap Int Segment :=
  match poll.2 with
  | none => reconcile target poll.1
  | some _ => target

/-- Lines 183-196 of `LoadPartitions`: the wait loop, run for at most `fuel`
iterations. The flag tells whether the loop has exited (`len(target) == 0`); the
map is the value of `target` and the list the trace at that moment. -/
def waitLoop (c : grpcClient) (collName : String) :
    Nat → GoMap Int Segment → List Event → Bool × GoMap Int Segment × List Event
  | 0, target, tr => (decide (¬ GoMap.len target > 0), target, tr)
  | fuel + 1, target, tr =>
    if GoMap.len target > 0 then
      let poll := c.GetQuerySegmentInfo tr collName
      let tr1 := tr ++ [Event.GetQuerySegmentInfo collName poll.1 poll.2]
      waitLoop c collName fuel (pollCycle target poll) (tr1 ++ [Event.Sleep 100])
    else
      (true, target, tr)

/-- The method `LoadPartitions` (lines 130-200), with at most `fuel` iterations
of its wait loop. -/
def LoadPartitions (c : grpcClient) (fuel : Nat) (collName : String)
    (partitionNames : List String) (async : Bool) : Outcome × List Event :=
  match validateAndLoad c collName partitionNames with
  | (Except.error out, tr) => (out, tr)
  | (Except.ok ids, tr2) =>
    if !async then
      let persistent := c.GetPersistentSegmentInfo tr2 collName
      let tr3 := tr2 ++ [Event.GetPersistentSegmentInfo collName persistent.1 persistent.2]
      let target := capture ids persistent.1 []
      match waitLoop c collName fuel target tr3 with
      | (true, _, tr4) => (Outcome.returned none, tr4)
      | (false, _, tr4) => (Outcome.waiting, tr4)
    else
      (Outcome.returned none, tr2)

/-! ## Notions used to state the properties -/

/-- The value of `target` after a sequence of polls, each given by what
`GetQuerySegmentInfo` returned. -/
def runPolls (target : GoMap Int Segment) (polls : List (List Segment × Option Error)) :
    GoMap Int Segment :=
  polls.foldl pollCycle target

/-- The trace written by a sequence of iterations of the wait loop: every poll
is followed by one sleep of 100 ms. -/
def pollEvents (collName : String) : List (List Segment × Option Error) → List Event
  | [] => []
  | poll :: rest =>
    Event.GetQuerySegmentInfo collName poll.1 poll.2 :: Event.Sleep 100 ::
      pollEvents collName rest

/-- The trace entry of the call to `GetPersistentSegmentInfo` made at trace `tr`. -/
def persistentEvent (c : grpcClient) (collName : String) (tr : List Event) : Event :=
  Event.GetPersistentSegmentInfo collName (c.GetPersistentSegmentInfo tr collName).1
    (c.GetPersistentSegmentInfo tr collName).2

/-- The snapshot that a synchronous `LoadPartitions` captures when it reaches
line 171 with the set `ids` and the trace `tr`. -/
def snapshotAt (c : grpcClient) (collName : String) (ids : GoMap Int Unit)
    (tr : List Event) : GoMap Int Segment :=
  capture ids (c.GetPersistentSegmentInfo tr collName).1 []

/-- The entry is an existence check: a call of `checkCollectionExists` or of the
remote `HasPartition`. -/
def Event.isExistenceCheck : Event → Bool
  | Event.checkCollectionExists _ _ => true
  | Event.HasPartition _ _ _ => true
  | _ => false

/-- The entry is a remote `HasPartition` call that reported, with a success
status, that the partition does not exist. -/
def Event.reportsMissing : Event → Bool
  | Event.HasPartition _ _ (Reply.ok resp) =>
    decide (resp.Status.ErrorCode = ErrorCode_Success) && !resp.Value
  | _ => false

/-- The entry is a remote `ShowPartitions` call. -/
def Event.isShowPartitions : Event → Bool
  | Event.ShowPartitions _ _ => true
  | _ => false

/-- The entry is a remote `LoadPartitions` call, the load request. -/
def Event.isLoadRequest : Event → Bool
  | Event.LoadPartitions _ _ _ => true
  | _ => false

/-- The entry is a statistics fetch: `GetPersistentSegmentInfo` or
`GetQuerySegmentInfo`. -/
def Event.isStatsFetch : Event → Bool
  | Event.GetPersistentSegmentInfo _ _ _ => true
  | Event.GetQuerySegmentInfo _ _ _ => true
  | _ => false

/-- The entry is a call of `time.Sleep`. -/
def Event.isSleep : Event → Bool
  | Event.Sleep _ => true
  | _ => false

/-- The partition names of the remote `HasPartition` calls of a trace, in order. -/
def hasPartitionNames : List Event → List String
  | [] => []
  | Event.HasPartition _ partitionName _ :: rest => partitionName :: hasPartitionNames rest
  | _ :: rest => hasPartitionNames rest

/-- A success status. -/
def statusSuccess : Status := ⟨ErrorCode_Success, ""⟩

/-- A service for concrete runs: `HasPartition` answers from the list `existing`,
`ShowPartitions` returns the given ids and names, the load request gets the
given reply, and the other requests succeed. -/
def scriptedService (existing : List String) (listedIDs : List Int)
    (listedNames : List String) (loadReply : Reply Status) : MilvusServiceClient where
  HasPartition := fun _ _ partitionName =>
    Reply.ok ⟨statusSuccess, decide (partitionName ∈ existing)⟩
  ShowPartitions := fun _ _ => Reply.ok ⟨statusSuccess, listedNames, listedIDs⟩
  LoadPartitions := fun _ _ _ => loadReply
  CreatePartition := fun _ _ _ => Reply.ok statusSuccess
  DropPartition := fun _ _ _ => Reply.ok statusSuccess
  ReleasePartitions := fun _ _ _ => Reply.ok statusSuccess

/-- A client for concrete runs on top of `scriptedService`: the collection
exists, the persistent segments are as given, and the n-th call of
`GetQuerySegmentInfo` returns the n-th element of `polls` (and fails once the
list is used up). -/
def scriptedClient (existing : List String) (listedIDs : List Int)
    (listedNames : List String) (loadReply : Reply Status)
    (persistent : List Segment × Option Error)
    (polls : List (List Segment × Option Error)) : grpcClient where
  service := some (scriptedService existing listedIDs listedNames loadReply)
  checkCollectionExists := fun _ _ => none
  GetPersistentSegmentInfo := fun _ _ => persistent
  GetQuerySegmentInfo := fun tr _ =>
    (polls.get? (tr.countP Event.isSleep)).getD ([], some (Error.remote "unavailable"))

/-- Scenario B as a client: partition `p` (id 10) of the collection holds the
persistent segment 1 with 10 rows; the first poll fails and the second poll
shows segment 1 with 10 rows. -/
def scenarioB : grpcClient :=
  scriptedClient ["p"] [10] ["p"] (Reply.ok statusSuccess) ([⟨1, 10, 10⟩], none)
    [([], some (Error.remote "timeout")), ([⟨1, 10, 10⟩], none)]

/-- The trace of the synchronous load of partition `p` by `scenarioB`. -/
def scenarioBTrace : List Event :=
  [Event.checkCollectionExists "c" none,
   Event.HasPartition "c" "p" (Reply.ok ⟨statusSuccess, true⟩),
   Event.ShowPartitions "c" (Reply.ok ⟨statusSuccess, ["p"], [10]⟩),
   Event.LoadPartitions "c" ["p"] (Reply.ok statusSuccess),
   Event.GetPersistentSegmentInfo "c" [⟨1, 10, 10⟩] none,
   Event.GetQuerySegmentInfo "c" [] (some (Error.remote "timeout")),
   Event.Sleep 100,
   Event.GetQuerySegmentInfo "c" [⟨1, 10, 10⟩] none,
   Event.Sleep 100]

/-- Scenario C as a client: the remote `HasPartition` confirms partition `p`,
but the listing of `ShowPartitions` holds partition `q` (id 10) only. -/
def scenarioC : grpcClient :=
  scriptedClient ["p"] [10] ["q"] (Reply.ok statusSuccess) ([⟨1, 10, 10⟩], none) []

/-- The entry is a load request that the service acknowledged with a success
status. -/
def Event.isLoadAck : Event → Bool
  | Event.LoadPartitions _ _ (Reply.ok st) => decide (st.ErrorCode = ErrorCode_Success)
  | _ => false

/-- A client whose load request fails in transport; everything before it
succeeds for partition `p`. -/
def scenarioLoadFails : grpcClient :=
  scriptedClient ["p"] [10] ["p"] (Reply.fail (Error.remote "unavailable"))
    ([⟨1, 10, 10⟩], none) [([⟨1, 10, 10⟩], none)]

/-- What `GetQuerySegmentInfo` returns in the first `n` iterations of the wait
loop when the loop is entered with trace `tr`; the trace of an iteration does
not depend on `target`. -/
def firstPolls (c : grpcClient) (collName : String) :
    Nat → List Event → List (List Segment × Option Error)
  | 0, _ => []
  | n + 1, tr =>
    c.GetQuerySegmentInfo tr collName ::
      firstPolls c collName n
        ((tr ++ [Event.GetQuerySegmentInfo collName (c.GetQuerySegmentInfo tr collName).1
          (c.GetQuerySegmentInfo tr collName).2]) ++ [Event.Sleep 100])

/-- The entry is a call of `GetQuerySegmentInfo`, a poll of the wait loop. -/
def Event.isQueryPoll : Event → Bool
  | Event.GetQuerySegmentInfo _ _ _ => true
  | _ => false

/-- A client like `scenarioB` whose polls never succeed. -/
def scenarioNeverVisible : grpcClient :=
  scriptedClient ["p"] [10] ["p"] (Reply.ok statusSuccess) ([⟨1, 10, 10⟩], none) []

/-- A client like `scenarioB` whose partition holds no flushed segment. -/
def scenarioNoData : grpcClient :=
  scriptedClient ["p"] [10] ["p"] (Reply.ok statusSuccess) ([⟨1, 11, 10⟩, ⟨2, 10, 0⟩], none) []

/-! ## Test helpers of `test/common/utils.go` -/

/-- The constant `MaxCollectionNameLen`. -/
def MaxCollectionNameLen : Int := 255

/-- The function `GenLongString` (lines 242-249). The loop
`for i := 0; i < n; i++` runs its body once for every `i` of
`List.range n.toNat`, hence not at all for `n <= 0`; the body appends `"a"` to
the builder. -/
def GenLongString (n : Int) : String :=
  (List.range n.toNat).foldl (fun builder _ => builder ++ "a") ""

/-- The type `entity.FieldType`, an enumeration of package `entity`. -/
inductive FieldType where
  | FieldTypeNone
  | FieldTypeBool
  | FieldTypeInt8
  | FieldTypeInt16
  | FieldTypeInt32
  | FieldTypeInt64
  | FieldTypeFloat
  | FieldTypeDouble
  | FieldTypeString
  | FieldTypeVarChar
  | FieldTypeBinaryVector
  | FieldTypeFloatVector
deriving DecidableEq, Repr

/-- The type `entity.Field`, with the members that the generators set. A member
that a composite literal leaves out has its zero value: `false`, or the nil
map. -/
structure Field where
  Name : String
  DataType : FieldType
  PrimaryKey : Bool
  AutoID : Bool
  TypeParams : GoMap String String
deriving DecidableEq, Repr

/-- The constant `entity.TypeParamDim`, the key of the dimension of a vector
field; it is declared in package `entity`. -/
def TypeParamDim : String := "dim"

/-- The constant `entity.TypeParamMaxLength`, declared in package `entity`. -/
def TypeParamMaxLength : String := "max_length"

/-- The constant `DefaultIntFieldName`. -/
def DefaultIntFieldName : String := "int64"

/-- The constant `DefaultFloatFieldName`. -/
def DefaultFloatFieldName : String := "float"

/-- The constant `DefaultVarcharFieldName`. -/
def DefaultVarcharFieldName : String := "varchar"

/-- The constant `DefaultFloatVecFieldName`. -/
def DefaultFloatVecFieldName : String := "float_vec"

/-- The constant `DefaultBinaryVecFieldName`. -/
def DefaultBinaryVecFieldName : String := "binary_vec"

/-- The constant `DefaultDim`. -/
def DefaultDim : Nat := 128

/-- The constant `DefaultDimStr`. -/
def DefaultDimStr : String := "128"

/-- The constant `DefaultMaxLength`. -/
def DefaultMaxLength : String := "65535"

/-- The function `GenDefaultFields` (lines 93-112); `fmt.Sprintf("%d", DefaultDim)`
is the decimal text of `DefaultDim`. -/
def GenDefaultFields (autoID : Bool) : List Field :=
  [{ Name := DefaultIntFieldName, DataType := FieldType.FieldTypeInt64, PrimaryKey := true,
     AutoID := autoID, TypeParams := [] },
   { Name := DefaultFloatFieldName, DataType := FieldType.FieldTypeFloat, PrimaryKey := false,
     AutoID := false, TypeParams := [] },
   { Name := DefaultFloatVecFieldName, DataType := FieldType.FieldTypeFloatVector,
     PrimaryKey := false, AutoID := false,
     TypeParams := GoMap.store [] TypeParamDim (toString DefaultDim) }]

/-- The function `GenDefaultBinaryFields` (lines 115-134). -/
def GenDefaultBinaryFields (autoID : Bool) (dim : String) : List Field :=
  [{ Name := DefaultIntFieldName, DataType := FieldType.FieldTypeInt64, PrimaryKey := true,
     AutoID := autoID, TypeParams := [] },
   { Name := DefaultFloatFieldName, DataType := FieldType.FieldTypeFloat, PrimaryKey := false,
     AutoID := false, TypeParams := [] },
   { Name := DefaultBinaryVecFieldName, DataType := FieldType.FieldTypeBinaryVector,
     PrimaryKey := false, AutoID := false, TypeParams := GoMap.store [] TypeParamDim dim }]

/-- The function `GenDefaultVarcharFields` (lines 137-153). -/
def GenDefaultVarcharFields (autoID : Bool) : List Field :=
  [{ Name := DefaultVarcharFieldName, DataType := FieldType.FieldTypeVarChar,
     PrimaryKey := true, AutoID := autoID,
     TypeParams := GoMap.store [] TypeParamMaxLength DefaultMaxLength },
   { Name := DefaultBinaryVecFieldName, DataType := FieldType.FieldTypeBinaryVector,
     PrimaryKey := false, AutoID := false,
     TypeParams := GoMap.store [] TypeParamDim DefaultDimStr }]

/-- The field is a vector field: its type is `FieldTypeFloatVector` or
`FieldTypeBinaryVector`. -/
def Field.isVector (f : Field) : Bool :=
  decide (f.DataType = FieldType.FieldTypeFloatVector) ||
    decide (f.DataType = FieldType.FieldTypeBinaryVector)

/-- What the create-collection tests require of a field list generated with
`autoID`: exactly one primary-key field, of type `FieldTypeInt64` or
`FieldTypeVarChar` and with `AutoID` equal to `autoID`; exactly one vector field,
which has a `TypeParamDim` entry; pairwise distinct field names. -/
def wellFormedFields (autoID : Bool) (fields : List Field) : Prop :=
  (∃ pk, fields.filter (fun f => f.PrimaryKey) = [pk] ∧
    (pk.DataType = FieldType.FieldTypeInt64 ∨ pk.DataType = FieldType.FieldTypeVarChar) ∧
    pk.AutoID = autoID) ∧
  (∃ vec, fields.filter Field.isVector = [vec] ∧
    (GoMap.lookup vec.TypeParams TypeParamDim).isSome = true) ∧
  (fields.map Field.Name).Nodup

/-- The variable `letterRunes` (line 55). -/
def letterRunes : List Char := "abcdefghijklmnopqrstuvwxyzABCDEFGHIJKLMNOPQRSTUVWXYZ".toList

/-- The method `(*rand.Rand).Intn` of the standard library, by its documented
contract: it panics (`none`) for `n <= 0` and otherwise returns a number of
`[0, n)`, here the raw draw `raw` of the generator reduced modulo `n`. -/
def Intn (raw : Nat) (n : Nat) : Option Nat :=
  if n = 0 then none else some (raw % n)

/-- The loop of `GenRandomString` (lines 60-62) over the indices of `b`; `r i`
is the raw value that the generator yields at its `i`-th draw after the call
starts. `none` is a run-time panic, of `Intn` or of the index expression
`letterRunes[...]`. -/
def fillRunes (r : Nat → Nat) : List Nat → List Char → Option (List Char)
  | [], b => some b
  | i :: rest, b =>
    match Intn (r i) letterRunes.length with
    | none => none
    | some idx =>
      match letterRunes[idx]? with
      | none => none
      | some rune => fillRunes r rest (b.set i rune)

/-- The function `GenRandomString` (lines 58-64) for the generator `r`;
`make([]rune, n)` panics for a negative `n` and otherwise yields `n` zero
runes. -/
def GenRandomString (r : Nat → Nat) (n : Int) : Option String :=
  if n < 0 then none
  else
    (fillRunes r (List.range n.toNat) (List.replicate n.toNat (Char.ofNat 0))).map String.mk

/-- The rules for a name that `TestCreateCollectionInvalidName` (lines 94-100)
expects the service to enforce: the name is not empty, begins with an underscore
or a letter, and has fewer than 255 characters. -/
def passesNameRules (name : String) : Bool :=
  match name.data with
  | [] => false
  | first :: _ => (first == '_' || first.isAlpha) && decide (name.length < 255)

/-! ## The other methods of `client_grpc_partition.go` -/

/-- The method `CreatePartition` (lines 26-51). -/
def CreatePartition (c : grpcClient) (collName partitionName : String) (tr : List Event) :
    Option Error × List Event :=
  match c.service with
  | none => (some Error.ErrClientNotReady, tr)
  | some service =>
    let err := c.checkCollectionExists tr collName
    let tr1 := tr ++ [Event.checkCollectionExists collName err]
    match err with
    | some e => (some e, tr1)
    | none =>
      match HasPartition c collName partitionName tr1 with
      | ((_, some e), tr2) => (some e, tr2)
      | ((has, none), tr2) =>
        if has then
          (some (Error.New ("partition " ++ partitionName ++ " of collection " ++ collName ++
            " already exists")), tr2)
        else
          let reply := service.CreatePartition tr2 collName partitionName
          let tr3 := tr2 ++ [Event.CreatePartition collName partitionName reply]
          match reply with
          | Reply.fail e => (some e, tr3)
          | Reply.ok resp => (handleRespStatus resp, tr3)

/-- The method `DropPartition` (lines 70-87). -/
def DropPartition (c : grpcClient) (collName partitionName : String) (tr : List Event) :
    Option Error × List Event :=
  match c.service with
  | none => (some Error.ErrClientNotReady, tr)
  | some service =>
    match checkPartitionExists c collName partitionName tr with
    | (some err, tr1) => (some err, tr1)
    | (none, tr1) =>
      let reply := service.DropPartition tr1 collName partitionName
      let tr2 := tr1 ++ [Event.DropPartition collName partitionName reply]
      match reply with
      | Reply.fail e => (some e, tr2)
      | Reply.ok resp => (handleRespStatus resp, tr2)

/-- The method `ReleasePartitions` (lines 203-226). -/
def ReleasePartitions (c : grpcClient) (collName : String) (partitionNames : List String)
    (tr : List Event) : Option Error × List Event :=
  match c.service with
  | none => (some Error.ErrClientNotReady, tr)
  | some service =>
    match checkPartitions c collName partitionNames tr with
    | (some err, tr1) => (some err, tr1)
    | (none, tr1) =>
      let reply := service.ReleasePartitions tr1 collName partitionNames
      let tr2 := tr1 ++ [Event.ReleasePartitions collName partitionNames reply]
      match reply with
      | Reply.fail e => (some e, tr2)
      | Reply.ok resp => (handleRespStatus resp, tr2)

/-- A client without a service (`c.service == nil`); its other methods would
fail if they were reached. -/
def scenarioNotReady : grpcClient where
  service := none
  checkCollectionExists := fun _ _ => some (Error.remote "unreachable")
  GetPersistentSegmentInfo := fun _ _ => ([], some (Error.remote "unreachable"))
  GetQuerySegmentInfo := fun _ _ => ([], some (Error.remote "unreachable"))

/-- A client like `scenarioB` whose `GetPersistentSegmentInfo` fails and returns
no segments. -/
def scenarioStatsDown : grpcClient :=
  scriptedClient ["p"] [10] ["p"] (Reply.ok statusSuccess)
    ([], some (Error.remote "unavailable")) []

/-- The time, in milliseconds, that a trace spends in `time.Sleep`. -/
def sleepMillis : List Event → Nat
  | [] => 0
  | Event.Sleep milliseconds :: rest => milliseconds + sleepMillis rest
  | _ :: rest => sleepMillis rest

/-- Some entry of `current` with the id `id` has at least as many rows as the
segment `expected` that the target map holds for `id`. -/
def reachedBy (current : List Segment) (id : Int) (expected : Option Segment) : Bool :=
  match expected with
  | none => false
  | some ts => current.any (fun s => decide (s.ID = id) && decide (s.NumRows ≥ ts.NumRows))

/-! ## Column data of `test/common/utils.go` -/

/-- The value `entity.NewColumnInt64(name, values)`: the constructor, declared
in package `entity`, keeps its arguments. -/
structure ColumnInt64 where
  name : String
  values : List Int
deriving DecidableEq, Repr

/-- The value `entity.NewColumnFloat(name, values)`, over a type `φ` of
`float32` values. -/
structure ColumnFloat (φ : Type) where
  name : String
  values : List φ

/-- The value `entity.NewColumnFloatVector(name, dim, values)`: the column is
declared with the dimension `dim`. -/
structure ColumnFloatVector (φ : Type) where
  name : String
  dim : Int
  values : List (List φ)

/-- The inner loop of `GenDefaultColumnData` (lines 198-201): `vec` after
`for j := 0; j < dim; j++ { vec = append(vec, rand.Float32()) }`, when `drawn`
values have been drawn before; `rand k` is the `k`-th value that
`rand.Float32()` yields. -/
def genVec {φ : Type} (rand : Nat → φ) (dim : Int) (drawn : Nat) : List φ :=
  (List.range dim.toNat).foldl (fun vec j => vec ++ [rand (drawn + j)]) []

/-- The function `GenDefaultColumnData` (lines 191-208). `float32` is the
conversion `float32(i)`; `make` with a negative capacity `nb` panics (`none`).
The state of the outer loop is the three slices and the number of values drawn
from the generator. -/
def GenDefaultColumnData {φ : Type} (float32 : Int → φ) (rand : Nat → φ) (nb dim : Int) :
    Option (ColumnInt64 × ColumnFloat φ × ColumnFloatVector φ) :=
  if nb < 0 then none
  else
    let state := (List.range nb.toNat).foldl
      (fun (st : (List Int × List φ × List (List φ)) × Nat) (i : Nat) =>
        ((st.1.1 ++ [Int.ofNat i], st.1.2.1 ++ [float32 (Int.ofNat i)],
          st.1.2.2 ++ [genVec rand dim st.2]), st.2 + dim.toNat))
      (([], [], []), 0)
    some (⟨DefaultIntFieldName, state.1.1⟩, ⟨DefaultFloatFieldName, state.1.2.1⟩,
      ⟨DefaultFloatVecFieldName, DefaultDim, state.1.2.2⟩)

/-- The invocation gets past validation, lines 131-155 of `LoadPartitions`: the
service is set, every existence check passes, `ShowPartitions` returns a listing
without error or panic, and every requested name is in the listing. -/
def validationPasses (c : grpcClient) (collName : String) (partitionNames : List String) :
    Prop :=
  ∃ service checks resp partitions ids,
    c.service = some service ∧
    checkPartitions c collName partitionNames [] = (none, checks) ∧
    service.ShowPartitions checks collName = Reply.ok resp ∧
    pairPartitions resp.PartitionNames resp.PartitionIDs 0 [] = some partitions ∧
    resolveIDs collName (nameMap partitions []) partitionNames [] = Except.ok ids

/-! ## Facts about Go maps -/

namespace GoMap

variable {κ β : Type} [DecidableEq κ]

theorem lookup_delete (m : GoMap κ β) (key id : κ) :
    lookup (delete m key) id = if id = key then none else lookup m id := by
  induction m with
  | nil => simp [delete, lookup]
  | cons e rest ih =>
    obtain ⟨k, v⟩ := e
    by_cases hk : k = key
    · subst hk
      have hd : delete ((k, v) :: rest) k = delete rest k := by simp [delete]
      rw [hd, ih]
      by_cases hid : id = k
      · simp [hid]
      · have hne : ¬ k = id := fun h => hid h.symm
        simp [hid, lookup, hne]
    · have hd : delete ((k, v) :: rest) key = (k, v) :: delete rest key := by
        simp [delete, hk]
      rw [hd]
      by_cases hid : id = key
      · subst hid
        simp only [lookup, if_neg hk, ih, if_true]
      · simp only [lookup, ih, if_neg hid]

theorem lookup_store (m : GoMap κ β) (key id : κ) (v : β) :
    lookup (store m key v) id = if id = key then some v else lookup m id := by
  by_cases hid : id = key
  · subst hid
    simp [store, lookup]
  · have hne : ¬ key = id := fun h => hid h.symm
    simp [store, lookup, hne, lookup_delete, hid]

theorem mem_keys_iff (m : GoMap κ β) (id : κ) :
    id ∈ keys m ↔ ∃ v, lookup m id = some v := by
  induction m with
  | nil => simp [keys, lookup]
  | cons e rest ih =>
    obtain ⟨k, v⟩ := e
    have hk : keys ((k, v) :: rest) = k :: keys rest := rfl
    rw [hk, List.mem_cons, ih]
    by_cases h : k = id
    · subst h
      simp [lookup]
    · have hne : ¬ id = k := fun h2 => h h2.symm
      simp [lookup, h, hne]

end GoMap

theorem GoMap.len_eq_zero_iff {κ β : Type} (m : GoMap κ β) : GoMap.len m = 0 ↔ m = [] := by
  simp [GoMap.len]

/-! ## Facts about the snapshot and the reconciliation pass -/

theorem lookup_reconcile (target : GoMap Int Segment) (current : List Segment) (id : Int)
    (ts : Segment) :
    GoMap.lookup (reconcile target current) id = some ts ↔
      GoMap.lookup target id = some ts ∧ ∀ s ∈ current, s.ID = id → s.NumRows < ts.NumRows := by
  induction current generalizing target with
  | nil => simp [reconcile]
  | cons segment rest ih =>
    cases hl : GoMap.lookup target segment.ID with
    | none =>
      have hr : reconcile target (segment :: rest) = reconcile target rest := by
        simp [reconcile, hl]
      rw [hr, ih]
      constructor
      · rintro ⟨h1, h2⟩
        refine ⟨h1, ?_⟩
        intro s hs hid
        rcases List.mem_cons.mp hs with rfl | hs
        · rw [hid, h1] at hl
          exact absurd hl (by simp)
        · exact h2 s hs hid
      · rintro ⟨h1, h2⟩
        exact ⟨h1, fun s hs => h2 s (List.mem_cons_of_mem _ hs)⟩
    | some t0 =>
      by_cases hge : segment.NumRows ≥ t0.NumRows
      · have hr : reconcile target (segment :: rest) =
            reconcile (GoMap.delete target segment.ID) rest := by
          simp [reconcile, hl, hge]
        rw [hr, ih, GoMap.lookup_delete]
        by_cases hid : id = segment.ID
        · subst hid
          simp only [if_true]
          constructor
          · rintro ⟨h1, _⟩
            exact absurd h1 (by simp)
          · rintro ⟨h1, h2⟩
            rw [hl] at h1
            have h3 := h2 segment (List.mem_cons_self _ _) rfl
            have h4 : t0 = ts := Option.some.inj h1
            subst h4
            omega
        · simp only [if_neg hid]
          constructor
          · rintro ⟨h1, h2⟩
            refine ⟨h1, ?_⟩
            intro s hs hsid
            rcases List.mem_cons.mp hs with rfl | hs
            · exact absurd hsid.symm hid
            · exact h2 s hs hsid
          · rintro ⟨h1, h2⟩
            exact ⟨h1, fun s hs => h2 s (List.mem_cons_of_mem _ hs)⟩
      · have hr : reconcile target (segment :: rest) = reconcile target rest := by
          simp [reconcile, hl, hge]
        rw [hr, ih]
        constructor
        · rintro ⟨h1, h2⟩
          refine ⟨h1, ?_⟩
          intro s hs hid
          rcases List.mem_cons.mp hs with rfl | hs
          · rw [hid, h1] at hl
            have h4 : ts = t0 := Option.some.inj hl
            subst h4
            omega
          · exact h2 s hs hid
        · rintro ⟨h1, h2⟩
          exact ⟨h1, fun s hs => h2 s (List.mem_cons_of_mem _ hs)⟩

theorem lookup_capture (ids : GoMap Int Unit) (segments : List Segment)
    (target : GoMap Int Segment) (id : Int) (ts : Segment)
    (h : GoMap.lookup (capture ids segments target) id = some ts) :
    GoMap.lookup target id = some ts ∨
      (ts ∈ segments ∧ ts.ID = id ∧ ts.NumRows ≠ 0 ∧ ts.ParititionID ∈ GoMap.keys ids) := by
  induction segments generalizing target with
  | nil => exact Or.inl h
  | cons segment rest ih =>
    have lift : (ts ∈ rest ∧ ts.ID = id ∧ ts.NumRows ≠ 0 ∧ ts.ParititionID ∈ GoMap.keys ids) →
        (ts ∈ segment :: rest ∧ ts.ID = id ∧ ts.NumRows ≠ 0 ∧
          ts.ParititionID ∈ GoMap.keys ids) :=
      fun ⟨a, b⟩ => ⟨List.mem_cons_of_mem _ a, b⟩
    by_cases h0 : segment.NumRows = 0
    · have hr : capture ids (segment :: rest) target = capture ids rest target := by
        simp [capture, h0]
      rw [hr] at h
      exact (ih target h).imp (fun x => x) lift
    · cases hp : GoMap.lookup ids segment.ParititionID with
      | none =>
        have hr : capture ids (segment :: rest) target = capture ids rest target := by
          simp [capture, h0, hp]
        rw [hr] at h
        exact (ih target h).imp (fun x => x) lift
      | some u =>
        have hr : capture ids (segment :: rest) target =
            capture ids rest (GoMap.store target segment.ID segment) := by
          simp [capture, h0, hp]
        rw [hr] at h
        rcases ih _ h with h1 | h1
        · rw [GoMap.lookup_store] at h1
          by_cases hid : id = segment.ID
          · rw [if_pos hid] at h1
            have h4 : segment = ts := Option.some.inj h1
            subst h4
            right
            exact ⟨List.mem_cons_self _ _, hid.symm, h0,
              (GoMap.mem_keys_iff ids _).mpr ⟨u, hp⟩⟩
          · rw [if_neg hid] at h1
            exact Or.inl h1
        · exact Or.inr (lift h1)

theorem mem_keys_capture (ids : GoMap Int Unit) (segments : List Segment)
    (target : GoMap Int Segment) (id : Int) :
    id ∈ GoMap.keys (capture ids segments target) ↔
      id ∈ GoMap.keys target ∨
        ∃ s ∈ segments, s.ID = id ∧ s.ParititionID ∈ GoMap.keys ids ∧ s.NumRows ≠ 0 := by
  induction segments generalizing target with
  | nil => simp [capture]
  | cons segment rest ih =>
    by_cases h0 : segment.NumRows = 0
    · have hr : capture ids (segment :: rest) target = capture ids rest target := by
        simp [capture, h0]
      rw [hr, ih]
      constructor
      · rintro (h | ⟨s, hs, h⟩)
        · exact Or.inl h
        · exact Or.inr ⟨s, List.mem_cons_of_mem _ hs, h⟩
      · rintro (h | ⟨s, hs, h⟩)
        · exact Or.inl h
        · rcases List.mem_cons.mp hs with rfl | hs
          · exact absurd h0 h.2.2
          · exact Or.inr ⟨s, hs, h⟩
    · cases hp : GoMap.lookup ids segment.ParititionID with
      | none =>
        have hr : capture ids (segment :: rest) target = capture ids rest target := by
          simp [capture, h0, hp]
        have hnot : ¬ segment.ParititionID ∈ GoMap.keys ids := by
          rw [GoMap.mem_keys_iff]
          rintro ⟨v, hv⟩
          rw [hp] at hv
          exact absurd hv (by simp)
        rw [hr, ih]
        constructor
        · rintro (h | ⟨s, hs, h⟩)
          · exact Or.inl h
          · exact Or.inr ⟨s, List.mem_cons_of_mem _ hs, h⟩
        · rintro (h | ⟨s, hs, h⟩)
          · exact Or.inl h
          · rcases List.mem_cons.mp hs with rfl | hs
            · exact absurd h.2.1 hnot
            · exact Or.inr ⟨s, hs, h⟩
      | some u =>
        have hr : capture ids (segment :: rest) target =
            capture ids rest (GoMap.store target segment.ID segment) := by
          simp [capture, h0, hp]
        have hin : segment.ParititionID ∈ GoMap.keys ids :=
          (GoMap.mem_keys_iff ids _).mpr ⟨u, hp⟩
        have hst : id ∈ GoMap.keys (GoMap.store target segment.ID segment) ↔
            id = segment.ID ∨ id ∈ GoMap.keys target := by
          rw [GoMap.mem_keys_iff, GoMap.mem_keys_iff]
          by_cases hid : id = segment.ID
          · simp [GoMap.lookup_store, hid]
          · simp [GoMap.lookup_store, hid]
        rw [hr, ih, hst]
        constructor
        · rintro ((h | h) | ⟨s, hs, h⟩)
          · exact Or.inr ⟨segment, List.mem_cons_self _ _, h.symm, hin, h0⟩
          · exact Or.inl h
          · exact Or.inr ⟨s, List.mem_cons_of_mem _ hs, h⟩
        · rintro (h | ⟨s, hs, h⟩)
          · exact Or.inl (Or.inr h)
          · rcases List.mem_cons.mp hs with rfl | hs
            · exact Or.inl (Or.inl h.1.symm)
            · exact Or.inr ⟨s, hs, h⟩

/-! ## The claims about the snapshot and one poll cycle -/

/-- C1: one successful poll cycle leaves a segment id pending if and only if it
was pending before and the observed list has no entry of that id whose row count
reaches the expected row count of the target; Scenario A is the run on targets
seg1 with 100 rows and seg2 with 50 rows. -/
theorem reconcile_pending_iff :
    (∀ (target : GoMap Int Segment) (current : List Segment) (id : Int),
      id ∈ GoMap.keys (pollCycle target (current, none)) ↔
        (id ∈ GoMap.keys target ∧
          ¬ ∃ s ∈ current, s.ID = id ∧
            ∃ ts, GoMap.lookup target id = some ts ∧ s.NumRows ≥ ts.NumRows)) ∧
    (∀ p q : Int,
      pollCycle [(1, ⟨1, p, 100⟩), (2, ⟨2, p, 50⟩)] ([⟨1, q, 100⟩], none) =
        [(2, ⟨2, p, 50⟩)] ∧
      pollCycle [(2, ⟨2, p, 50⟩)] ([⟨2, q, 49⟩], none) = [(2, ⟨2, p, 50⟩)] ∧
      pollCycle [(2, ⟨2, p, 50⟩)] ([⟨2, q, 50⟩], none) = []) := by
  refine ⟨?_, ?_⟩
  · intro target current id
    have hp : pollCycle target (current, none) = reconcile target current := rfl
    rw [hp, GoMap.mem_keys_iff, GoMap.mem_keys_iff]
    constructor
    · rintro ⟨ts, h⟩
      obtain ⟨h1, h2⟩ := (lookup_reconcile target current id ts).mp h
      refine ⟨⟨ts, h1⟩, ?_⟩
      rintro ⟨s, hs, hid, t1, ht1, hge⟩
      rw [h1] at ht1
      have h4 : ts = t1 := Option.some.inj ht1
      subst h4
      have := h2 s hs hid
      omega
    · rintro ⟨⟨ts, h1⟩, h2⟩
      refine ⟨ts, (lookup_reconcile target current id ts).mpr ⟨h1, ?_⟩⟩
      intro s hs hid
      by_contra hlt
      exact h2 ⟨s, hs, hid, ts, h1, by omega⟩
  · intro p q
    simp [pollCycle, reconcile, GoMap.lookup, GoMap.delete]

/-- C2: every entry of the captured snapshot is an input segment stored under
its own id, with a row count other than 0 and a partition id in the resolved
set; so its expected row count is the row count of that input segment, and no
zero-row segment and no segment outside the set contributes an entry. -/
theorem capture_entries_sound (ids : GoMap Int Unit) (segments : List Segment) (id : Int)
    (ts : Segment) :
    GoMap.lookup (capture ids segments []) id = some ts →
      ts ∈ segments ∧ ts.ID = id ∧ ts.NumRows ≠ 0 ∧ ts.ParititionID ∈ GoMap.keys ids := by
  intro h
  rcases lookup_capture ids segments [] id ts h with h1 | h1
  · simp [GoMap.lookup] at h1
  · exact h1

/-- A run of C2: of three listed segments, one with no rows and one in a
partition that was not requested, only the third enters the snapshot. -/
theorem capture_entries_sound_witness :
    GoMap.lookup (capture [(10, ())] [⟨1, 10, 0⟩, ⟨2, 11, 5⟩, ⟨3, 10, 7⟩] []) 3 =
        some ⟨3, 10, 7⟩ ∧
      ((⟨3, 10, 7⟩ : Segment) ∈ [(⟨1, 10, 0⟩ : Segment), ⟨2, 11, 5⟩, ⟨3, 10, 7⟩] ∧
        (⟨3, 10, 7⟩ : Segment).ID = 3 ∧ (⟨3, 10, 7⟩ : Segment).NumRows ≠ 0 ∧
        (⟨3, 10, 7⟩ : Segment).ParititionID ∈ GoMap.keys [((10 : Int), ())]) :=
  ⟨by decide, capture_entries_sound [(10, ())] [⟨1, 10, 0⟩, ⟨2, 11, 5⟩, ⟨3, 10, 7⟩] 3
    ⟨3, 10, 7⟩ (by decide)⟩

/-- C3 as stated fails: a listed segment of a requested partition whose row
count is negative is a key of the snapshot, although no listed segment has a row
count greater than zero. -/
theorem capture_keys_positive_counterexample :
    ¬ (∀ (ids : GoMap Int Unit) (segments : List Segment) (id : Int),
        id ∈ GoMap.keys (capture ids segments []) ↔
          ∃ s ∈ segments, s.ID = id ∧ s.ParititionID ∈ GoMap.keys ids ∧ s.NumRows > 0) := by
  intro h
  have h1 := (h [(1, ())] [⟨7, 1, -1⟩] 7).mp (by decide)
  obtain ⟨s, hs, _, _, hpos⟩ := h1
  simp at hs
  subst hs
  simp at hpos

/-- C3, amended: an id is a key of the captured snapshot if and only if some
listed segment has that id, a partition id in the resolved set, and a row count
other than zero. -/
theorem capture_keys_iff (ids : GoMap Int Unit) (segments : List Segment) (id : Int) :
    id ∈ GoMap.keys (capture ids segments []) ↔
      ∃ s ∈ segments, s.ID = id ∧ s.ParititionID ∈ GoMap.keys ids ∧ s.NumRows ≠ 0 := by
  rw [mem_keys_capture]
  simp [GoMap.keys]

/-! ## Facts about the wait loop -/

theorem runPolls_cons (target : GoMap Int Segment) (poll : List Segment × Option Error)
    (rest : List (List Segment × Option Error)) :
    runPolls target (poll :: rest) = runPolls (pollCycle target poll) rest := rfl

theorem waitLoop_shape (c : grpcClient) (collName : String) (fuel : Nat) :
    ∀ (target : GoMap Int Segment) (tr : List Event),
      ∃ polls : List (List Segment × Option Error),
        polls.length ≤ fuel ∧
        waitLoop c collName fuel target tr =
          (decide (GoMap.len (runPolls target polls) = 0), runPolls target polls,
            tr ++ pollEvents collName polls) ∧
        (∀ k, k < polls.length → 0 < GoMap.len (runPolls target (polls.take k))) ∧
        (0 < GoMap.len (runPolls target polls) → polls.length = fuel) := by
  induction fuel with
  | zero =>
    intro target tr
    refine ⟨[], le_refl _, ?_, ?_, ?_⟩
    · simp [waitLoop, runPolls, pollEvents]
    · intro k hk
      simp at hk
    · intro _
      rfl
  | succ fuel ih =>
    intro target tr
    by_cases hlen : GoMap.len target > 0
    · obtain ⟨polls, hle, heq, hpend, hfull⟩ :=
        ih (pollCycle target (c.GetQuerySegmentInfo tr collName))
          ((tr ++ [Event.GetQuerySegmentInfo collName (c.GetQuerySegmentInfo tr collName).1
            (c.GetQuerySegmentInfo tr collName).2]) ++ [Event.Sleep 100])
      refine ⟨c.GetQuerySegmentInfo tr collName :: polls, ?_, ?_, ?_, ?_⟩
      · simp only [List.length_cons]
        omega
      · have hw : waitLoop c collName (fuel + 1) target tr =
            waitLoop c collName fuel (pollCycle target (c.GetQuerySegmentInfo tr collName))
              ((tr ++ [Event.GetQuerySegmentInfo collName (c.GetQuerySegmentInfo tr collName).1
                (c.GetQuerySegmentInfo tr collName).2]) ++ [Event.Sleep 100]) := by
          simp [waitLoop, hlen]
        rw [hw, heq, runPolls_cons]
        simp [pollEvents]
      · intro k hk
        cases k with
        | zero => simpa [runPolls] using hlen
        | succ k =>
          simp only [List.take_succ_cons, runPolls_cons]
          apply hpend
          simp only [List.length_cons] at hk
          omega
      · intro hpos
        rw [runPolls_cons] at hpos
        simp only [List.length_cons]
        rw [hfull hpos]
    · refine ⟨[], Nat.zero_le _, ?_, ?_, ?_⟩
      · have h0 : GoMap.len target = 0 := by omega
        simp [waitLoop, runPolls, pollEvents, h0]
      · intro k hk
        simp at hk
      · intro hpos
        exact absurd hpos hlen

theorem runPolls_covered (polls : List (List Segment × Option Error)) :
    ∀ (target : GoMap Int Segment) (id : Int) (ts : Segment),
      GoMap.lookup target id = some ts →
      GoMap.lookup (runPolls target polls) id ≠ some ts →
      ∃ poll ∈ polls, poll.2 = none ∧ ∃ s ∈ poll.1, s.ID = id ∧ s.NumRows ≥ ts.NumRows := by
  induction polls with
  | nil =>
    intro target id ts h hne
    exact absurd h hne
  | cons poll rest ih =>
    intro target id ts h hne
    rw [runPolls_cons] at hne
    by_cases hstep : GoMap.lookup (pollCycle target poll) id = some ts
    · obtain ⟨q, hq, hrest⟩ := ih _ id ts hstep hne
      exact ⟨q, List.mem_cons_of_mem _ hq, hrest⟩
    · obtain ⟨current, err⟩ := poll
      cases err with
      | some e => exact absurd h hstep
      | none =>
        have hrec : ¬ (GoMap.lookup target id = some ts ∧
            ∀ s ∈ current, s.ID = id → s.NumRows < ts.NumRows) :=
          fun hc => hstep ((lookup_reconcile target current id ts).mpr hc)
        have hex : ∃ s ∈ current, s.ID = id ∧ s.NumRows ≥ ts.NumRows := by
          by_contra hno
          apply hrec
          refine ⟨h, ?_⟩
          intro s hs hid
          by_contra hlt
          exact hno ⟨s, hs, hid, by omega⟩
        exact ⟨(current, none), List.mem_cons_self _ _, rfl, hex⟩

theorem validateAndLoad_cases (c : grpcClient) (collName : String)
    (partitionNames : List String) :
    (c.service = none ∧
      validateAndLoad c collName partitionNames =
        (Except.error (Outcome.returned (some Error.ErrClientNotReady)), [])) ∨
    ∃ service, c.service = some service ∧
      ((∃ e tr, checkPartitions c collName partitionNames [] = (some e, tr) ∧
          validateAndLoad c collName partitionNames =
            (Except.error (Outcome.returned (some e)), tr)) ∨
       ∃ tr, checkPartitions c collName partitionNames [] = (none, tr) ∧
        ((∃ e, service.ShowPartitions tr collName = Reply.fail e ∧
            validateAndLoad c collName partitionNames =
              (Except.error (Outcome.returned (some e)),
                tr ++ [Event.ShowPartitions collName (Reply.fail e)])) ∨
         ∃ resp, service.ShowPartitions tr collName = Reply.ok resp ∧
          ((pairPartitions resp.PartitionNames resp.PartitionIDs 0 [] = none ∧
              validateAndLoad c collName partitionNames =
                (Except.error Outcome.panicked,
                  tr ++ [Event.ShowPartitions collName (Reply.ok resp)])) ∨
           ∃ partitions,
            pairPartitions resp.PartitionNames resp.PartitionIDs 0 [] = some partitions ∧
            ((∃ e, resolveIDs collName (nameMap partitions []) partitionNames [] =
                  Except.error e ∧
                validateAndLoad c collName partitionNames =
                  (Except.error (Outcome.returned (some e)),
                    tr ++ [Event.ShowPartitions collName (Reply.ok resp)])) ∨
             ∃ ids, resolveIDs collName (nameMap partitions []) partitionNames [] =
                Except.ok ids ∧
              ((∃ e, service.LoadPartitions
                    (tr ++ [Event.ShowPartitions collName (Reply.ok resp)]) collName
                    partitionNames = Reply.fail e ∧
                  validateAndLoad c collName partitionNames =
                    (Except.error (Outcome.returned (some e)),
                      (tr ++ [Event.ShowPartitions collName (Reply.ok resp)]) ++
                        [Event.LoadPartitions collName partitionNames (Reply.fail e)])) ∨
               ∃ st, service.LoadPartitions
                    (tr ++ [Event.ShowPartitions collName (Reply.ok resp)]) collName
                    partitionNames = Reply.ok st ∧
                ((∃ e, handleRespStatus st = some e ∧
                    validateAndLoad c collName partitionNames =
                      (Except.error (Outcome.returned (some e)),
                        (tr ++ [Event.ShowPartitions collName (Reply.ok resp)]) ++
                          [Event.LoadPartitions collName partitionNames (Reply.ok st)])) ∨
                 (handleRespStatus st = none ∧
                    validateAndLoad c collName partitionNames =
                      (Except.ok ids,
                        (tr ++ [Event.ShowPartitions collName (Reply.ok resp)]) ++
                          [Event.LoadPartitions collName partitionNames
                            (Reply.ok st)])))))))) := by
  cases hs : c.service with
  | none =>
    left
    exact ⟨rfl, by simp [validateAndLoad, hs]⟩
  | some service =>
    right
    refine ⟨service, rfl, ?_⟩
    cases hc : checkPartitions c collName partitionNames [] with
    | mk res tr =>
      cases res with
      | some e =>
        left
        exact ⟨e, tr, rfl, by simp [validateAndLoad, hs, hc]⟩
      | none =>
        right
        refine ⟨tr, rfl, ?_⟩
        cases hsh : service.ShowPartitions tr collName with
        | fail e =>
          left
          exact ⟨e, rfl, by simp [validateAndLoad, hs, hc, ShowPartitions, hsh]⟩
        | ok resp =>
          right
          refine ⟨resp, rfl, ?_⟩
          cases hpp : pairPartitions resp.PartitionNames resp.PartitionIDs 0 [] with
          | none =>
            left
            exact ⟨rfl, by simp [validateAndLoad, hs, hc, ShowPartitions, hsh, hpp]⟩
          | some partitions =>
            right
            refine ⟨partitions, rfl, ?_⟩
            cases hr : resolveIDs collName (nameMap partitions []) partitionNames [] with
            | error e =>
              left
              exact ⟨e, rfl, by simp [validateAndLoad, hs, hc, ShowPartitions, hsh, hpp, hr]⟩
            | ok ids =>
              right
              refine ⟨ids, rfl, ?_⟩
              cases hl : service.LoadPartitions
                  (tr ++ [Event.ShowPartitions collName (Reply.ok resp)]) collName
                  partitionNames with
              | fail e =>
                left
                exact ⟨e, rfl,
                  by simp [validateAndLoad, hs, hc, ShowPartitions, hsh, hpp, hr, hl]⟩
              | ok st =>
                right
                refine ⟨st, rfl, ?_⟩
                cases hh : handleRespStatus st with
                | some e =>
                  left
                  exact ⟨e, rfl,
                    by simp [validateAndLoad, hs, hc, ShowPartitions, hsh, hpp, hr, hl, hh]⟩
                | none =>
                  right
                  exact ⟨rfl,
                    by simp [validateAndLoad, hs, hc, ShowPartitions, hsh, hpp, hr, hl, hh]⟩

theorem LoadPartitions_cases (c : grpcClient) (fuel : Nat) (collName : String)
    (partitionNames : List String) (async : Bool) :
    (∃ out tr, validateAndLoad c collName partitionNames = (Except.error out, tr) ∧
        LoadPartitions c fuel collName partitionNames async = (out, tr)) ∨
    ∃ ids tr2, validateAndLoad c collName partitionNames = (Except.ok ids, tr2) ∧
      ((async = true ∧
          LoadPartitions c fuel collName partitionNames async = (Outcome.returned none, tr2)) ∨
       (async = false ∧
          ∃ polls : List (List Segment × Option Error),
            polls.length ≤ fuel ∧
            (∀ k, k < polls.length →
              0 < GoMap.len (runPolls (snapshotAt c collName ids tr2) (polls.take k))) ∧
            ((runPolls (snapshotAt c collName ids tr2) polls = [] ∧
                LoadPartitions c fuel collName partitionNames async =
                  (Outcome.returned none,
                    (tr2 ++ [persistentEvent c collName tr2]) ++ pollEvents collName polls)) ∨
             (runPolls (snapshotAt c collName ids tr2) polls ≠ [] ∧ polls.length = fuel ∧
                LoadPartitions c fuel collName partitionNames async =
                  (Outcome.waiting,
                    (tr2 ++ [persistentEvent c collName tr2]) ++
                      pollEvents collName polls))))) := by
  cases hv : validateAndLoad c collName partitionNames with
  | mk res tr =>
    cases res with
    | error out =>
      left
      exact ⟨out, tr, rfl, by simp [LoadPartitions, hv]⟩
    | ok ids =>
      right
      refine ⟨ids, tr, rfl, ?_⟩
      cases async with
      | true =>
        left
        exact ⟨rfl, by simp [LoadPartitions, hv]⟩
      | false =>
        right
        refine ⟨rfl, ?_⟩
        obtain ⟨polls, hle, heq, hpend, hfull⟩ :=
          waitLoop_shape c collName fuel (snapshotAt c collName ids tr)
            (tr ++ [persistentEvent c collName tr])
        refine ⟨polls, hle, hpend, ?_⟩
        have hL : LoadPartitions c fuel collName partitionNames false =
            match waitLoop c collName fuel (snapshotAt c collName ids tr)
              (tr ++ [persistentEvent c collName tr]) with
            | (true, _, tr4) => (Outcome.returned none, tr4)
            | (false, _, tr4) => (Outcome.waiting, tr4) := by
          simp [LoadPartitions, hv, snapshotAt, persistentEvent]
        rw [hL, heq]
        by_cases hz : runPolls (snapshotAt c collName ids tr) polls = []
        · left
          refine ⟨hz, ?_⟩
          simp [hz, GoMap.len]
        · right
          have hlen : ¬ GoMap.len (runPolls (snapshotAt c collName ids tr) polls) = 0 := by
            rw [GoMap.len_eq_zero_iff]
            exact hz
          refine ⟨hz, hfull (by omega), ?_⟩
          simp [hlen]

theorem validateAndLoad_error_is_failure (c : grpcClient) (collName : String)
    (partitionNames : List String) (out : Outcome) (tr : List Event)
    (h : validateAndLoad c collName partitionNames = (Except.error out, tr)) :
    out = Outcome.panicked ∨ ∃ e, out = Outcome.returned (some e) := by
  rcases validateAndLoad_cases c collName partitionNames with
    ⟨_, hv⟩ | ⟨service, _, ⟨e, tr0, _, hv⟩ | ⟨tr0, _, ⟨e, _, hv⟩ | ⟨resp, _, ⟨_, hv⟩ |
      ⟨partitions, _, ⟨e, _, hv⟩ | ⟨ids, _, ⟨e, _, hv⟩ | ⟨st, _, ⟨e, _, hv⟩ | ⟨_, hv⟩⟩⟩⟩⟩⟩⟩
  all_goals (rw [hv] at h; simp only [Prod.mk.injEq, Except.error.injEq, reduceCtorEq,
    false_and] at h)
  all_goals (obtain ⟨h1, _⟩ := h; subst h1; simp)

/-! ## The claims about the wait loop -/

/-- C4: when the synchronous `LoadPartitions` returns success, the load request
had been acknowledged, the trace ends with the polls of the wait loop, the
pending set after these polls is empty, and every segment id of the captured
snapshot occurs in one of these polls that succeeded, with at least its
expected number of rows. -/
theorem LoadPartitions_sync_success_converged (c : grpcClient) (fuel : Nat)
    (collName : String) (partitionNames : List String) (tr : List Event)
    (h : LoadPartitions c fuel collName partitionNames false = (Outcome.returned none, tr)) :
    ∃ ids tr2, ∃ polls : List (List Segment × Option Error),
      validateAndLoad c collName partitionNames = (Except.ok ids, tr2) ∧
      tr = (tr2 ++ [persistentEvent c collName tr2]) ++ pollEvents collName polls ∧
      runPolls (snapshotAt c collName ids tr2) polls = [] ∧
      ∀ id ts, GoMap.lookup (snapshotAt c collName ids tr2) id = some ts →
        ∃ poll ∈ polls, poll.2 = none ∧ ∃ s ∈ poll.1, s.ID = id ∧ s.NumRows ≥ ts.NumRows := by
  rcases LoadPartitions_cases c fuel collName partitionNames false with
    ⟨out, tr0, hv, hL⟩ | ⟨ids, tr2, hv, ⟨hasync, _⟩ | ⟨_, polls, _, _, ⟨hz, hL⟩ | ⟨_, _, hL⟩⟩⟩
  · rw [hL] at h
    simp only [Prod.mk.injEq] at h
    rcases validateAndLoad_error_is_failure c collName partitionNames out tr0 hv with
      hp | ⟨e, he⟩
    · rw [hp] at h
      simp at h
    · rw [he] at h
      simp at h
  · simp at hasync
  · rw [hL] at h
    simp only [Prod.mk.injEq, true_and] at h
    refine ⟨ids, tr2, polls, hv, h.symm, hz, ?_⟩
    intro id ts hl
    apply runPolls_covered polls _ id ts hl
    rw [hz]
    simp [GoMap.lookup]
  · rw [hL] at h
    simp at h

/-- A run of C4: the synchronous load of `scenarioB` returns success after two
polls, the second of which shows segment 1 with its 10 expected rows. -/
theorem LoadPartitions_sync_success_converged_witness :
    LoadPartitions scenarioB 2 "c" ["p"] false = (Outcome.returned none, scenarioBTrace) ∧
    ∃ ids tr2, ∃ polls : List (List Segment × Option Error),
      validateAndLoad scenarioB "c" ["p"] = (Except.ok ids, tr2) ∧
      scenarioBTrace = (tr2 ++ [persistentEvent scenarioB "c" tr2]) ++ pollEvents "c" polls ∧
      runPolls (snapshotAt scenarioB "c" ids tr2) polls = [] ∧
      ∀ id ts, GoMap.lookup (snapshotAt scenarioB "c" ids tr2) id = some ts →
        ∃ poll ∈ polls, poll.2 = none ∧ ∃ s ∈ poll.1, s.ID = id ∧ s.NumRows ≥ ts.NumRows :=
  ⟨by decide,
    LoadPartitions_sync_success_converged scenarioB 2 "c" ["p"] scenarioBTrace (by decide)⟩

/-- C5: a poll cycle whose `GetQuerySegmentInfo` fails leaves the pending map
as it is, which is also what a successful poll with an empty list does; with
targets pending, the loop has not exited after that cycle and goes on from the
same map; once the load request is acknowledged `LoadPartitions` never returns
an error, whatever the polls return. Scenario B: with target seg1 of 10 rows, a
failed poll keeps seg1 pending, the second poll empties the pending map, and the
whole call returns success after two polls. -/
theorem poll_failure_tolerated :
    (∀ (target : GoMap Int Segment) (current : List Segment) (e : Error),
      pollCycle target (current, some e) = target ∧
      pollCycle target (current, some e) = pollCycle target ([], none)) ∧
    (∀ (c : grpcClient) (collName : String) (fuel : Nat) (target : GoMap Int Segment)
        (tr : List Event) (e : Error),
      0 < GoMap.len target → (c.GetQuerySegmentInfo tr collName).2 = some e →
        waitLoop c collName 1 target tr =
          (false, target,
            tr ++ [Event.GetQuerySegmentInfo collName (c.GetQuerySegmentInfo tr collName).1
              (some e), Event.Sleep 100]) ∧
        waitLoop c collName (fuel + 1) target tr =
          waitLoop c collName fuel target
            (tr ++ [Event.GetQuerySegmentInfo collName (c.GetQuerySegmentInfo tr collName).1
              (some e), Event.Sleep 100])) ∧
    (∀ (c : grpcClient) (fuel : Nat) (collName : String) (partitionNames : List String)
        (async : Bool) (ids : GoMap Int Unit) (tr2 : List Event),
      validateAndLoad c collName partitionNames = (Except.ok ids, tr2) →
        (LoadPartitions c fuel collName partitionNames async).1 = Outcome.returned none ∨
        (LoadPartitions c fuel collName partitionNames async).1 = Outcome.waiting) ∧
    (∀ (p q : Int) (current : List Segment) (e : Error),
      GoMap.keys (runPolls [(1, ⟨1, p, 10⟩)] [(current, some e)]) = [1] ∧
      GoMap.keys (runPolls [(1, ⟨1, p, 10⟩)] [(current, some e), ([⟨1, q, 10⟩], none)]) = []) ∧
    LoadPartitions scenarioB 2 "c" ["p"] false = (Outcome.returned none, scenarioBTrace) := by
  refine ⟨?_, ?_, ?_, ?_, by decide⟩
  · intro target current e
    exact ⟨rfl, rfl⟩
  · intro c collName fuel target tr e hlen herr
    have hstep : ∀ n, waitLoop c collName (n + 1) target tr =
        waitLoop c collName n target
          (tr ++ [Event.GetQuerySegmentInfo collName (c.GetQuerySegmentInfo tr collName).1
            (some e), Event.Sleep 100]) := by
      intro n
      have hp : pollCycle target (c.GetQuerySegmentInfo tr collName) = target := by
        simp [pollCycle, herr]
      simp [waitLoop, hlen, hp, herr]
    refine ⟨?_, hstep fuel⟩
    rw [hstep 0]
    simp [waitLoop, hlen]
  · intro c fuel collName partitionNames async ids tr2 hv
    rcases LoadPartitions_cases c fuel collName partitionNames async with
      ⟨out, tr0, hv2, _⟩ | ⟨ids2, tr3, _, ⟨_, hL⟩ | ⟨_, polls, _, _, ⟨_, hL⟩ | ⟨_, _, hL⟩⟩⟩
    · rw [hv] at hv2
      simp at hv2
    · left
      rw [hL]
    · left
      rw [hL]
    · right
      rw [hL]
  · intro p q current e
    simp [runPolls, pollCycle, reconcile, GoMap.lookup, GoMap.delete, GoMap.keys]

/-- A run of C5: the first poll of `scenarioB` fails; after that cycle the wait
loop on target seg1 has not exited and the target map is unchanged. -/
theorem poll_failure_tolerated_witness :
    0 < GoMap.len [((1 : Int), (⟨1, 10, 10⟩ : Segment))] ∧
    (scenarioB.GetQuerySegmentInfo [] "c").2 = some (Error.remote "timeout") ∧
    waitLoop scenarioB "c" 1 [(1, ⟨1, 10, 10⟩)] [] =
      (false, [(1, ⟨1, 10, 10⟩)],
        [] ++ [Event.GetQuerySegmentInfo "c" (scenarioB.GetQuerySegmentInfo [] "c").1
          (some (Error.remote "timeout")), Event.Sleep 100]) :=
  ⟨by decide, by decide,
    (poll_failure_tolerated.2.1 scenarioB "c" 0 [(1, ⟨1, 10, 10⟩)] []
      (Error.remote "timeout") (by decide) (by decide)).1⟩

/-! ## Facts about the existence checks -/

theorem checkPartitionExists_cases (c : grpcClient) (service : MilvusServiceClient)
    (collName partitionName : String) (tr : List Event) (hs : c.service = some service) :
    (∃ e, c.checkCollectionExists tr collName = some e ∧
        checkPartitionExists c collName partitionName tr =
          (some e, tr ++ [Event.checkCollectionExists collName (some e)])) ∨
    (c.checkCollectionExists tr collName = none ∧
      ((∃ e, checkPartitionExists c collName partitionName tr =
            (some e, tr ++ [Event.checkCollectionExists collName none,
              Event.HasPartition collName partitionName (Reply.fail e)])) ∨
       ∃ resp,
        (resp.Status.ErrorCode ≠ ErrorCode_Success ∧
          checkPartitionExists c collName partitionName tr =
            (some (Error.New "request failed"),
              tr ++ [Event.checkCollectionExists collName none,
                Event.HasPartition collName partitionName (Reply.ok resp)])) ∨
        (resp.Status.ErrorCode = ErrorCode_Success ∧ resp.Value = false ∧
          checkPartitionExists c collName partitionName tr =
            (some (Error.partNotExistsErr collName partitionName),
              tr ++ [Event.checkCollectionExists collName none,
                Event.HasPartition collName partitionName (Reply.ok resp)])) ∨
        (resp.Status.ErrorCode = ErrorCode_Success ∧ resp.Value = true ∧
          checkPartitionExists c collName partitionName tr =
            (none,
              tr ++ [Event.checkCollectionExists collName none,
                Event.HasPartition collName partitionName (Reply.ok resp)])))) := by
  cases hc : c.checkCollectionExists tr collName with
  | some e =>
    left
    exact ⟨e, rfl, by simp [checkPartitionExists, hc]⟩
  | none =>
    right
    refine ⟨rfl, ?_⟩
    cases hh : service.HasPartition (tr ++ [Event.checkCollectionExists collName none])
        collName partitionName with
    | fail e =>
      left
      exact ⟨e, by simp [checkPartitionExists, hc, HasPartition, hs, hh]⟩
    | ok resp =>
      right
      refine ⟨resp, ?_⟩
      by_cases hcode : resp.Status.ErrorCode = ErrorCode_Success
      · right
        cases hval : resp.Value with
        | false =>
          left
          exact ⟨hcode, rfl, by simp [checkPartitionExists, hc, HasPartition, hs, hh, hcode, hval]⟩
        | true =>
          right
          exact ⟨hcode, rfl, by simp [checkPartitionExists, hc, HasPartition, hs, hh, hcode, hval]⟩
      · left
        exact ⟨hcode, by simp [checkPartitionExists, hc, HasPartition, hs, hh, hcode]⟩

theorem hasPartitionNames_append (a b : List Event) :
    hasPartitionNames (a ++ b) = hasPartitionNames a ++ hasPartitionNames b := by
  induction a with
  | nil => rfl
  | cons e rest ih =>
    cases e <;> simp [hasPartitionNames, ih]

theorem checkPartitions_pass (c : grpcClient) (service : MilvusServiceClient)
    (collName : String) (hs : c.service = some service) (names : List String) :
    ∀ (tr0 tr : List Event), checkPartitions c collName names tr0 = (none, tr) →
      ∃ added, tr = tr0 ++ added ∧
        (∀ e ∈ added, e.isExistenceCheck = true ∧ e.reportsMissing = false) ∧
        hasPartitionNames added = names := by
  induction names with
  | nil =>
    intro tr0 tr h
    refine ⟨[], ?_, ?_, rfl⟩
    · simp [checkPartitions] at h
      simp [h]
    · intro e he
      simp at he
  | cons q rest ih =>
    intro tr0 tr h
    rcases checkPartitionExists_cases c service collName q tr0 hs with
      ⟨e, _, hq⟩ | ⟨_, ⟨e, hq⟩ | ⟨resp, ⟨_, hq⟩ | ⟨_, _, hq⟩ | ⟨hcode, hval, hq⟩⟩⟩
    · simp [checkPartitions, hq] at h
    · simp [checkPartitions, hq] at h
    · simp [checkPartitions, hq] at h
    · simp [checkPartitions, hq] at h
    · have h2 : checkPartitions c collName rest
          (tr0 ++ [Event.checkCollectionExists collName none,
            Event.HasPartition collName q (Reply.ok resp)]) = (none, tr) := by
        simpa [checkPartitions, hq] using h
      obtain ⟨added, htr, hall, hnames⟩ := ih _ _ h2
      refine ⟨[Event.checkCollectionExists collName none,
        Event.HasPartition collName q (Reply.ok resp)] ++ added, ?_, ?_, ?_⟩
      · rw [htr, List.append_assoc]
      · intro e he
        rcases List.mem_append.mp he with he | he
        · simp only [List.mem_cons, List.mem_singleton, List.not_mem_nil, or_false] at he
          rcases he with rfl | rfl
          · simp [Event.isExistenceCheck, Event.reportsMissing]
          · simp [Event.isExistenceCheck, Event.reportsMissing, hval]
        · exact hall e he
      · rw [hasPartitionNames_append, hnames]
        rfl

theorem checkPartitions_fail (c : grpcClient) (collName : String) (names : List String) :
    ∀ (tr0 tr : List Event) (err : Error),
      checkPartitions c collName names tr0 = (some err, tr) →
      ∃ pre q post tr1, names = pre ++ q :: post ∧
        checkPartitions c collName pre tr0 = (none, tr1) ∧
        checkPartitionExists c collName q tr1 = (some err, tr) := by
  induction names with
  | nil =>
    intro tr0 tr err h
    simp [checkPartitions] at h
  | cons q rest ih =>
    intro tr0 tr err h
    cases hq : checkPartitionExists c collName q tr0 with
    | mk res t1 =>
      cases res with
      | some e =>
        have h2 : e = err ∧ t1 = tr := by simpa [checkPartitions, hq] using h
        refine ⟨[], q, rest, tr0, rfl, rfl, ?_⟩
        rw [hq, h2.1, h2.2]
      | none =>
        have h2 : checkPartitions c collName rest t1 = (some err, tr) := by
          simpa [checkPartitions, hq] using h
        obtain ⟨pre, p, post, tr1, hn, hpre, hp⟩ := ih _ _ _ h2
        refine ⟨q :: pre, p, post, tr1, by rw [hn]; rfl, ?_, hp⟩
        simpa [checkPartitions, hq] using hpre

theorem mem_pollEvents (collName : String) (polls : List (List Segment × Option Error))
    (e : Event) (h : e ∈ pollEvents collName polls) :
    e.isExistenceCheck = false ∧ e.reportsMissing = false ∧ e.isShowPartitions = false ∧
      e.isLoadRequest = false ∧
      ((∃ poll ∈ polls, e = Event.GetQuerySegmentInfo collName poll.1 poll.2) ∨
        e = Event.Sleep 100) := by
  induction polls with
  | nil => simp [pollEvents] at h
  | cons poll rest ih =>
    simp only [pollEvents, List.mem_cons] at h
    rcases h with rfl | rfl | h
    · refine ⟨rfl, rfl, rfl, rfl, Or.inl ⟨poll, List.mem_cons_self _ _, rfl⟩⟩
    · exact ⟨rfl, rfl, rfl, rfl, Or.inr rfl⟩
    · obtain ⟨h1, h2, h3, h4, h5⟩ := ih h
      refine ⟨h1, h2, h3, h4, ?_⟩
      rcases h5 with ⟨q, hq, rfl⟩ | rfl
      · exact Or.inl ⟨q, List.mem_cons_of_mem _ hq, rfl⟩
      · exact Or.inr rfl

theorem checkPartitions_pass_nil (c : grpcClient) (service : MilvusServiceClient)
    (collName : String) (hs : c.service = some service) (names : List String)
    (tr : List Event) (h : checkPartitions c collName names [] = (none, tr)) :
    (∀ e ∈ tr, e.isExistenceCheck = true ∧ e.reportsMissing = false) ∧
      hasPartitionNames tr = names := by
  obtain ⟨added, htr, hall, hnames⟩ := checkPartitions_pass c service collName hs names [] tr h
  rw [List.nil_append] at htr
  subst htr
  exact ⟨hall, hnames⟩

theorem reportsMissing_after_pass (c : grpcClient) (service : MilvusServiceClient)
    (collName : String) (hs : c.service = some service) (names : List String)
    (tr rest : List Event) (h : checkPartitions c collName names [] = (none, tr))
    (hrest : ∀ x ∈ rest, x.reportsMissing = false) :
    ∀ x ∈ tr ++ rest, x.reportsMissing = false := by
  intro x hx
  rcases List.mem_append.mp hx with hx | hx
  · exact ((checkPartitions_pass_nil c service collName hs names tr h).1 x hx).2
  · exact hrest x hx

theorem checkPartitions_checks_only (c : grpcClient) (service : MilvusServiceClient)
    (collName : String) (hs : c.service = some service) (names : List String)
    (res : Option Error) (tr : List Event)
    (h : checkPartitions c collName names [] = (res, tr)) :
    ∀ x ∈ tr, x.isExistenceCheck = true := by
  cases res with
  | none => exact fun x hx => ((checkPartitions_pass_nil c service collName hs names tr h).1 x hx).1
  | some err =>
    obtain ⟨pre, q, post, tr1, _, hpre, hq⟩ := checkPartitions_fail c collName names [] tr err h
    have hpass := (checkPartitions_pass_nil c service collName hs pre tr1 hpre).1
    rcases checkPartitionExists_cases c service collName q tr1 hs with
      ⟨e1, _, hq2⟩ | ⟨_, ⟨e1, hq2⟩ | ⟨resp, ⟨_, hq2⟩ | ⟨_, _, hq2⟩ | ⟨_, _, hq2⟩⟩⟩
    all_goals
      rw [hq2] at hq
      simp only [Prod.mk.injEq] at hq
      rw [← hq.2]
      intro x hx
      rcases List.mem_append.mp hx with hx | hx
      · exact (hpass x hx).1
      · simp only [List.mem_cons, List.mem_singleton, List.not_mem_nil, or_false] at hx
        first
          | (subst hx; rfl)
          | (rcases hx with rfl | rfl <;> rfl)

theorem LoadPartitions_trace_grammar (c : grpcClient) (fuel : Nat) (collName : String)
    (partitionNames : List String) (async : Bool) :
    ∃ checks rest,
      (LoadPartitions c fuel collName partitionNames async).2 = checks ++ rest ∧
      (∀ x ∈ checks, x.isExistenceCheck = true) ∧
      (rest = [] ∨
        ∃ service sreply rest2,
          c.service = some service ∧
          checkPartitions c collName partitionNames [] = (none, checks) ∧
          service.ShowPartitions checks collName = sreply ∧
          rest = Event.ShowPartitions collName sreply :: rest2 ∧
          (rest2 = [] ∨
            ∃ resp partitions ids lreply rest3,
              sreply = Reply.ok resp ∧
              pairPartitions resp.PartitionNames resp.PartitionIDs 0 [] = some partitions ∧
              resolveIDs collName (nameMap partitions []) partitionNames [] = Except.ok ids ∧
              service.LoadPartitions (checks ++ [Event.ShowPartitions collName sreply]) collName
                partitionNames = lreply ∧
              rest2 = Event.LoadPartitions collName partitionNames lreply :: rest3 ∧
              (rest3 = [] ∨
                ∃ st, ∃ polls : List (List Segment × Option Error),
                  lreply = Reply.ok st ∧ handleRespStatus st = none ∧ async = false ∧
                  polls.length ≤ fuel ∧
                  rest3 =
                    persistentEvent c collName
                        ((checks ++ [Event.ShowPartitions collName sreply]) ++
                          [Event.LoadPartitions collName partitionNames lreply]) ::
                      pollEvents collName polls))) := by
  rcases validateAndLoad_cases c collName partitionNames with
    ⟨_, hv2⟩ | ⟨service, hs, ⟨err, tr0, hc, hv2⟩ | ⟨tr0, hc, ⟨err, hsh, hv2⟩ |
      ⟨resp, hsh, ⟨_, hv2⟩ | ⟨partitions, hpp, ⟨err, _, hv2⟩ | ⟨ids, hr, ⟨err, hl, hv2⟩ |
        ⟨st, hl, ⟨err, _, hv2⟩ | ⟨hh, hv2⟩⟩⟩⟩⟩⟩⟩
  · refine ⟨[], [], ?_, by simp, Or.inl rfl⟩
    simp [LoadPartitions, hv2]
  · refine ⟨tr0, [], ?_, checkPartitions_checks_only c service collName hs _ _ _ hc, Or.inl rfl⟩
    simp [LoadPartitions, hv2]
  · refine ⟨tr0, [Event.ShowPartitions collName (Reply.fail err)], ?_,
      checkPartitions_checks_only c service collName hs _ _ _ hc,
      Or.inr ⟨service, _, [], hs, hc, hsh, rfl, Or.inl rfl⟩⟩
    simp [LoadPartitions, hv2]
  · refine ⟨tr0, [Event.ShowPartitions collName (Reply.ok resp)], ?_,
      checkPartitions_checks_only c service collName hs _ _ _ hc,
      Or.inr ⟨service, _, [], hs, hc, hsh, rfl, Or.inl rfl⟩⟩
    simp [LoadPartitions, hv2]
  · refine ⟨tr0, [Event.ShowPartitions collName (Reply.ok resp)], ?_,
      checkPartitions_checks_only c service collName hs _ _ _ hc,
      Or.inr ⟨service, _, [], hs, hc, hsh, rfl, Or.inl rfl⟩⟩
    simp [LoadPartitions, hv2]
  · refine ⟨tr0, [Event.ShowPartitions collName (Reply.ok resp),
        Event.LoadPartitions collName partitionNames (Reply.fail err)], ?_,
      checkPartitions_checks_only c service collName hs _ _ _ hc,
      Or.inr ⟨service, _, _, hs, hc, hsh, rfl,
        Or.inr ⟨resp, partitions, ids, _, [], rfl, hpp, hr, hl, rfl, Or.inl rfl⟩⟩⟩
    simp [LoadPartitions, hv2]
  · refine ⟨tr0, [Event.ShowPartitions collName (Reply.ok resp),
        Event.LoadPartitions collName partitionNames (Reply.ok st)], ?_,
      checkPartitions_checks_only c service collName hs _ _ _ hc,
      Or.inr ⟨service, _, _, hs, hc, hsh, rfl,
        Or.inr ⟨resp, partitions, ids, _, [], rfl, hpp, hr, hl, rfl, Or.inl rfl⟩⟩⟩
    simp [LoadPartitions, hv2]
  · rcases LoadPartitions_cases c fuel collName partitionNames async with
      ⟨out, tr, hv, _⟩ | ⟨ids2, tr2, hv, ⟨_, hL⟩ | ⟨hasync, polls, hle, _, hL⟩⟩
    · rw [hv2] at hv
      simp at hv
    · rw [hv2] at hv
      simp only [Prod.mk.injEq, Except.ok.injEq] at hv
      refine ⟨tr0, [Event.ShowPartitions collName (Reply.ok resp),
          Event.LoadPartitions collName partitionNames (Reply.ok st)], ?_,
        checkPartitions_checks_only c service collName hs _ _ _ hc,
        Or.inr ⟨service, _, _, hs, hc, hsh, rfl,
          Or.inr ⟨resp, partitions, ids, _, [], rfl, hpp, hr, hl, rfl, Or.inl rfl⟩⟩⟩
      rw [hL, ← hv.2]
      simp
    · rw [hv2] at hv
      simp only [Prod.mk.injEq, Except.ok.injEq] at hv
      obtain ⟨hids, htr⟩ := hv
      subst hids
      subst htr
      refine ⟨tr0, Event.ShowPartitions collName (Reply.ok resp) ::
          Event.LoadPartitions collName partitionNames (Reply.ok st) ::
          persistentEvent c collName
            ((tr0 ++ [Event.ShowPartitions collName (Reply.ok resp)]) ++
              [Event.LoadPartitions collName partitionNames (Reply.ok st)]) ::
          pollEvents collName polls, ?_,
        checkPartitions_checks_only c service collName hs _ _ _ hc,
        Or.inr ⟨service, _, _, hs, hc, hsh, rfl,
          Or.inr ⟨resp, partitions, ids, _, _, rfl, hpp, hr, hl, rfl,
            Or.inr ⟨st, polls, rfl, hh, hasync, hle, rfl⟩⟩⟩⟩
      rcases hL with ⟨_, hL⟩ | ⟨_, _, hL⟩
      · rw [hL]
        simp
      · rw [hL]
        simp

theorem isExistenceCheck_exclusive (x : Event) (h : x.isExistenceCheck = true) :
    x.isShowPartitions = false ∧ x.isLoadRequest = false ∧ x.isLoadAck = false ∧
      x.isStatsFetch = false ∧ x.isSleep = false := by
  cases x <;> simp_all [Event.isExistenceCheck, Event.isShowPartitions, Event.isLoadRequest,
    Event.isLoadAck, Event.isStatsFetch, Event.isSleep]

theorem show_event_mem (c : grpcClient) (fuel : Nat) (collName : String)
    (partitionNames : List String) (async : Bool) (coll : String)
    (reply : Reply ShowPartitionsResponse)
    (hmem : Event.ShowPartitions coll reply ∈
      (LoadPartitions c fuel collName partitionNames async).2) :
    ∃ service checks, c.service = some service ∧
      checkPartitions c collName partitionNames [] = (none, checks) ∧
      service.ShowPartitions checks collName = reply ∧ coll = collName := by
  obtain ⟨checks, rest, htr, hchecks, hrest⟩ :=
    LoadPartitions_trace_grammar c fuel collName partitionNames async
  rw [htr] at hmem
  rcases List.mem_append.mp hmem with hx | hx
  · have := hchecks _ hx
    simp [Event.isExistenceCheck] at this
  · rcases hrest with rfl | ⟨service, sreply, rest2, hs, hc, hsh, rfl, hrest2⟩
    · simp at hx
    · rcases List.mem_cons.mp hx with heq | hx
      · simp only [Event.ShowPartitions.injEq] at heq
        exact ⟨service, checks, hs, hc, by rw [hsh, heq.2], heq.1⟩
      · exfalso
        rcases hrest2 with rfl | ⟨resp, partitions, ids, lreply, rest3, _, _, _, _, rfl, hrest3⟩
        · simp at hx
        · rcases List.mem_cons.mp hx with heq | hx
          · simp at heq
          · rcases hrest3 with rfl | ⟨st, polls, _, _, _, _, rfl⟩
            · simp at hx
            · rcases List.mem_cons.mp hx with heq | hx
              · simp [persistentEvent] at heq
              · have := (mem_pollEvents collName polls _ hx).2.2.1
                simp [Event.isShowPartitions] at this

theorem load_event_mem (c : grpcClient) (fuel : Nat) (collName : String)
    (partitionNames : List String) (async : Bool) (coll : String) (names : List String)
    (reply : Reply Status)
    (hmem : Event.LoadPartitions coll names reply ∈
      (LoadPartitions c fuel collName partitionNames async).2) :
    ∃ service checks resp partitions ids, c.service = some service ∧
      checkPartitions c collName partitionNames [] = (none, checks) ∧
      service.ShowPartitions checks collName = Reply.ok resp ∧
      pairPartitions resp.PartitionNames resp.PartitionIDs 0 [] = some partitions ∧
      resolveIDs collName (nameMap partitions []) partitionNames [] = Except.ok ids ∧
      service.LoadPartitions (checks ++ [Event.ShowPartitions collName (Reply.ok resp)])
        collName partitionNames = reply ∧
      coll = collName ∧ names = partitionNames ∧
      (∀ x ∈ checks, x.isExistenceCheck = true) := by
  obtain ⟨checks, rest, htr, hchecks, hrest⟩ :=
    LoadPartitions_trace_grammar c fuel collName partitionNames async
  rw [htr] at hmem
  rcases List.mem_append.mp hmem with hx | hx
  · have := hchecks _ hx
    simp [Event.isExistenceCheck] at this
  · rcases hrest with rfl | ⟨service, sreply, rest2, hs, hc, hsh, rfl, hrest2⟩
    · simp at hx
    · rcases List.mem_cons.mp hx with heq | hx
      · simp at heq
      · rcases hrest2 with rfl |
          ⟨resp, partitions, ids, lreply, rest3, hsr, hpp, hr, hl, rfl, hrest3⟩
        · simp at hx
        · rcases List.mem_cons.mp hx with heq | hx
          · simp only [Event.LoadPartitions.injEq] at heq
            subst hsr
            exact ⟨service, checks, resp, partitions, ids, hs, hc, hsh, hpp, hr,
              by rw [hl, heq.2.2], heq.1, heq.2.1, hchecks⟩
          · exfalso
            rcases hrest3 with rfl | ⟨st, polls, _, _, _, _, rfl⟩
            · simp at hx
            · rcases List.mem_cons.mp hx with heq | hx
              · simp [persistentEvent] at heq
              · have := (mem_pollEvents collName polls _ hx).2.2.2.1
                simp [Event.isLoadRequest] at this

theorem lookup_nameMap (partitions : List Partition) :
    ∀ (m : GoMap String Int) (name : String),
      GoMap.lookup (nameMap partitions m) name = none ↔
        GoMap.lookup m name = none ∧ name ∉ partitions.map Partition.Name := by
  induction partitions with
  | nil =>
    intro m name
    simp [nameMap]
  | cons partition rest ih =>
    intro m name
    have hn : nameMap (partition :: rest) m =
        nameMap rest (GoMap.store m partition.Name partition.ID) := rfl
    rw [hn, ih, GoMap.lookup_store]
    by_cases h : name = partition.Name
    · simp [h]
    · simp [h]

theorem resolveIDs_absent (collName : String) (m : GoMap String Int) (names : List String) :
    ∀ ids : GoMap Int Unit, (∃ n ∈ names, GoMap.lookup m n = none) →
      ∃ pre q post, names = pre ++ q :: post ∧
        (∀ n ∈ pre, GoMap.lookup m n ≠ none) ∧ GoMap.lookup m q = none ∧
        resolveIDs collName m names ids =
          Except.error
            (Error.New ("Collection " ++ collName ++ " does not has partitions " ++ q)) := by
  induction names with
  | nil =>
    intro ids h
    simp at h
  | cons name rest ih =>
    intro ids h
    cases hl : GoMap.lookup m name with
    | none =>
      refine ⟨[], name, rest, rfl, by simp, hl, ?_⟩
      simp [resolveIDs, hl]
    | some id =>
      have h2 : ∃ n ∈ rest, GoMap.lookup m n = none := by
        obtain ⟨n, hn, hnone⟩ := h
        rcases List.mem_cons.mp hn with rfl | hn
        · rw [hl] at hnone
          simp at hnone
        · exact ⟨n, hn, hnone⟩
      obtain ⟨pre, q, post, hnames, hpre, hq, hres⟩ := ih (GoMap.store ids id ()) h2
      refine ⟨name :: pre, q, post, by rw [hnames]; rfl, ?_, hq, ?_⟩
      · intro n hn
        rcases List.mem_cons.mp hn with rfl | hn
        · rw [hl]
          simp
        · exact hpre n hn
      · simpa [resolveIDs, hl] using hres

theorem handleRespStatus_eq_none_iff (st : Status) :
    handleRespStatus st = none ↔ st.ErrorCode = ErrorCode_Success := by
  unfold handleRespStatus
  by_cases h : st.ErrorCode = ErrorCode_Success <;> simp [h]

theorem handleRespStatus_of_failure (st : Status) (h : st.ErrorCode ≠ ErrorCode_Success) :
    handleRespStatus st = some (Error.status st.ErrorCode st.Reason) := by
  simp [handleRespStatus, h]

theorem checks_quiet (checks : List Event) (h : ∀ x ∈ checks, x.isExistenceCheck = true) :
    checks.countP Event.isLoadRequest = 0 ∧
      ∀ x ∈ checks, x.isLoadAck = false ∧ x.isStatsFetch = false ∧ x.isSleep = false := by
  refine ⟨?_, ?_⟩
  · rw [List.countP_eq_zero]
    intro x hx
    rw [(isExistenceCheck_exclusive x (h x hx)).2.1]
    simp
  · intro x hx
    obtain ⟨_, _, h3, h4, h5⟩ := isExistenceCheck_exclusive x (h x hx)
    exact ⟨h3, h4, h5⟩

/-! ## The claims about validation and the load request -/

/-- C6: if in a run of `LoadPartitions` the remote `HasPartition` reports a name
as not existing, then that name `p` is a requested name, every name before it
passed its check without such a report, the call returns
`partNotExistsErr(collName, p)`, and the trace ends with that report: it holds
existence checks only (no `ShowPartitions`, no load request), and the remote
`HasPartition` was called for the names up to `p` and for no later one. -/
theorem LoadPartitions_fails_fast_on_missing (c : grpcClient) (fuel : Nat)
    (collName : String) (partitionNames : List String) (async : Bool) (e : Event)
    (hmem : e ∈ (LoadPartitions c fuel collName partitionNames async).2)
    (hmiss : e.reportsMissing = true) :
    ∃ pre p post tr1 resp,
      partitionNames = pre ++ p :: post ∧
      e = Event.HasPartition collName p (Reply.ok resp) ∧
      checkPartitions c collName pre [] = (none, tr1) ∧
      (∀ x ∈ tr1, x.reportsMissing = false) ∧
      LoadPartitions c fuel collName partitionNames async =
        (Outcome.returned (some (Error.partNotExistsErr collName p)),
          tr1 ++ [Event.checkCollectionExists collName none, e]) ∧
      (∀ x ∈ (LoadPartitions c fuel collName partitionNames async).2,
        x.isExistenceCheck = true) ∧
      hasPartitionNames (LoadPartitions c fuel collName partitionNames async).2 =
        pre ++ [p] := by
  have absurd_of : (∀ x ∈ (LoadPartitions c fuel collName partitionNames async).2,
      x.reportsMissing = false) → False := by
    intro hall
    rw [hall e hmem] at hmiss
    exact absurd hmiss (by simp)
  rcases LoadPartitions_cases c fuel collName partitionNames async with
    ⟨out, tr, hv, hL⟩ | ⟨ids, tr2, hv, ⟨_, hL⟩ | ⟨_, polls, _, _, ⟨_, hL⟩ | ⟨_, _, hL⟩⟩⟩
  · rcases validateAndLoad_cases c collName partitionNames with
      ⟨_, hv2⟩ | ⟨service, hs, ⟨err, tr0, hc, hv2⟩ | ⟨tr0, hc, ⟨err, _, hv2⟩ |
        ⟨resp, _, ⟨_, hv2⟩ | ⟨partitions, _, ⟨err, _, hv2⟩ | ⟨ids, _, ⟨err, _, hv2⟩ |
          ⟨st, _, ⟨err, _, hv2⟩ | ⟨_, hv2⟩⟩⟩⟩⟩⟩⟩
    · rw [hv2] at hv
      simp only [Prod.mk.injEq, Except.error.injEq] at hv
      rw [hL, ← hv.2] at hmem
      simp at hmem
    · rw [hv2] at hv
      simp only [Prod.mk.injEq, Except.error.injEq] at hv
      obtain ⟨hout, htr⟩ := hv
      subst hout
      subst htr
      obtain ⟨pre, q, post, tr1, hn, hpre, hq⟩ :=
        checkPartitions_fail c collName partitionNames [] tr0 err hc
      obtain ⟨hpass, hnames⟩ := checkPartitions_pass_nil c service collName hs pre tr1 hpre
      rcases checkPartitionExists_cases c service collName q tr1 hs with
        ⟨e1, _, hq2⟩ | ⟨_, ⟨e1, hq2⟩ | ⟨resp, ⟨hcode, hq2⟩ | ⟨hcode, hval, hq2⟩ |
          ⟨hcode, hval, hq2⟩⟩⟩
      · exfalso
        apply absurd_of
        rw [hq2] at hq
        simp only [Prod.mk.injEq] at hq
        rw [hL, ← hq.2]
        intro x hx
        rcases List.mem_append.mp hx with hx | hx
        · exact (hpass x hx).2
        · simp only [List.mem_singleton] at hx
          subst hx
          rfl
      · exfalso
        apply absurd_of
        rw [hq2] at hq
        simp only [Prod.mk.injEq] at hq
        rw [hL, ← hq.2]
        intro x hx
        rcases List.mem_append.mp hx with hx | hx
        · exact (hpass x hx).2
        · simp only [List.mem_cons, List.mem_singleton, List.not_mem_nil, or_false] at hx
          rcases hx with rfl | rfl <;> rfl
      · exfalso
        apply absurd_of
        rw [hq2] at hq
        simp only [Prod.mk.injEq] at hq
        rw [hL, ← hq.2]
        intro x hx
        rcases List.mem_append.mp hx with hx | hx
        · exact (hpass x hx).2
        · simp only [List.mem_cons, List.mem_singleton, List.not_mem_nil, or_false] at hx
          rcases hx with rfl | rfl
          · rfl
          · simp [Event.reportsMissing, hcode]
      · rw [hq2] at hq
        simp only [Prod.mk.injEq, Option.some.injEq] at hq
        obtain ⟨herr, htr⟩ := hq
        subst herr
        subst htr
        rw [hL] at hmem
        have he : e = Event.HasPartition collName q (Reply.ok resp) := by
          rcases List.mem_append.mp hmem with hx | hx
          · rw [(hpass e hx).2] at hmiss
            exact absurd hmiss (by simp)
          · simp only [List.mem_cons, List.mem_singleton, List.not_mem_nil, or_false] at hx
            rcases hx with rfl | rfl
            · simp [Event.reportsMissing] at hmiss
            · rfl
        refine ⟨pre, q, post, tr1, resp, hn, he, hpre, fun x hx => (hpass x hx).2, ?_, ?_, ?_⟩
        · rw [hL, he]
        · rw [hL]
          intro x hx
          rcases List.mem_append.mp hx with hx | hx
          · exact (hpass x hx).1
          · simp only [List.mem_cons, List.mem_singleton, List.not_mem_nil, or_false] at hx
            rcases hx with rfl | rfl <;> rfl
        · rw [hL]
          simp only [hasPartitionNames_append, hnames]
          rfl
      · exfalso
        apply absurd_of
        rw [hq2] at hq
        simp at hq
    all_goals
      exfalso
      apply absurd_of
      rw [hv2] at hv
      simp only [Prod.mk.injEq, Except.error.injEq] at hv
      rw [hL, ← hv.2]
      simp only [List.append_assoc]
      apply reportsMissing_after_pass c _ collName (by assumption) partitionNames _ _ hc
      intro x hx
      simp only [List.mem_cons, List.mem_singleton, List.mem_append, List.not_mem_nil,
        or_false] at hx
      rcases hx with rfl | rfl <;> rfl
  all_goals
    exfalso
    apply absurd_of
    rcases validateAndLoad_cases c collName partitionNames with
      ⟨_, hv2⟩ | ⟨service, hs, ⟨err, tr0, hc, hv2⟩ | ⟨tr0, hc, ⟨err, _, hv2⟩ |
        ⟨resp, _, ⟨_, hv2⟩ | ⟨partitions, _, ⟨err, _, hv2⟩ | ⟨ids, _, ⟨err, _, hv2⟩ |
          ⟨st, _, ⟨err, _, hv2⟩ | ⟨_, hv2⟩⟩⟩⟩⟩⟩⟩
    all_goals
      rw [hv2] at hv
      simp only [Prod.mk.injEq, reduceCtorEq, false_and, Except.ok.injEq] at hv
    rw [hL, ← hv.2]
    simp only [List.append_assoc]
    apply reportsMissing_after_pass c _ collName hs partitionNames _ _ hc
    intro x hx
    simp only [List.mem_cons, List.mem_singleton, List.mem_append, List.not_mem_nil,
      or_false] at hx
    first
      | (rcases hx with rfl | rfl <;> rfl)
      | (rcases hx with rfl | rfl | rfl | hx
         · rfl
         · rfl
         · rfl
         · exact (mem_pollEvents collName polls x hx).2.1)

/-- A run of C6: with names `p`, `q`, `r` requested and only `p` existing, the
remote `HasPartition` reports `q` as missing. -/
theorem LoadPartitions_fails_fast_on_missing_witness :
    Event.HasPartition "c" "q" (Reply.ok ⟨statusSuccess, false⟩) ∈
      (LoadPartitions scenarioB 0 "c" ["p", "q", "r"] false).2 ∧
    (Event.HasPartition "c" "q" (Reply.ok ⟨statusSuccess, false⟩)).reportsMissing = true ∧
    ∃ pre p post tr1 resp,
      ["p", "q", "r"] = pre ++ p :: post ∧
      Event.HasPartition "c" "q" (Reply.ok ⟨statusSuccess, false⟩) =
        Event.HasPartition "c" p (Reply.ok resp) ∧
      checkPartitions scenarioB "c" pre [] = (none, tr1) ∧
      (∀ x ∈ tr1, x.reportsMissing = false) ∧
      LoadPartitions scenarioB 0 "c" ["p", "q", "r"] false =
        (Outcome.returned (some (Error.partNotExistsErr "c" p)),
          tr1 ++ [Event.checkCollectionExists "c" none,
            Event.HasPartition "c" "q" (Reply.ok ⟨statusSuccess, false⟩)]) ∧
      (∀ x ∈ (LoadPartitions scenarioB 0 "c" ["p", "q", "r"] false).2,
        x.isExistenceCheck = true) ∧
      hasPartitionNames (LoadPartitions scenarioB 0 "c" ["p", "q", "r"] false).2 =
        pre ++ [p] :=
  ⟨by decide, by decide,
    LoadPartitions_fails_fast_on_missing scenarioB 0 "c" ["p", "q", "r"] false
      (Event.HasPartition "c" "q" (Reply.ok ⟨statusSuccess, false⟩)) (by decide) (by decide)⟩

/-- C7 as stated fails: in `scenarioC` the requested name `p` passes the
existence check and is absent from the listing of `ShowPartitions`; the error
returned is the one built at line 152, and it is not
`partNotExistsErr(collName, p)`, the error of the existence check. -/
theorem LoadPartitions_unlisted_counterexample :
    Event.ShowPartitions "c" (Reply.ok ⟨statusSuccess, ["q"], [10]⟩) ∈
      (LoadPartitions scenarioC 0 "c" ["p"] false).2 ∧
    "p" ∉ ["q"] ∧
    (LoadPartitions scenarioC 0 "c" ["p"] false).1 =
      Outcome.returned (some (Error.New "Collection c does not has partitions p")) ∧
    (LoadPartitions scenarioC 0 "c" ["p"] false).1 ≠
      Outcome.returned (some (Error.partNotExistsErr "c" "p")) := by
  decide

/-- C7, amended: if `ShowPartitions` returns a listing and some requested name
is absent from it, `LoadPartitions` returns the error built at line 152,
`fmt.Errorf("Collection %s does not has partitions %s", collName, q)`, for the
first requested name `q` that the listing lacks; the trace ends with the
`ShowPartitions` call, so no load request is issued. -/
theorem LoadPartitions_unlisted_partition (c : grpcClient) (fuel : Nat) (collName : String)
    (partitionNames : List String) (async : Bool) (coll : String)
    (resp : ShowPartitionsResponse) (partitions : List Partition)
    (hmem : Event.ShowPartitions coll (Reply.ok resp) ∈
      (LoadPartitions c fuel collName partitionNames async).2)
    (hpair : pairPartitions resp.PartitionNames resp.PartitionIDs 0 [] = some partitions)
    (habs : ∃ n ∈ partitionNames, n ∉ partitions.map Partition.Name) :
    ∃ pre q post checks,
      partitionNames = pre ++ q :: post ∧
      (∀ n ∈ pre, n ∈ partitions.map Partition.Name) ∧
      q ∉ partitions.map Partition.Name ∧
      LoadPartitions c fuel collName partitionNames async =
        (Outcome.returned
            (some (Error.New ("Collection " ++ collName ++ " does not has partitions " ++ q))),
          checks ++ [Event.ShowPartitions collName (Reply.ok resp)]) ∧
      (∀ x ∈ checks, x.isExistenceCheck = true) ∧
      (∀ x ∈ (LoadPartitions c fuel collName partitionNames async).2,
        x.isLoadRequest = false) := by
  obtain ⟨service, checks, hs, hc, hsh, _⟩ :=
    show_event_mem c fuel collName partitionNames async coll (Reply.ok resp) hmem
  have habs2 : ∃ n ∈ partitionNames, GoMap.lookup (nameMap partitions []) n = none := by
    obtain ⟨n, hn, hnot⟩ := habs
    exact ⟨n, hn, (lookup_nameMap partitions [] n).mpr ⟨rfl, hnot⟩⟩
  obtain ⟨pre, q, post, hnames, hpre, hq, hres⟩ :=
    resolveIDs_absent collName (nameMap partitions []) partitionNames [] habs2
  have hchecks := checkPartitions_checks_only c service collName hs _ _ _ hc
  have hrun : LoadPartitions c fuel collName partitionNames async =
      (Outcome.returned
          (some (Error.New ("Collection " ++ collName ++ " does not has partitions " ++ q))),
        checks ++ [Event.ShowPartitions collName (Reply.ok resp)]) := by
    simp [LoadPartitions, validateAndLoad, ShowPartitions, hs, hc, hsh, hpair, hres]
  refine ⟨pre, q, post, checks, hnames, ?_, ?_, hrun, hchecks, ?_⟩
  · intro n hn
    by_contra hnot
    exact hpre n hn ((lookup_nameMap partitions [] n).mpr ⟨rfl, hnot⟩)
  · exact ((lookup_nameMap partitions [] q).mp hq).2
  · rw [hrun]
    intro x hx
    rcases List.mem_append.mp hx with hx | hx
    · exact (isExistenceCheck_exclusive x (hchecks x hx)).2.1
    · simp only [List.mem_singleton] at hx
      subst hx
      rfl

/-- A run of C7, amended: `scenarioC` asked to load partition `p`. -/
theorem LoadPartitions_unlisted_partition_witness :
    Event.ShowPartitions "c" (Reply.ok ⟨statusSuccess, ["q"], [10]⟩) ∈
      (LoadPartitions scenarioC 0 "c" ["p"] false).2 ∧
    pairPartitions ["q"] [10] 0 [] = some [⟨10, "q"⟩] ∧
    (∃ n ∈ ["p"], n ∉ ([⟨10, "q"⟩] : List Partition).map Partition.Name) ∧
    ∃ pre q post checks,
      ["p"] = pre ++ q :: post ∧
      (∀ n ∈ pre, n ∈ ([⟨10, "q"⟩] : List Partition).map Partition.Name) ∧
      q ∉ ([⟨10, "q"⟩] : List Partition).map Partition.Name ∧
      LoadPartitions scenarioC 0 "c" ["p"] false =
        (Outcome.returned
            (some (Error.New ("Collection " ++ "c" ++ " does not has partitions " ++ q))),
          checks ++ [Event.ShowPartitions "c" (Reply.ok ⟨statusSuccess, ["q"], [10]⟩)]) ∧
      (∀ x ∈ checks, x.isExistenceCheck = true) ∧
      (∀ x ∈ (LoadPartitions scenarioC 0 "c" ["p"] false).2, x.isLoadRequest = false) :=
  ⟨by decide, by decide, ⟨"p", by decide, by decide⟩,
    LoadPartitions_unlisted_partition scenarioC 0 "c" ["p"] false "c"
      ⟨statusSuccess, ["q"], [10]⟩ [⟨10, "q"⟩] (by decide) (by decide)
      ⟨"p", by decide, by decide⟩⟩

/-- C8: with `async` set, once validation and the load request have succeeded,
`LoadPartitions` returns success with the trace it had at the acknowledgement:
the last entry is the load request, answered with a status that
`handleRespStatus` accepts, and the trace holds no call of
`GetPersistentSegmentInfo` or `GetQuerySegmentInfo` and no sleep. -/
theorem LoadPartitions_async_returns_after_ack (c : grpcClient) (fuel : Nat)
    (collName : String) (partitionNames : List String) (ids : GoMap Int Unit)
    (tr2 : List Event)
    (h : validateAndLoad c collName partitionNames = (Except.ok ids, tr2)) :
    LoadPartitions c fuel collName partitionNames true = (Outcome.returned none, tr2) ∧
    (∃ tr1 st, tr2 = tr1 ++ [Event.LoadPartitions collName partitionNames (Reply.ok st)] ∧
      handleRespStatus st = none) ∧
    (∀ x ∈ tr2, x.isStatsFetch = false ∧ x.isSleep = false) := by
  refine ⟨by simp [LoadPartitions, h], ?_⟩
  rcases validateAndLoad_cases c collName partitionNames with
    ⟨_, hv2⟩ | ⟨service, hs, ⟨err, tr0, hc, hv2⟩ | ⟨tr0, hc, ⟨err, _, hv2⟩ |
      ⟨resp, _, ⟨_, hv2⟩ | ⟨partitions, _, ⟨err, _, hv2⟩ | ⟨ids2, _, ⟨err, _, hv2⟩ |
        ⟨st, _, ⟨err, _, hv2⟩ | ⟨hh, hv2⟩⟩⟩⟩⟩⟩⟩
  all_goals
    rw [hv2] at h
    simp only [Prod.mk.injEq, reduceCtorEq, false_and, Except.ok.injEq] at h
  obtain ⟨_, htr⟩ := h
  subst htr
  refine ⟨⟨_, st, rfl, hh⟩, ?_⟩
  have hq := (checks_quiet tr0 (checkPartitions_checks_only c service collName hs _ _ _ hc)).2
  intro x hx
  simp only [List.mem_append, List.mem_singleton] at hx
  rcases hx with (hx | rfl) | rfl
  · exact ⟨(hq x hx).2.1, (hq x hx).2.2⟩
  · exact ⟨rfl, rfl⟩
  · exact ⟨rfl, rfl⟩

/-- A run of C8: `scenarioB` asked to load partition `p` asynchronously. -/
theorem LoadPartitions_async_returns_after_ack_witness :
    validateAndLoad scenarioB "c" ["p"] = (Except.ok [(10, ())], scenarioBTrace.take 4) ∧
    (LoadPartitions scenarioB 0 "c" ["p"] true =
        (Outcome.returned none, scenarioBTrace.take 4) ∧
      (∃ tr1 st, scenarioBTrace.take 4 =
          tr1 ++ [Event.LoadPartitions "c" ["p"] (Reply.ok st)] ∧
        handleRespStatus st = none) ∧
      (∀ x ∈ scenarioBTrace.take 4, x.isStatsFetch = false ∧ x.isSleep = false)) :=
  ⟨by rfl,
    LoadPartitions_async_returns_after_ack scenarioB 0 "c" ["p"] [(10, ())]
      (scenarioBTrace.take 4) (by rfl)⟩

/-- C9: if the remote `LoadPartitions` call of a run returns a transport error,
or a response whose status is not success, then `LoadPartitions` returns an
error (the transport error, or the error made from the status) for either value
of `async`; the trace ends with that call, holds exactly one load request, no
statistics fetch and no sleep. -/
theorem LoadPartitions_load_failure_propagates (c : grpcClient) (fuel : Nat)
    (collName : String) (partitionNames : List String) (async : Bool) (coll : String)
    (names : List String) (reply : Reply Status)
    (hmem : Event.LoadPartitions coll names reply ∈
      (LoadPartitions c fuel collName partitionNames async).2)
    (hfail : (∃ e, reply = Reply.fail e) ∨
      ∃ st, reply = Reply.ok st ∧ st.ErrorCode ≠ ErrorCode_Success) :
    (∃ e tr1, LoadPartitions c fuel collName partitionNames async =
        (Outcome.returned (some e),
          tr1 ++ [Event.LoadPartitions collName partitionNames reply]) ∧
      (reply = Reply.fail e ∨
        ∃ st, reply = Reply.ok st ∧ e = Error.status st.ErrorCode st.Reason)) ∧
    (LoadPartitions c fuel collName partitionNames async).2.countP Event.isLoadRequest = 1 ∧
    (∀ x ∈ (LoadPartitions c fuel collName partitionNames async).2,
      x.isStatsFetch = false ∧ x.isSleep = false) := by
  obtain ⟨service, checks, resp, partitions, ids, hs, hc, hsh, hpp, hr, hl, _, _, hchecks⟩ :=
    load_event_mem c fuel collName partitionNames async coll names reply hmem
  obtain ⟨hcount, hquiet⟩ := checks_quiet checks hchecks
  have hrun : ∃ e, LoadPartitions c fuel collName partitionNames async =
        (Outcome.returned (some e),
          (checks ++ [Event.ShowPartitions collName (Reply.ok resp)]) ++
            [Event.LoadPartitions collName partitionNames reply]) ∧
      (reply = Reply.fail e ∨
        ∃ st, reply = Reply.ok st ∧ e = Error.status st.ErrorCode st.Reason) := by
    rcases hfail with ⟨e, rfl⟩ | ⟨st, rfl, hcode⟩
    · refine ⟨e, ?_, Or.inl rfl⟩
      simp [LoadPartitions, validateAndLoad, ShowPartitions, hs, hc, hsh, hpp, hr, hl]
    · refine ⟨Error.status st.ErrorCode st.Reason, ?_, Or.inr ⟨st, rfl, rfl⟩⟩
      simp [LoadPartitions, validateAndLoad, ShowPartitions, hs, hc, hsh, hpp, hr, hl,
        handleRespStatus_of_failure st hcode]
  obtain ⟨e, hrun, hwhich⟩ := hrun
  refine ⟨⟨e, _, hrun, hwhich⟩, ?_, ?_⟩
  · rw [hrun]
    simp [List.countP_append, hcount, Event.isLoadRequest]
  · rw [hrun]
    intro x hx
    simp only [List.mem_append, List.mem_singleton] at hx
    rcases hx with (hx | rfl) | rfl
    · exact ⟨(hquiet x hx).2.1, (hquiet x hx).2.2⟩
    · exact ⟨rfl, rfl⟩
    · exact ⟨rfl, rfl⟩

/-- A run of C9: the load request of `scenarioLoadFails` fails in transport,
and the synchronous call returns that error. -/
theorem LoadPartitions_load_failure_propagates_witness :
    Event.LoadPartitions "c" ["p"] (Reply.fail (Error.remote "unavailable")) ∈
      (LoadPartitions scenarioLoadFails 3 "c" ["p"] false).2 ∧
    (∃ e tr1, LoadPartitions scenarioLoadFails 3 "c" ["p"] false =
        (Outcome.returned (some e),
          tr1 ++ [Event.LoadPartitions "c" ["p"] (Reply.fail (Error.remote "unavailable"))]) ∧
      ((Reply.fail (Error.remote "unavailable") : Reply Status) = Reply.fail e ∨
        ∃ st, (Reply.fail (Error.remote "unavailable") : Reply Status) = Reply.ok st ∧
          e = Error.status st.ErrorCode st.Reason)) ∧
    (LoadPartitions scenarioLoadFails 3 "c" ["p"] false).2.countP Event.isLoadRequest = 1 ∧
    (∀ x ∈ (LoadPartitions scenarioLoadFails 3 "c" ["p"] false).2,
      x.isStatsFetch = false ∧ x.isSleep = false) :=
  ⟨by decide,
    LoadPartitions_load_failure_propagates scenarioLoadFails 3 "c" ["p"] false "c" ["p"]
      (Reply.fail (Error.remote "unavailable")) (by decide)
      (Or.inl ⟨Error.remote "unavailable", rfl⟩)⟩

/-- C10: whenever `LoadPartitions` returns an error, the error is that of the
nil-service guard, of a failed existence check, of a failed `ShowPartitions`, of
a requested name missing from the listing, or of a failed load request, and the
trace then holds no acknowledged load request, no statistics fetch and no sleep.
Conversely, once the trace holds a load request acknowledged with a success
status, the call does not return an error and does not panic, whatever
`GetPersistentSegmentInfo` and the polls return: it returns success, at once
when `async` is set, or it is still waiting in the loop. -/
theorem LoadPartitions_errors_only_before_ack (c : grpcClient) (fuel : Nat)
    (collName : String) (partitionNames : List String) (async : Bool) :
    (∀ e, (LoadPartitions c fuel collName partitionNames async).1 =
        Outcome.returned (some e) →
      ((c.service = none ∧ e = Error.ErrClientNotReady) ∨
       (∃ tr, checkPartitions c collName partitionNames [] = (some e, tr)) ∨
       (∃ service checks, c.service = some service ∧
          checkPartitions c collName partitionNames [] = (none, checks) ∧
          (service.ShowPartitions checks collName = Reply.fail e ∨
           ∃ resp partitions, service.ShowPartitions checks collName = Reply.ok resp ∧
              pairPartitions resp.PartitionNames resp.PartitionIDs 0 [] = some partitions ∧
              (resolveIDs collName (nameMap partitions []) partitionNames [] =
                  Except.error e ∨
               service.LoadPartitions (checks ++ [Event.ShowPartitions collName (Reply.ok resp)])
                  collName partitionNames = Reply.fail e ∨
               ∃ st, service.LoadPartitions
                    (checks ++ [Event.ShowPartitions collName (Reply.ok resp)])
                    collName partitionNames = Reply.ok st ∧
                  handleRespStatus st = some e)))) ∧
      ∀ x ∈ (LoadPartitions c fuel collName partitionNames async).2,
        x.isLoadAck = false ∧ x.isStatsFetch = false ∧ x.isSleep = false) ∧
    ((∃ x ∈ (LoadPartitions c fuel collName partitionNames async).2, x.isLoadAck = true) →
      ((LoadPartitions c fuel collName partitionNames async).1 = Outcome.returned none ∨
        (LoadPartitions c fuel collName partitionNames async).1 = Outcome.waiting) ∧
      (async = true →
        (LoadPartitions c fuel collName partitionNames async).1 = Outcome.returned none)) := by
  refine ⟨?_, ?_⟩
  · intro e h
    rcases LoadPartitions_cases c fuel collName partitionNames async with
      ⟨out, tr, hv, hL⟩ | ⟨ids, tr2, hv, ⟨_, hL⟩ | ⟨_, polls, _, _, ⟨_, hL⟩ | ⟨_, _, hL⟩⟩⟩
    · rw [hL] at h ⊢
      simp only at h
      subst h
      rcases validateAndLoad_cases c collName partitionNames with
        ⟨hs, hv2⟩ | ⟨service, hs, ⟨err, tr0, hc, hv2⟩ | ⟨tr0, hc, ⟨err, hsh, hv2⟩ |
          ⟨resp, hsh, ⟨_, hv2⟩ | ⟨partitions, hpp, ⟨err, hr, hv2⟩ | ⟨ids, hr, ⟨err, hl, hv2⟩ |
            ⟨st, hl, ⟨err, hh, hv2⟩ | ⟨hh, hv2⟩⟩⟩⟩⟩⟩⟩
      all_goals
        rw [hv2] at hv
        simp only [Prod.mk.injEq, Except.error.injEq, Outcome.returned.injEq,
          Option.some.injEq, reduceCtorEq, false_and] at hv
      · obtain ⟨he, htr⟩ := hv
        subst he
        subst htr
        exact ⟨Or.inl ⟨hs, rfl⟩, by simp⟩
      · obtain ⟨he, htr⟩ := hv
        subst he
        subst htr
        exact ⟨Or.inr (Or.inl ⟨_, hc⟩),
          (checks_quiet _ (checkPartitions_checks_only c service collName hs _ _ _ hc)).2⟩
      · obtain ⟨he, htr⟩ := hv
        subst he
        subst htr
        have hq := (checks_quiet _ (checkPartitions_checks_only c service collName hs _ _ _ hc)).2
        refine ⟨Or.inr (Or.inr ⟨service, tr0, hs, hc, Or.inl hsh⟩), ?_⟩
        intro x hx
        simp only [List.mem_append, List.mem_singleton] at hx
        rcases hx with hx | rfl
        · exact hq x hx
        · exact ⟨rfl, rfl, rfl⟩
      · obtain ⟨he, htr⟩ := hv
        subst he
        subst htr
        have hq := (checks_quiet _ (checkPartitions_checks_only c service collName hs _ _ _ hc)).2
        refine ⟨Or.inr (Or.inr ⟨service, tr0, hs, hc,
          Or.inr ⟨resp, partitions, hsh, hpp, Or.inl hr⟩⟩), ?_⟩
        intro x hx
        simp only [List.mem_append, List.mem_singleton] at hx
        rcases hx with hx | rfl
        · exact hq x hx
        · exact ⟨rfl, rfl, rfl⟩
      · obtain ⟨he, htr⟩ := hv
        subst he
        subst htr
        have hq := (checks_quiet _ (checkPartitions_checks_only c service collName hs _ _ _ hc)).2
        refine ⟨Or.inr (Or.inr ⟨service, tr0, hs, hc,
          Or.inr ⟨resp, partitions, hsh, hpp, Or.inr (Or.inl hl)⟩⟩), ?_⟩
        intro x hx
        simp only [List.mem_append, List.mem_singleton] at hx
        rcases hx with (hx | rfl) | rfl
        · exact hq x hx
        · exact ⟨rfl, rfl, rfl⟩
        · exact ⟨rfl, rfl, rfl⟩
      · obtain ⟨he, htr⟩ := hv
        subst he
        subst htr
        have hq := (checks_quiet _ (checkPartitions_checks_only c service collName hs _ _ _ hc)).2
        have hcode : st.ErrorCode ≠ ErrorCode_Success := by
          intro hcode
          rw [(handleRespStatus_eq_none_iff st).mpr hcode] at hh
          simp at hh
        refine ⟨Or.inr (Or.inr ⟨service, tr0, hs, hc,
          Or.inr ⟨resp, partitions, hsh, hpp, Or.inr (Or.inr ⟨st, hl, hh⟩)⟩⟩), ?_⟩
        intro x hx
        simp only [List.mem_append, List.mem_singleton] at hx
        rcases hx with (hx | rfl) | rfl
        · exact hq x hx
        · exact ⟨rfl, rfl, rfl⟩
        · exact ⟨by simp [Event.isLoadAck, hcode], rfl, rfl⟩
    · rw [hL] at h
      simp at h
    · rw [hL] at h
      simp at h
    · rw [hL] at h
      simp at h
  · rintro ⟨x, hx, hack⟩
    cases x with
    | LoadPartitions coll names reply =>
      cases reply with
      | fail err => simp [Event.isLoadAck] at hack
      | ok st =>
        have hcode : st.ErrorCode = ErrorCode_Success := by
          simpa [Event.isLoadAck] using hack
        obtain ⟨service, checks, resp, partitions, ids, hs, hc, hsh, hpp, hr, hl, _, _, _⟩ :=
          load_event_mem c fuel collName partitionNames async coll names (Reply.ok st) hx
        have hh := (handleRespStatus_eq_none_iff st).mpr hcode
        have hv : validateAndLoad c collName partitionNames =
            (Except.ok ids,
              (checks ++ [Event.ShowPartitions collName (Reply.ok resp)]) ++
                [Event.LoadPartitions collName partitionNames (Reply.ok st)]) := by
          simp [validateAndLoad, ShowPartitions, hs, hc, hsh, hpp, hr, hl, hh]
        rcases LoadPartitions_cases c fuel collName partitionNames async with
          ⟨out, tr, hv2, _⟩ | ⟨ids2, tr2, _, ⟨_, hL⟩ | ⟨hasync, polls, _, _, ⟨_, hL⟩ | ⟨_, _, hL⟩⟩⟩
        · rw [hv] at hv2
          simp at hv2
        · rw [hL]
          exact ⟨Or.inl rfl, fun _ => rfl⟩
        · rw [hL]
          exact ⟨Or.inl rfl, fun _ => rfl⟩
        · rw [hL]
          refine ⟨Or.inr rfl, ?_⟩
          intro ha
          rw [hasync] at ha
          simp at ha
    | _ => simp [Event.isLoadAck] at hack

/-- Two runs of C10: `scenarioC` returns the error of the incomplete listing
and its trace holds no acknowledged load request and no statistics fetch; the
synchronous `scenarioB`, whose load request is acknowledged and whose first poll
fails, returns success. -/
theorem LoadPartitions_errors_only_before_ack_witness :
    ((LoadPartitions scenarioC 0 "c" ["p"] false).1 =
        Outcome.returned (some (Error.New "Collection c does not has partitions p")) ∧
      ∀ x ∈ (LoadPartitions scenarioC 0 "c" ["p"] false).2,
        x.isLoadAck = false ∧ x.isStatsFetch = false ∧ x.isSleep = false) ∧
    ((∃ x ∈ (LoadPartitions scenarioB 2 "c" ["p"] false).2, x.isLoadAck = true) ∧
      ((LoadPartitions scenarioB 2 "c" ["p"] false).1 = Outcome.returned none ∨
        (LoadPartitions scenarioB 2 "c" ["p"] false).1 = Outcome.waiting)) :=
  ⟨⟨by decide,
      ((LoadPartitions_errors_only_before_ack scenarioC 0 "c" ["p"] false).1
        (Error.New "Collection c does not has partitions p") (by decide)).2⟩,
    ⟨⟨Event.LoadPartitions "c" ["p"] (Reply.ok statusSuccess), by decide, by decide⟩,
      ((LoadPartitions_errors_only_before_ack scenarioB 2 "c" ["p"] false).2
        ⟨Event.LoadPartitions "c" ["p"] (Reply.ok statusSuccess), by decide, by decide⟩).1⟩⟩

/-! ## Monotonicity, the state invariant and idempotence of a poll cycle -/

theorem delete_sublist {κ β : Type} [DecidableEq κ] (m : GoMap κ β) (key : κ) :
    List.Sublist (GoMap.delete m key) m := by
  unfold GoMap.delete
  exact List.filter_sublist m

theorem reconcile_sublist (current : List Segment) :
    ∀ target : GoMap Int Segment, List.Sublist (reconcile target current) target := by
  induction current with
  | nil =>
    intro target
    exact List.Sublist.refl target
  | cons segment rest ih =>
    intro target
    cases hl : GoMap.lookup target segment.ID with
    | none =>
      have hr : reconcile target (segment :: rest) = reconcile target rest := by
        simp [reconcile, hl]
      rw [hr]
      exact ih target
    | some ts =>
      by_cases hge : segment.NumRows ≥ ts.NumRows
      · have hr : reconcile target (segment :: rest) =
            reconcile (GoMap.delete target segment.ID) rest := by
          simp [reconcile, hl, hge]
        rw [hr]
        exact (ih _).trans (delete_sublist target segment.ID)
      · have hr : reconcile target (segment :: rest) = reconcile target rest := by
          simp [reconcile, hl, hge]
        rw [hr]
        exact ih target

theorem pollCycle_sublist (target : GoMap Int Segment) (poll : List Segment × Option Error) :
    List.Sublist (pollCycle target poll) target := by
  obtain ⟨current, err⟩ := poll
  cases err with
  | none => exact reconcile_sublist current target
  | some e => exact List.Sublist.refl target

theorem runPolls_sublist (polls : List (List Segment × Option Error)) :
    ∀ target : GoMap Int Segment, List.Sublist (runPolls target polls) target := by
  induction polls with
  | nil =>
    intro target
    exact List.Sublist.refl target
  | cons poll rest ih =>
    intro target
    rw [runPolls_cons]
    exact (ih _).trans (pollCycle_sublist target poll)

theorem runPolls_append (target : GoMap Int Segment)
    (polls more : List (List Segment × Option Error)) :
    runPolls target (polls ++ more) = runPolls (runPolls target polls) more := by
  simp [runPolls, List.foldl_append]

theorem lookup_pollCycle (target : GoMap Int Segment) (poll : List Segment × Option Error)
    (id : Int) (ts : Segment) (h : GoMap.lookup (pollCycle target poll) id = some ts) :
    GoMap.lookup target id = some ts := by
  obtain ⟨current, err⟩ := poll
  cases err with
  | none => exact ((lookup_reconcile target current id ts).mp h).1
  | some e => exact h

theorem lookup_runPolls (polls : List (List Segment × Option Error)) :
    ∀ (target : GoMap Int Segment) (id : Int) (ts : Segment),
      GoMap.lookup (runPolls target polls) id = some ts → GoMap.lookup target id = some ts := by
  induction polls with
  | nil =>
    intro target id ts h
    exact h
  | cons poll rest ih =>
    intro target id ts h
    rw [runPolls_cons] at h
    exact lookup_pollCycle target poll id ts (ih _ id ts h)

theorem reconcile_of_no_cover (current : List Segment) (target : GoMap Int Segment)
    (h : ∀ s ∈ current, ∀ ts, GoMap.lookup target s.ID = some ts → s.NumRows < ts.NumRows) :
    reconcile target current = target := by
  induction current with
  | nil => rfl
  | cons segment rest ih =>
    have hrest : ∀ s ∈ rest, ∀ ts, GoMap.lookup target s.ID = some ts →
        s.NumRows < ts.NumRows := fun s hs => h s (List.mem_cons_of_mem _ hs)
    cases hl : GoMap.lookup target segment.ID with
    | none =>
      have hr : reconcile target (segment :: rest) = reconcile target rest := by
        simp [reconcile, hl]
      rw [hr]
      exact ih hrest
    | some ts =>
      have hlt := h segment (List.mem_cons_self _ _) ts hl
      have hge : ¬ segment.NumRows ≥ ts.NumRows := by omega
      have hr : reconcile target (segment :: rest) = reconcile target rest := by
        simp [reconcile, hl, hge]
      rw [hr]
      exact ih hrest

/-- C11: a poll cycle, successful or failed and with any observed list, yields
a pending map that is a sublist of the one before it; so the pending ids after
the cycle are among those before it and their number does not grow, over any
sequence of cycles. An id that is no longer pending after some cycles is not
pending after any further cycles either, as in the run where segment 1, removed
with 10 of 10 rows, is then reported with 3 rows. -/
theorem pending_monotone :
    (∀ (target : GoMap Int Segment) (poll : List Segment × Option Error),
      List.Sublist (pollCycle target poll) target ∧
      (∀ id, id ∈ GoMap.keys (pollCycle target poll) → id ∈ GoMap.keys target) ∧
      GoMap.len (pollCycle target poll) ≤ GoMap.len target) ∧
    (∀ (target : GoMap Int Segment) (polls more : List (List Segment × Option Error)),
      List.Sublist (runPolls target (polls ++ more)) (runPolls target polls) ∧
      GoMap.len (runPolls target (polls ++ more)) ≤ GoMap.len (runPolls target polls) ∧
      (∀ id, id ∉ GoMap.keys (runPolls target polls) →
        id ∉ GoMap.keys (runPolls target (polls ++ more)))) ∧
    (∀ p q : Int,
      runPolls [(1, ⟨1, p, 10⟩)] [([⟨1, q, 10⟩], none)] = [] ∧
      runPolls [(1, ⟨1, p, 10⟩)] [([⟨1, q, 10⟩], none), ([⟨1, q, 3⟩], none)] = []) := by
  refine ⟨?_, ?_, ?_⟩
  · intro target poll
    have hsub := pollCycle_sublist target poll
    refine ⟨hsub, ?_, hsub.length_le⟩
    intro id hid
    exact (hsub.map Prod.fst).subset hid
  · intro target polls more
    have hsub : List.Sublist (runPolls target (polls ++ more)) (runPolls target polls) := by
      rw [runPolls_append]
      exact runPolls_sublist more _
    refine ⟨hsub, hsub.length_le, ?_⟩
    intro id hnot hin
    exact hnot ((hsub.map Prod.fst).subset hin)
  · intro p q
    simp [runPolls, pollCycle, reconcile, GoMap.lookup, GoMap.delete]

/-- A run of C11: segment 2 is not pending after the first poll of the run and
stays so after a later poll that shows it with one row. -/
theorem pending_monotone_witness :
    (2 : Int) ∉ GoMap.keys
        (runPolls [(1, ⟨1, 7, 10⟩), (2, ⟨2, 7, 5⟩)] [([⟨2, 7, 5⟩], none)]) ∧
      (2 : Int) ∉ GoMap.keys
        (runPolls [(1, ⟨1, 7, 10⟩), (2, ⟨2, 7, 5⟩)]
          ([([⟨2, 7, 5⟩], none)] ++ [([⟨2, 7, 1⟩], none)])) :=
  ⟨by decide,
    (pending_monotone.2.1 [(1, ⟨1, 7, 10⟩), (2, ⟨2, 7, 5⟩)] [([⟨2, 7, 5⟩], none)]
      [([⟨2, 7, 1⟩], none)]).2.2 2 (by decide)⟩

/-- C12: in every state that the wait loop reaches from the captured snapshot,
by any sequence of poll cycles, each pending id is a key of the snapshot and
maps to the same segment, hence the same expected row count, as in the
snapshot. -/
theorem pending_within_snapshot :
    (∀ (ids : GoMap Int Unit) (segments : List Segment)
        (polls : List (List Segment × Option Error)) (id : Int) (ts : Segment),
      GoMap.lookup (runPolls (capture ids segments []) polls) id = some ts →
        GoMap.lookup (capture ids segments []) id = some ts) ∧
    (∀ (ids : GoMap Int Unit) (segments : List Segment)
        (polls : List (List Segment × Option Error)) (id : Int),
      id ∈ GoMap.keys (runPolls (capture ids segments []) polls) →
        id ∈ GoMap.keys (capture ids segments [])) ∧
    (∀ (c : grpcClient) (collName : String) (fuel : Nat) (ids : GoMap Int Unit)
        (segments : List Segment) (tr : List Event) (id : Int) (ts : Segment),
      GoMap.lookup (waitLoop c collName fuel (capture ids segments []) tr).2.1 id = some ts →
        GoMap.lookup (capture ids segments []) id = some ts) := by
  refine ⟨?_, ?_, ?_⟩
  · intro ids segments polls id ts h
    exact lookup_runPolls polls _ id ts h
  · intro ids segments polls id h
    exact ((runPolls_sublist polls (capture ids segments [])).map Prod.fst).subset h
  · intro c collName fuel ids segments tr id ts h
    obtain ⟨polls, _, heq, _, _⟩ := waitLoop_shape c collName fuel (capture ids segments []) tr
    rw [heq] at h
    exact lookup_runPolls polls _ id ts h

/-- A run of C12: after the failed first poll of Scenario B segment 1 is still
pending, with the 10 expected rows of the snapshot. -/
theorem pending_within_snapshot_witness :
    GoMap.lookup (runPolls (capture [(10, ())] [⟨1, 10, 10⟩] [])
        [([], some (Error.remote "timeout"))]) 1 = some ⟨1, 10, 10⟩ ∧
      GoMap.lookup (capture [(10, ())] [⟨1, 10, 10⟩] []) 1 = some ⟨1, 10, 10⟩ :=
  ⟨by decide,
    pending_within_snapshot.1 [(10, ())] [⟨1, 10, 10⟩] [([], some (Error.remote "timeout"))] 1
      ⟨1, 10, 10⟩ (by decide)⟩

/-- C13: applying a poll cycle twice in a row with the same result of
`GetQuerySegmentInfo` yields the same pending map as applying it once. -/
theorem pollCycle_idempotent (target : GoMap Int Segment) (current : List Segment)
    (err : Option Error) :
    pollCycle (pollCycle target (current, err)) (current, err) =
      pollCycle target (current, err) := by
  cases err with
  | some e => rfl
  | none =>
    have hp : ∀ t, pollCycle t (current, none) = reconcile t current := fun _ => rfl
    rw [hp, hp]
    apply reconcile_of_no_cover
    intro s hs ts hl
    exact ((lookup_reconcile target current s.ID ts).mp hl).2 s hs rfl

/-! ## The wait loop, iteration by iteration -/

theorem firstPolls_length (c : grpcClient) (collName : String) (n : Nat) :
    ∀ tr : List Event, (firstPolls c collName n tr).length = n := by
  induction n with
  | zero =>
    intro tr
    rfl
  | succ n ih =>
    intro tr
    simp [firstPolls, ih]

theorem firstPolls_take (c : grpcClient) (collName : String) (k : Nat) :
    ∀ (n : Nat) (tr : List Event), k ≤ n →
      (firstPolls c collName n tr).take k = firstPolls c collName k tr := by
  induction k with
  | zero =>
    intro n tr _
    simp [firstPolls]
  | succ k ih =>
    intro n tr hk
    cases n with
    | zero => omega
    | succ n =>
      simp only [firstPolls, List.take_succ_cons]
      rw [ih n _ (by omega)]

theorem pollEvents_append (collName : String) (a b : List (List Segment × Option Error)) :
    pollEvents collName (a ++ b) = pollEvents collName a ++ pollEvents collName b := by
  induction a with
  | nil => rfl
  | cons poll rest ih => simp [pollEvents, ih]

theorem waitLoop_nil (c : grpcClient) (collName : String) (fuel : Nat) (tr : List Event) :
    waitLoop c collName fuel [] tr = (true, [], tr) := by
  cases fuel <;> simp [waitLoop, GoMap.len]

theorem waitLoop_unroll (c : grpcClient) (collName : String) (m : Nat) :
    ∀ (f : Nat) (target : GoMap Int Segment) (tr : List Event),
      (∀ k, k < m → runPolls target (firstPolls c collName k tr) ≠ []) →
      waitLoop c collName (m + f) target tr =
        waitLoop c collName f (runPolls target (firstPolls c collName m tr))
          (tr ++ pollEvents collName (firstPolls c collName m tr)) := by
  induction m with
  | zero =>
    intro f target tr _
    simp [firstPolls, pollEvents, runPolls]
  | succ m ih =>
    intro f target tr h
    have hne : target ≠ [] := by
      have := h 0 (by omega)
      simpa [firstPolls, runPolls] using this
    have hlen : GoMap.len target > 0 := by
      have : GoMap.len target ≠ 0 := fun h0 => hne ((GoMap.len_eq_zero_iff target).mp h0)
      omega
    have harith : m + 1 + f = (m + f) + 1 := by omega
    rw [harith]
    have hstep : waitLoop c collName ((m + f) + 1) target tr =
        waitLoop c collName (m + f) (pollCycle target (c.GetQuerySegmentInfo tr collName))
          ((tr ++ [Event.GetQuerySegmentInfo collName (c.GetQuerySegmentInfo tr collName).1
            (c.GetQuerySegmentInfo tr collName).2]) ++ [Event.Sleep 100]) := by
      simp [waitLoop, hlen]
    rw [hstep, ih]
    · simp [firstPolls, pollEvents, runPolls_cons]
    · intro k hk
      have := h (k + 1) (by omega)
      simpa [firstPolls, runPolls_cons] using this

theorem countP_pollEvents (collName : String) (polls : List (List Segment × Option Error)) :
    (pollEvents collName polls).countP Event.isQueryPoll = polls.length ∧
      (pollEvents collName polls).countP Event.isSleep = polls.length := by
  induction polls with
  | nil => simp [pollEvents]
  | cons poll rest ih =>
    simp [pollEvents, List.countP_cons, Event.isQueryPoll, Event.isSleep, ih.1, ih.2]

theorem isQueryPoll_le_isStatsFetch (x : Event) (h : x.isStatsFetch = false) :
    x.isQueryPoll = false := by
  cases x <;> simp_all [Event.isStatsFetch, Event.isQueryPoll]

theorem validateAndLoad_ok_quiet (c : grpcClient) (collName : String)
    (partitionNames : List String) (ids : GoMap Int Unit) (tr2 : List Event)
    (h : validateAndLoad c collName partitionNames = (Except.ok ids, tr2)) :
    ∀ x ∈ tr2, x.isQueryPoll = false ∧ x.isSleep = false := by
  rcases validateAndLoad_cases c collName partitionNames with
    ⟨_, hv2⟩ | ⟨service, hs, ⟨err, tr0, hc, hv2⟩ | ⟨tr0, hc, ⟨err, _, hv2⟩ |
      ⟨resp, _, ⟨_, hv2⟩ | ⟨partitions, _, ⟨err, _, hv2⟩ | ⟨ids2, _, ⟨err, _, hv2⟩ |
        ⟨st, _, ⟨err, _, hv2⟩ | ⟨hh, hv2⟩⟩⟩⟩⟩⟩⟩
  all_goals
    rw [hv2] at h
    simp only [Prod.mk.injEq, reduceCtorEq, false_and, Except.ok.injEq] at h
  obtain ⟨_, htr⟩ := h
  subst htr
  have hq := (checks_quiet tr0 (checkPartitions_checks_only c service collName hs _ _ _ hc)).2
  intro x hx
  simp only [List.mem_append, List.mem_singleton] at hx
  rcases hx with (hx | rfl) | rfl
  · exact ⟨isQueryPoll_le_isStatsFetch x (hq x hx).2.1, (hq x hx).2.2⟩
  · exact ⟨rfl, rfl⟩
  · exact ⟨rfl, rfl⟩

theorem LoadPartitions_sync_eq (c : grpcClient) (fuel : Nat) (collName : String)
    (partitionNames : List String) (ids : GoMap Int Unit) (tr2 : List Event)
    (h : validateAndLoad c collName partitionNames = (Except.ok ids, tr2)) :
    LoadPartitions c fuel collName partitionNames false =
      match waitLoop c collName fuel (snapshotAt c collName ids tr2)
        (tr2 ++ [persistentEvent c collName tr2]) with
      | (true, _, tr4) => (Outcome.returned none, tr4)
      | (false, _, tr4) => (Outcome.waiting, tr4) := by
  simp [LoadPartitions, h, snapshotAt, persistentEvent]

theorem capture_eq_nil_iff (ids : GoMap Int Unit) (segments : List Segment) :
    capture ids segments [] = [] ↔
      ∀ s ∈ segments, s.NumRows = 0 ∨ s.ParititionID ∉ GoMap.keys ids := by
  constructor
  · intro h s hs
    by_contra hno
    have hno2 : ¬ s.NumRows = 0 ∧ s.ParititionID ∈ GoMap.keys ids := by
      constructor
      · exact fun h0 => hno (Or.inl h0)
      · by_contra hnot
        exact hno (Or.inr hnot)
    have hin : s.ID ∈ GoMap.keys (capture ids segments []) :=
      (mem_keys_capture ids segments [] s.ID).mpr (Or.inr ⟨s, hs, rfl, hno2.2, hno2.1⟩)
    rw [h] at hin
    simp [GoMap.keys] at hin
  · intro h
    cases hc : capture ids segments [] with
    | nil => rfl
    | cons e rest =>
      exfalso
      have hin : e.1 ∈ GoMap.keys (capture ids segments []) := by
        rw [hc]
        simp [GoMap.keys]
      rcases (mem_keys_capture ids segments [] e.1).mp hin with h1 | ⟨s, hs, _, hp, h0⟩
      · simp [GoMap.keys] at h1
      · rcases h s hs with h2 | h2
        · exact h0 h2
        · exact h2 hp

theorem validateAndLoad_nil_ids (c : grpcClient) (collName : String) (ids : GoMap Int Unit)
    (tr2 : List Event) (h : validateAndLoad c collName [] = (Except.ok ids, tr2)) :
    ids = [] := by
  rcases validateAndLoad_cases c collName [] with
    ⟨_, hv2⟩ | ⟨service, hs, ⟨err, tr0, hc, hv2⟩ | ⟨tr0, hc, ⟨err, _, hv2⟩ |
      ⟨resp, _, ⟨_, hv2⟩ | ⟨partitions, _, ⟨err, _, hv2⟩ | ⟨ids2, hr, ⟨err, _, hv2⟩ |
        ⟨st, _, ⟨err, _, hv2⟩ | ⟨hh, hv2⟩⟩⟩⟩⟩⟩⟩
  all_goals
    rw [hv2] at h
    simp only [Prod.mk.injEq, reduceCtorEq, false_and, Except.ok.injEq] at h
  simp only [resolveIDs, Except.ok.injEq] at hr
  rw [← h.1, ← hr]

/-! ## The claims about the course of the wait loop -/

/-- C14: the captured snapshot is empty exactly when no listed persistent
segment is both non-empty and in a requested partition, which is the case in
particular for an empty list of partition names; with an empty snapshot the
synchronous `LoadPartitions` returns success right after
`GetPersistentSegmentInfo`, for every iteration bound, with no call of
`GetQuerySegmentInfo` and no sleep. -/
theorem LoadPartitions_empty_snapshot (c : grpcClient) (collName : String)
    (partitionNames : List String) (ids : GoMap Int Unit) (tr2 : List Event)
    (hv : validateAndLoad c collName partitionNames = (Except.ok ids, tr2)) :
    (partitionNames = [] → snapshotAt c collName ids tr2 = []) ∧
    (snapshotAt c collName ids tr2 = [] ↔
      ∀ s ∈ (c.GetPersistentSegmentInfo tr2 collName).1,
        s.NumRows = 0 ∨ s.ParititionID ∉ GoMap.keys ids) ∧
    (snapshotAt c collName ids tr2 = [] →
      ∀ fuel,
        LoadPartitions c fuel collName partitionNames false =
          (Outcome.returned none, tr2 ++ [persistentEvent c collName tr2]) ∧
        (LoadPartitions c fuel collName partitionNames false).2.countP Event.isQueryPoll = 0 ∧
        (LoadPartitions c fuel collName partitionNames false).2.countP Event.isSleep = 0) := by
  refine ⟨?_, capture_eq_nil_iff ids _, ?_⟩
  · intro hnil
    subst hnil
    have hids := validateAndLoad_nil_ids c collName ids tr2 hv
    subst hids
    apply (capture_eq_nil_iff [] _).mpr
    intro s _
    right
    simp [GoMap.keys]
  · intro hempty fuel
    have hrun : LoadPartitions c fuel collName partitionNames false =
        (Outcome.returned none, tr2 ++ [persistentEvent c collName tr2]) := by
      rw [LoadPartitions_sync_eq c fuel collName partitionNames ids tr2 hv, hempty, waitLoop_nil]
    have hq := validateAndLoad_ok_quiet c collName partitionNames ids tr2 hv
    have h1 : tr2.countP Event.isQueryPoll = 0 := by
      rw [List.countP_eq_zero]
      intro x hx
      simp [(hq x hx).1]
    have h2 : tr2.countP Event.isSleep = 0 := by
      rw [List.countP_eq_zero]
      intro x hx
      simp [(hq x hx).2]
    refine ⟨hrun, ?_, ?_⟩
    · rw [hrun]
      simp [List.countP_append, h1, persistentEvent, Event.isQueryPoll]
    · rw [hrun]
      simp [List.countP_append, h2, persistentEvent, Event.isSleep]

/-- A run of C14: the partition of `scenarioNoData` has one segment without
rows, and the other listed segment lies in another partition. -/
theorem LoadPartitions_empty_snapshot_witness :
    validateAndLoad scenarioNoData "c" ["p"] = (Except.ok [(10, ())], scenarioBTrace.take 4) ∧
    snapshotAt scenarioNoData "c" [(10, ())] (scenarioBTrace.take 4) = [] ∧
    LoadPartitions scenarioNoData 0 "c" ["p"] false =
      (Outcome.returned none,
        scenarioBTrace.take 4 ++ [persistentEvent scenarioNoData "c" (scenarioBTrace.take 4)]) ∧
    (LoadPartitions scenarioNoData 0 "c" ["p"] false).2.countP Event.isQueryPoll = 0 ∧
    (LoadPartitions scenarioNoData 0 "c" ["p"] false).2.countP Event.isSleep = 0 :=
  ⟨by rfl, by rfl,
    (LoadPartitions_empty_snapshot scenarioNoData "c" ["p"] [(10, ())] (scenarioBTrace.take 4)
      (by rfl)).2.2 (by rfl) 0⟩

/-- C15: for every number `n`, if the loop is entered with a non-empty target
and each of the first `n` polls fails or leaves a target pending, then after
`n` iterations the loop has not exited, and with one more iteration allowed it
performs poll number `n + 1`. -/
theorem waitLoop_no_bound (c : grpcClient) (collName : String) (n : Nat)
    (target : GoMap Int Segment) (tr : List Event) (hne : target ≠ [])
    (hpolls : ∀ k, k < n →
      (∃ current e, (firstPolls c collName n tr)[k]? = some (current, some e)) ∨
      runPolls target ((firstPolls c collName n tr).take (k + 1)) ≠ []) :
    waitLoop c collName n target tr =
      (false, runPolls target (firstPolls c collName n tr),
        tr ++ pollEvents collName (firstPolls c collName n tr)) ∧
    (∃ exited, waitLoop c collName (n + 1) target tr =
      (exited, runPolls target (firstPolls c collName (n + 1) tr),
        tr ++ pollEvents collName (firstPolls c collName (n + 1) tr))) ∧
    (pollEvents collName (firstPolls c collName (n + 1) tr)).countP Event.isQueryPoll =
      n + 1 := by
  have hall : ∀ k, k ≤ n → runPolls target (firstPolls c collName k tr) ≠ [] := by
    intro k
    induction k with
    | zero =>
      intro _
      simpa [firstPolls, runPolls] using hne
    | succ k ih =>
      intro hk
      have hprev := ih (by omega)
      rw [← firstPolls_take c collName (k + 1) n tr hk]
      rcases hpolls k (by omega) with ⟨current, e, hget⟩ | hnon
      · rw [List.take_succ, hget, runPolls_append, firstPolls_take c collName k n tr (by omega)]
        simpa [runPolls, pollCycle] using hprev
      · exact hnon
  have hzero : ∀ (state : GoMap Int Segment) (t : List Event),
      waitLoop c collName 0 state t = (decide (state = []), state, t) := by
    intro state t
    cases state <;> simp [waitLoop, GoMap.len]
  refine ⟨?_, ?_, ?_⟩
  · have h := waitLoop_unroll c collName n 0 target tr (fun k hk => hall k (by omega))
    rw [Nat.add_zero] at h
    rw [h, hzero]
    simp [hall n (le_refl n)]
  · have h := waitLoop_unroll c collName (n + 1) 0 target tr (fun k hk => hall k (by omega))
    rw [Nat.add_zero] at h
    exact ⟨_, by rw [h, hzero]⟩
  · rw [(countP_pollEvents collName _).1, firstPolls_length]

/-- A run of C15: the polls of `scenarioNeverVisible` fail; after 3 iterations
on target seg1 the loop has not exited. -/
theorem waitLoop_no_bound_witness :
    ([((1 : Int), (⟨1, 10, 10⟩ : Segment))] : GoMap Int Segment) ≠ [] ∧
    waitLoop scenarioNeverVisible "c" 3 [(1, ⟨1, 10, 10⟩)] [] =
      (false, runPolls [(1, ⟨1, 10, 10⟩)] (firstPolls scenarioNeverVisible "c" 3 []),
        [] ++ pollEvents "c" (firstPolls scenarioNeverVisible "c" 3 [])) :=
  ⟨by decide,
    (waitLoop_no_bound scenarioNeverVisible "c" 3 [(1, ⟨1, 10, 10⟩)] [] (by decide)
      (by
        intro k hk
        left
        interval_cases k
        · exact ⟨[], Error.remote "unavailable", by rfl⟩
        · exact ⟨[], Error.remote "unavailable", by rfl⟩
        · exact ⟨[], Error.remote "unavailable", by rfl⟩)).1⟩

/-- C20: if the pending map is empty after `k` poll cycles and after no fewer,
then the synchronous `LoadPartitions`, allowed at least `k` iterations, returns
success with a trace that ends with exactly these `k` polls: it holds `k` calls
of `GetQuerySegmentInfo` and no further one. -/
theorem LoadPartitions_returns_at_first_convergence (c : grpcClient) (fuel : Nat)
    (collName : String) (partitionNames : List String) (ids : GoMap Int Unit)
    (tr2 : List Event) (k : Nat)
    (hv : validateAndLoad c collName partitionNames = (Except.ok ids, tr2))
    (hmin : ∀ j, j < k →
      runPolls (snapshotAt c collName ids tr2)
        (firstPolls c collName j (tr2 ++ [persistentEvent c collName tr2])) ≠ [])
    (hk : runPolls (snapshotAt c collName ids tr2)
        (firstPolls c collName k (tr2 ++ [persistentEvent c collName tr2])) = [])
    (hfuel : k ≤ fuel) :
    LoadPartitions c fuel collName partitionNames false =
      (Outcome.returned none,
        (tr2 ++ [persistentEvent c collName tr2]) ++
          pollEvents collName
            (firstPolls c collName k (tr2 ++ [persistentEvent c collName tr2]))) ∧
    (LoadPartitions c fuel collName partitionNames false).2.countP Event.isQueryPoll = k := by
  have hrun : LoadPartitions c fuel collName partitionNames false =
      (Outcome.returned none,
        (tr2 ++ [persistentEvent c collName tr2]) ++
          pollEvents collName
            (firstPolls c collName k (tr2 ++ [persistentEvent c collName tr2]))) := by
    have hf : fuel = k + (fuel - k) := by omega
    rw [LoadPartitions_sync_eq c fuel collName partitionNames ids tr2 hv, hf,
      waitLoop_unroll c collName k (fuel - k) _ _ hmin, hk, waitLoop_nil]
  refine ⟨hrun, ?_⟩
  have hq := validateAndLoad_ok_quiet c collName partitionNames ids tr2 hv
  have h1 : tr2.countP Event.isQueryPoll = 0 := by
    rw [List.countP_eq_zero]
    intro x hx
    simp [(hq x hx).1]
  rw [hrun]
  simp [List.countP_append, h1, persistentEvent, Event.isQueryPoll,
    (countP_pollEvents collName _).1, firstPolls_length]

/-- A run of C20, Scenario B: one failed poll, then a sufficient one; the call
returns success after exactly 2 polls although 5 iterations are allowed. -/
theorem LoadPartitions_returns_at_first_convergence_witness :
    LoadPartitions scenarioB 5 "c" ["p"] false = (Outcome.returned none, scenarioBTrace) ∧
    (LoadPartitions scenarioB 5 "c" ["p"] false).2.countP Event.isQueryPoll = 2 ∧
    (LoadPartitions scenarioB 5 "c" ["p"] false =
        (Outcome.returned none,
          (scenarioBTrace.take 4 ++ [persistentEvent scenarioB "c" (scenarioBTrace.take 4)]) ++
            pollEvents "c"
              (firstPolls scenarioB "c" 2
                (scenarioBTrace.take 4 ++
                  [persistentEvent scenarioB "c" (scenarioBTrace.take 4)]))) ∧
      (LoadPartitions scenarioB 5 "c" ["p"] false).2.countP Event.isQueryPoll = 2) :=
  ⟨by decide, by decide,
    LoadPartitions_returns_at_first_convergence scenarioB 5 "c" ["p"] [(10, ())]
      (scenarioBTrace.take 4) 2 (by rfl)
      (by
        intro j hj
        interval_cases j
        · decide
        · decide)
      (by rfl) (by decide)⟩

/-! ## The order of the calls in a trace -/

theorem split_after_prefix {α : Type} (A T pre post : List α) (x : α)
    (h : A ++ T = pre ++ x :: post) (hx : x ∉ A) : ∃ a, pre = A ++ a := by
  rcases List.append_eq_append_iff.mp h with ⟨a, hpre, _⟩ | ⟨c, hA, hc⟩
  · exact ⟨a, hpre⟩
  · cases c with
    | nil =>
      refine ⟨[], ?_⟩
      simp [hA]
    | cons y rest =>
      exfalso
      simp only [List.cons_append, List.cons.injEq] at hc
      apply hx
      rw [hA, hc.1]
      simp

theorem unique_split {α : Type} (P : α → Prop) (A : List α) :
    ∀ (y : α) (T pre : List α) (x : α) (post : List α),
      (∀ a ∈ A, ¬ P a) → (∀ t ∈ T, ¬ P t) → P x → A ++ y :: T = pre ++ x :: post →
      pre = A ∧ x = y ∧ post = T := by
  induction A with
  | nil =>
    intro y T pre x post _ hT hx h
    cases pre with
    | nil =>
      simp only [List.nil_append, List.cons.injEq] at h
      exact ⟨rfl, h.1.symm, h.2.symm⟩
    | cons p pre =>
      exfalso
      simp only [List.nil_append, List.cons_append, List.cons.injEq] at h
      apply hT x _ hx
      rw [h.2]
      simp
  | cons a A ih =>
    intro y T pre x post hA hT hx h
    cases pre with
    | nil =>
      exfalso
      simp only [List.cons_append, List.nil_append, List.cons.injEq] at h
      apply hA a (List.mem_cons_self _ _)
      rw [h.1]
      exact hx
    | cons p pre =>
      simp only [List.cons_append, List.cons.injEq] at h
      obtain ⟨h1, h2, h3⟩ := ih y T pre x post
        (fun b hb => hA b (List.mem_cons_of_mem _ hb)) hT hx h.2
      exact ⟨by rw [h.1, h1], h2, h3⟩

theorem validateAndLoad_ok_trace (c : grpcClient) (collName : String)
    (partitionNames : List String) (ids : GoMap Int Unit) (tr2 : List Event)
    (h : validateAndLoad c collName partitionNames = (Except.ok ids, tr2)) :
    ∃ tr1 st, tr2 = tr1 ++ [Event.LoadPartitions collName partitionNames (Reply.ok st)] ∧
      handleRespStatus st = none := by
  rcases validateAndLoad_cases c collName partitionNames with
    ⟨_, hv2⟩ | ⟨service, hs, ⟨err, tr0, hc, hv2⟩ | ⟨tr0, hc, ⟨err, _, hv2⟩ |
      ⟨resp, _, ⟨_, hv2⟩ | ⟨partitions, _, ⟨err, _, hv2⟩ | ⟨ids2, _, ⟨err, _, hv2⟩ |
        ⟨st, _, ⟨err, _, hv2⟩ | ⟨hh, hv2⟩⟩⟩⟩⟩⟩⟩
  all_goals
    rw [hv2] at h
    simp only [Prod.mk.injEq, reduceCtorEq, false_and, Except.ok.injEq] at h
  exact ⟨_, st, h.2.symm, hh⟩

theorem pollEvents_quiet (collName : String) (polls : List (List Segment × Option Error)) :
    (pollEvents collName polls).countP Event.isLoadRequest = 0 ∧
      ∀ x ∈ pollEvents collName polls, x.isStatsFetch = true ∨ x.isSleep = true := by
  refine ⟨?_, ?_⟩
  · rw [List.countP_eq_zero]
    intro x hx
    simp [(mem_pollEvents collName polls x hx).2.2.2.1]
  · intro x hx
    rcases (mem_pollEvents collName polls x hx).2.2.2.2 with ⟨poll, _, rfl⟩ | rfl
    · exact Or.inl rfl
    · exact Or.inr rfl

theorem isLoadRequest_of_isLoadAck (x : Event) (h : x.isLoadAck = true) :
    x.isLoadRequest = true := by
  cases x <;> simp_all [Event.isLoadAck, Event.isLoadRequest]

theorem load_request_of_validationPasses (c : grpcClient) (fuel : Nat) (collName : String)
    (partitionNames : List String) (async : Bool)
    (h : validationPasses c collName partitionNames) :
    ∃ y ∈ (LoadPartitions c fuel collName partitionNames async).2, y.isLoadRequest = true := by
  obtain ⟨service, checks, resp, partitions, ids, hs, hc, hsh, hpp, hr⟩ := h
  cases hl : service.LoadPartitions (checks ++ [Event.ShowPartitions collName (Reply.ok resp)])
      collName partitionNames with
  | fail e =>
    refine ⟨Event.LoadPartitions collName partitionNames (Reply.fail e), ?_, rfl⟩
    simp [LoadPartitions, validateAndLoad, ShowPartitions, hs, hc, hsh, hpp, hr, hl]
  | ok st =>
    refine ⟨Event.LoadPartitions collName partitionNames (Reply.ok st), ?_, rfl⟩
    cases hh : handleRespStatus st with
    | some e =>
      simp [LoadPartitions, validateAndLoad, ShowPartitions, hs, hc, hsh, hpp, hr, hl, hh]
    | none =>
      have hv : validateAndLoad c collName partitionNames =
          (Except.ok ids,
            (checks ++ [Event.ShowPartitions collName (Reply.ok resp)]) ++
              [Event.LoadPartitions collName partitionNames (Reply.ok st)]) := by
        simp [validateAndLoad, ShowPartitions, hs, hc, hsh, hpp, hr, hl, hh]
      rcases LoadPartitions_cases c fuel collName partitionNames async with
        ⟨out, tr, hv2, _⟩ | ⟨ids2, tr2, hv2, hcases⟩
      · rw [hv] at hv2
        simp at hv2
      · rw [hv] at hv2
        simp only [Prod.mk.injEq, Except.ok.injEq] at hv2
        rcases hcases with ⟨_, hL⟩ | ⟨_, polls, _, _, ⟨_, hL⟩ | ⟨_, _, hL⟩⟩
        all_goals
          rw [hL, ← hv2.2]
          simp

theorem validationPasses_of_load_request (c : grpcClient) (fuel : Nat) (collName : String)
    (partitionNames : List String) (async : Bool)
    (h : ∃ y ∈ (LoadPartitions c fuel collName partitionNames async).2,
      y.isLoadRequest = true) :
    validationPasses c collName partitionNames := by
  obtain ⟨y, hy, hyl⟩ := h
  cases y with
  | LoadPartitions coll names reply =>
    obtain ⟨service, checks, resp, partitions, ids, hs, hc, hsh, hpp, hr, _⟩ :=
      load_event_mem c fuel collName partitionNames async coll names reply hy
    exact ⟨service, checks, resp, partitions, ids, hs, hc, hsh, hpp, hr⟩
  | _ => simp [Event.isLoadRequest] at hyl

theorem not_validationPasses_of_failure (c : grpcClient) (collName : String)
    (partitionNames : List String)
    (h : c.service = none ∨
      (∃ e tr, checkPartitions c collName partitionNames [] = (some e, tr)) ∨
      ∃ service checks, c.service = some service ∧
        checkPartitions c collName partitionNames [] = (none, checks) ∧
        ((∃ e, service.ShowPartitions checks collName = Reply.fail e) ∨
         ∃ resp, service.ShowPartitions checks collName = Reply.ok resp ∧
          (pairPartitions resp.PartitionNames resp.PartitionIDs 0 [] = none ∨
           ∃ partitions e,
            pairPartitions resp.PartitionNames resp.PartitionIDs 0 [] = some partitions ∧
            resolveIDs collName (nameMap partitions []) partitionNames [] =
              Except.error e))) :
    ¬ validationPasses c collName partitionNames := by
  rintro ⟨service, checks, resp, partitions, ids, hs, hc, hsh, hpp, hr⟩
  rcases h with hnone | ⟨e, tr, hfail⟩ | ⟨service2, checks2, hs2, hc2, hrest⟩
  · rw [hnone] at hs
    simp at hs
  · rw [hfail] at hc
    simp at hc
  · rw [hs2] at hs
    have hsv : service2 = service := Option.some.inj hs
    subst hsv
    rw [hc2] at hc
    have hck : checks2 = checks := (Prod.mk.inj hc).2
    subst hck
    rcases hrest with ⟨e, hshf⟩ | ⟨resp2, hsh2, hrest2⟩
    · rw [hshf] at hsh
      simp at hsh
    · rw [hsh2] at hsh
      have hresp : resp2 = resp := Reply.ok.inj hsh
      subst hresp
      rcases hrest2 with hpn | ⟨partitions2, e, hpp2, hr2⟩
      · rw [hpn] at hpp
        simp at hpp
      · rw [hpp2] at hpp
        have hpart : partitions2 = partitions := Option.some.inj hpp
        subst hpart
        rw [hr2] at hr
        simp at hr

/-- C16 as stated fails: the run of `scenarioC` ends at the partition listing,
and its trace holds no load request at all, not exactly one. -/
theorem LoadPartitions_trace_order_counterexample :
    (LoadPartitions scenarioC 0 "c" ["p"] false).2.countP Event.isLoadRequest = 0 ∧
    (LoadPartitions scenarioC 0 "c" ["p"] false).2.countP Event.isLoadRequest ≠ 1 := by
  decide

/-- C16, amended: in the trace of every invocation the load request occurs at
most once: exactly once if and only if the invocation gets past validation, as
it does when the trace holds a statistics fetch or the call returns success or
is still waiting, and not at all if validation fails (no service, a failed
existence check, a failed or panicking `ShowPartitions`, a requested name that
the listing lacks); every call of `GetPersistentSegmentInfo` or
`GetQuerySegmentInfo` comes after a load request that was acknowledged with a
success status; and everything after the load request is a statistics fetch or
a sleep. -/
theorem LoadPartitions_trace_order (c : grpcClient) (fuel : Nat) (collName : String)
    (partitionNames : List String) (async : Bool) :
    (LoadPartitions c fuel collName partitionNames async).2.countP Event.isLoadRequest ≤ 1 ∧
    ((∃ x ∈ (LoadPartitions c fuel collName partitionNames async).2, x.isStatsFetch = true) →
      (LoadPartitions c fuel collName partitionNames async).2.countP Event.isLoadRequest = 1) ∧
    (((LoadPartitions c fuel collName partitionNames async).1 = Outcome.returned none ∨
        (LoadPartitions c fuel collName partitionNames async).1 = Outcome.waiting) →
      (LoadPartitions c fuel collName partitionNames async).2.countP Event.isLoadRequest = 1) ∧
    (∀ pre x post, (LoadPartitions c fuel collName partitionNames async).2 = pre ++ x :: post →
      x.isStatsFetch = true → ∃ y ∈ pre, y.isLoadAck = true) ∧
    (∀ pre x post, (LoadPartitions c fuel collName partitionNames async).2 = pre ++ x :: post →
      x.isLoadRequest = true → ∀ y ∈ post, y.isStatsFetch = true ∨ y.isSleep = true) ∧
    (validationPasses c collName partitionNames ↔
      (LoadPartitions c fuel collName partitionNames async).2.countP Event.isLoadRequest = 1) ∧
    (¬ validationPasses c collName partitionNames ↔
      (LoadPartitions c fuel collName partitionNames async).2.countP Event.isLoadRequest = 0) ∧
    ((c.service = none ∨
      (∃ e tr, checkPartitions c collName partitionNames [] = (some e, tr)) ∨
      ∃ service checks, c.service = some service ∧
        checkPartitions c collName partitionNames [] = (none, checks) ∧
        ((∃ e, service.ShowPartitions checks collName = Reply.fail e) ∨
         ∃ resp, service.ShowPartitions checks collName = Reply.ok resp ∧
          (pairPartitions resp.PartitionNames resp.PartitionIDs 0 [] = none ∨
           ∃ partitions e,
            pairPartitions resp.PartitionNames resp.PartitionIDs 0 [] = some partitions ∧
            resolveIDs collName (nameMap partitions []) partitionNames [] =
              Except.error e))) →
      (LoadPartitions c fuel collName partitionNames async).2.countP Event.isLoadRequest = 0) := by
  obtain ⟨checks, rest, htr, hchecks, hrest⟩ :=
    LoadPartitions_trace_grammar c fuel collName partitionNames async
  obtain ⟨hcount, hquiet⟩ := checks_quiet checks hchecks
  have hnoload : ∀ a ∈ checks, ¬ a.isLoadRequest = true := by
    intro a ha
    rw [(isExistenceCheck_exclusive a (hchecks a ha)).2.1]
    simp
  have hle : (LoadPartitions c fuel collName partitionNames async).2.countP
      Event.isLoadRequest ≤ 1 := by
    rw [htr]
    rcases hrest with rfl | ⟨service, sreply, rest2, _, _, _, rfl, hrest2⟩
    · simp [hcount]
    · rcases hrest2 with rfl | ⟨resp, partitions, ids, lreply, rest3, _, _, _, _, rfl, hrest3⟩
      · simp [List.countP_append, List.countP_cons, hcount, Event.isLoadRequest]
      · rcases hrest3 with rfl | ⟨st, polls, _, _, _, _, rfl⟩
        · simp [List.countP_append, List.countP_cons, hcount, Event.isLoadRequest]
        · simp [List.countP_append, List.countP_cons, hcount, Event.isLoadRequest,
            persistentEvent, (pollEvents_quiet collName polls).1]
  have hstats : ∀ pre x post,
      (LoadPartitions c fuel collName partitionNames async).2 = pre ++ x :: post →
      x.isStatsFetch = true → ∃ y ∈ pre, y.isLoadAck = true := by
    intro pre x post hsplit hx
    rw [htr] at hsplit
    have hxnot : x ∉ checks := by
      intro hin
      rw [(hquiet x hin).2.1] at hx
      simp at hx
    have hxmem : x ∈ checks ++ rest := by
      rw [hsplit]
      simp
    rcases hrest with rfl | ⟨service, sreply, rest2, _, _, _, rfl, hrest2⟩
    · simp only [List.append_nil] at hxmem
      exact absurd hxmem hxnot
    · rcases hrest2 with rfl | ⟨resp, partitions, ids, lreply, rest3, _, _, _, _, rfl, hrest3⟩
      · simp only [List.mem_append, List.mem_singleton] at hxmem
        rcases hxmem with hin | rfl
        · exact absurd hin hxnot
        · simp [Event.isStatsFetch] at hx
      · rcases hrest3 with rfl | ⟨st, polls, rfl, hh, _, _, rfl⟩
        · simp only [List.mem_append, List.mem_cons, List.mem_singleton, List.not_mem_nil,
            or_false] at hxmem
          rcases hxmem with hin | rfl | rfl
          · exact absurd hin hxnot
          · simp [Event.isStatsFetch] at hx
          · simp [Event.isStatsFetch] at hx
        · have hsplit2 : (checks ++ [Event.ShowPartitions collName sreply,
              Event.LoadPartitions collName partitionNames (Reply.ok st)]) ++
              (persistentEvent c collName
                ((checks ++ [Event.ShowPartitions collName sreply]) ++
                  [Event.LoadPartitions collName partitionNames (Reply.ok st)]) ::
                pollEvents collName polls) = pre ++ x :: post := by
            rw [← hsplit]
            simp
          have hxA : x ∉ checks ++ [Event.ShowPartitions collName sreply,
              Event.LoadPartitions collName partitionNames (Reply.ok st)] := by
            intro hin
            simp only [List.mem_append, List.mem_cons, List.mem_singleton, List.not_mem_nil,
              or_false] at hin
            rcases hin with hin | rfl | rfl
            · exact hxnot hin
            · simp [Event.isStatsFetch] at hx
            · simp [Event.isStatsFetch] at hx
          obtain ⟨a, hpre⟩ := split_after_prefix _ _ pre post x hsplit2 hxA
          refine ⟨Event.LoadPartitions collName partitionNames (Reply.ok st), ?_, ?_⟩
          · rw [hpre]
            simp
          · simp [Event.isLoadAck, (handleRespStatus_eq_none_iff st).mp hh]
  have hafter : ∀ pre x post,
      (LoadPartitions c fuel collName partitionNames async).2 = pre ++ x :: post →
      x.isLoadRequest = true → ∀ y ∈ post, y.isStatsFetch = true ∨ y.isSleep = true := by
    intro pre x post hsplit hx
    rw [htr] at hsplit
    have hxnot : x ∉ checks := fun hin => hnoload x hin hx
    have hxmem : x ∈ checks ++ rest := by
      rw [hsplit]
      simp
    rcases hrest with rfl | ⟨service, sreply, rest2, _, _, _, rfl, hrest2⟩
    · simp only [List.append_nil] at hxmem
      exact absurd hxmem hxnot
    · rcases hrest2 with rfl | ⟨resp, partitions, ids, lreply, rest3, _, _, _, _, rfl, hrest3⟩
      · simp only [List.mem_append, List.mem_singleton] at hxmem
        rcases hxmem with hin | rfl
        · exact absurd hin hxnot
        · simp [Event.isLoadRequest] at hx
      · have hA : ∀ a ∈ checks ++ [Event.ShowPartitions collName sreply],
            ¬ a.isLoadRequest = true := by
          intro a ha
          simp only [List.mem_append, List.mem_singleton] at ha
          rcases ha with ha | rfl
          · exact hnoload a ha
          · simp [Event.isLoadRequest]
        have hT : (∀ t ∈ rest3, ¬ t.isLoadRequest = true) ∧
            (∀ t ∈ rest3, t.isStatsFetch = true ∨ t.isSleep = true) := by
          rcases hrest3 with rfl | ⟨st, polls, _, _, _, _, rfl⟩
          · simp
          · constructor
            · intro t ht
              rcases List.mem_cons.mp ht with rfl | ht
              · simp [persistentEvent, Event.isLoadRequest]
              · simp [(mem_pollEvents collName polls t ht).2.2.2.1]
            · intro t ht
              rcases List.mem_cons.mp ht with rfl | ht
              · exact Or.inl rfl
              · exact (pollEvents_quiet collName polls).2 t ht
        have hsplit2 : (checks ++ [Event.ShowPartitions collName sreply]) ++
            Event.LoadPartitions collName partitionNames lreply :: rest3 =
            pre ++ x :: post := by
          rw [← hsplit]
          simp
        obtain ⟨_, _, hpost⟩ := unique_split (fun e => e.isLoadRequest = true) _ _ _ _ _ _
          hA hT.1 hx hsplit2
        rw [hpost]
        exact hT.2
  have hiff : validationPasses c collName partitionNames ↔
      (LoadPartitions c fuel collName partitionNames async).2.countP Event.isLoadRequest = 1 := by
    constructor
    · intro hvp
      have hpos := List.countP_pos_iff.mpr
        (load_request_of_validationPasses c fuel collName partitionNames async hvp)
      omega
    · intro hone
      apply validationPasses_of_load_request c fuel collName partitionNames async
      apply List.countP_pos_iff.mp
      omega
  have hzero : ¬ validationPasses c collName partitionNames ↔
      (LoadPartitions c fuel collName partitionNames async).2.countP Event.isLoadRequest = 0 := by
    rw [hiff]
    omega
  refine ⟨hle, ?_, ?_, hstats, hafter, hiff, hzero,
    fun hfail => hzero.mp (not_validationPasses_of_failure c collName partitionNames hfail)⟩
  · rintro ⟨x, hx, hxs⟩
    obtain ⟨pre, post, hsplit⟩ := List.append_of_mem hx
    obtain ⟨y, hy, hack⟩ := hstats pre x post hsplit hxs
    have hyl : y.isLoadRequest = true := isLoadRequest_of_isLoadAck y hack
    have hymem : y ∈ (LoadPartitions c fuel collName partitionNames async).2 := by
      rw [hsplit]
      simp [hy]
    have hpos := List.countP_pos_iff.mpr ⟨y, hymem, hyl⟩
    omega
  · intro hout
    have hmem : ∃ y ∈ (LoadPartitions c fuel collName partitionNames async).2,
        y.isLoadRequest = true := by
      rcases LoadPartitions_cases c fuel collName partitionNames async with
        ⟨out, tr, hv, hL⟩ | ⟨ids, tr2, hv, hcases⟩
      · exfalso
        rw [hL] at hout
        rcases validateAndLoad_error_is_failure c collName partitionNames out tr hv with
          hp | ⟨e, he⟩
        · rw [hp] at hout
          simp at hout
        · rw [he] at hout
          simp at hout
      · obtain ⟨tr1, st, htr2, _⟩ :=
          validateAndLoad_ok_trace c collName partitionNames ids tr2 hv
        refine ⟨Event.LoadPartitions collName partitionNames (Reply.ok st), ?_, rfl⟩
        rcases hcases with ⟨_, hL⟩ | ⟨_, polls, _, _, ⟨_, hL⟩ | ⟨_, _, hL⟩⟩
        all_goals
          rw [hL, htr2]
          simp
    have hpos := List.countP_pos_iff.mpr hmem
    omega

/-- Two runs of C16, amended: in the synchronous run of `scenarioB` the
statistics fetches come after the acknowledged load request, which occurs once;
in the run of `scenarioC`, where the listing lacks the requested name, no load
request occurs. -/
theorem LoadPartitions_trace_order_witness :
    (∃ x ∈ (LoadPartitions scenarioB 2 "c" ["p"] false).2, x.isStatsFetch = true) ∧
    (LoadPartitions scenarioB 2 "c" ["p"] false).2.countP Event.isLoadRequest = 1 ∧
    (LoadPartitions scenarioB 2 "c" ["p"] false).2 =
      scenarioBTrace.take 4 ++ Event.GetPersistentSegmentInfo "c" [⟨1, 10, 10⟩] none ::
        scenarioBTrace.drop 5 ∧
    (∃ y ∈ scenarioBTrace.take 4, y.isLoadAck = true) ∧
    validationPasses scenarioB "c" ["p"] ∧
    resolveIDs "c" (nameMap [⟨10, "q"⟩] []) ["p"] [] =
      Except.error (Error.New "Collection c does not has partitions p") ∧
    (LoadPartitions scenarioC 0 "c" ["p"] false).2.countP Event.isLoadRequest = 0 :=
  ⟨⟨Event.GetPersistentSegmentInfo "c" [⟨1, 10, 10⟩] none, by decide, by decide⟩,
    (LoadPartitions_trace_order scenarioB 2 "c" ["p"] false).2.1
      ⟨Event.GetPersistentSegmentInfo "c" [⟨1, 10, 10⟩] none, by decide, by decide⟩,
    by decide,
    (LoadPartitions_trace_order scenarioB 2 "c" ["p"] false).2.2.2.1 (scenarioBTrace.take 4)
      (Event.GetPersistentSegmentInfo "c" [⟨1, 10, 10⟩] none) (scenarioBTrace.drop 5)
      (by decide) (by decide),
    (LoadPartitions_trace_order scenarioB 2 "c" ["p"] false).2.2.2.2.2.1.mpr (by decide),
    by rfl,
    (LoadPartitions_trace_order scenarioC 0 "c" ["p"] false).2.2.2.2.2.2.2
      (Or.inr (Or.inr ⟨scriptedService ["p"] [10] ["q"] (Reply.ok statusSuccess),
        scenarioBTrace.take 2, rfl, by rfl,
        Or.inr ⟨⟨statusSuccess, ["q"], [10]⟩, rfl,
          Or.inr ⟨[⟨10, "q"⟩], Error.New "Collection c does not has partitions p",
            by rfl, by rfl⟩⟩⟩))⟩

/-! ## The test helpers -/

theorem foldl_append_a (l : List Nat) (init : String) :
    (l.foldl (fun builder _ => builder ++ "a") init).data =
      init.data ++ List.replicate l.length 'a' := by
  induction l generalizing init with
  | nil => simp
  | cons x rest ih =>
    rw [List.foldl_cons, ih]
    simp [String.data_append, List.replicate_succ]

theorem GenLongString_data (n : Int) :
    (GenLongString n).data = List.replicate n.toNat 'a' := by
  unfold GenLongString
  rw [foldl_append_a]
  simp

/-- C17: `GenLongString(n)` consists of `n` characters for `n >= 0`, all of them
`a`, and is the empty string for `n <= 0`; so `GenLongString(MaxCollectionNameLen
+ 1)` has 256 characters, more than the limit of 255. -/
theorem GenLongString_length :
    (∀ n : Int, ((GenLongString n).length : Int) = max n 0 ∧
      ∀ ch ∈ (GenLongString n).data, ch = 'a') ∧
    (∀ n : Int, 0 ≤ n → ((GenLongString n).length : Int) = n) ∧
    (∀ n : Int, n ≤ 0 → GenLongString n = "") ∧
    (GenLongString (MaxCollectionNameLen + 1)).length = 256 ∧
    ((GenLongString (MaxCollectionNameLen + 1)).length : Int) > MaxCollectionNameLen := by
  have hlen : ∀ n : Int, (GenLongString n).length = n.toNat := by
    intro n
    rw [String.length, GenLongString_data, List.length_replicate]
  refine ⟨?_, ?_, ?_, ?_, ?_⟩
  · intro n
    refine ⟨?_, ?_⟩
    · rw [hlen]
      omega
    · intro ch hch
      rw [GenLongString_data] at hch
      exact List.eq_of_mem_replicate hch
  · intro n hn
    rw [hlen]
    omega
  · intro n hn
    have h0 : n.toNat = 0 := by omega
    apply String.ext
    rw [GenLongString_data, h0]
    rfl
  · rw [hlen]
    rfl
  · rw [hlen]
    decide

/-- A use of C17: the 5 characters of `GenLongString(5)`, and the empty result
for a negative argument. -/
theorem GenLongString_length_witness :
    (0 : Int) ≤ 5 ∧ ((GenLongString 5).length : Int) = 5 ∧ (-3 : Int) ≤ 0 ∧
      GenLongString (-3) = "" :=
  ⟨by decide, GenLongString_length.2.1 5 (by decide), by decide,
    GenLongString_length.2.2.1 (-3) (by decide)⟩

/-- C18: for every `autoID` and `dim`, each of `GenDefaultFields`,
`GenDefaultBinaryFields` and `GenDefaultVarcharFields` returns a list with
exactly one primary-key field, of type Int64 or VarChar and with `AutoID` equal
to the argument, exactly one vector field, which carries a dim type parameter,
and pairwise distinct field names. -/
theorem default_fields_wellFormed (autoID : Bool) (dim : String) :
    wellFormedFields autoID (GenDefaultFields autoID) ∧
    wellFormedFields autoID (GenDefaultBinaryFields autoID dim) ∧
    wellFormedFields autoID (GenDefaultVarcharFields autoID) := by
  refine ⟨?_, ?_, ?_⟩
  · refine ⟨⟨_, rfl, Or.inl rfl, rfl⟩, ⟨_, rfl, ?_⟩, ?_⟩
    · simp [GoMap.store, GoMap.lookup]
    · have hnames : (GenDefaultFields autoID).map Field.Name =
          [DefaultIntFieldName, DefaultFloatFieldName, DefaultFloatVecFieldName] := rfl
      rw [hnames]
      decide
  · refine ⟨⟨_, rfl, Or.inl rfl, rfl⟩, ⟨_, rfl, ?_⟩, ?_⟩
    · simp [GoMap.store, GoMap.lookup]
    · have hnames : (GenDefaultBinaryFields autoID dim).map Field.Name =
          [DefaultIntFieldName, DefaultFloatFieldName, DefaultBinaryVecFieldName] := rfl
      rw [hnames]
      decide
  · refine ⟨⟨_, rfl, Or.inr rfl, rfl⟩, ⟨_, rfl, ?_⟩, ?_⟩
    · simp [GoMap.store, GoMap.lookup]
    · have hnames : (GenDefaultVarcharFields autoID).map Field.Name =
          [DefaultVarcharFieldName, DefaultBinaryVecFieldName] := rfl
      rw [hnames]
      decide

theorem letterRunes_length : letterRunes.length = 52 := by decide

theorem letterRunes_isAlpha : ∀ ch ∈ letterRunes, ch.isAlpha = true := by decide

theorem fillRunes_spec (r : Nat → Nat) (is : List Nat) :
    ∀ b : List Char, (∀ i ∈ is, i < b.length) →
      ∃ b2, fillRunes r is b = some b2 ∧ b2.length = b.length ∧
        ∀ j, j < b.length →
          (j ∈ is → ∃ ch ∈ letterRunes, b2[j]? = some ch) ∧ (j ∉ is → b2[j]? = b[j]?) := by
  induction is with
  | nil =>
    intro b _
    exact ⟨b, rfl, rfl, fun j _ => ⟨fun h => absurd h (List.not_mem_nil j), fun _ => rfl⟩⟩
  | cons i rest ih =>
    intro b hb
    have hi : i < b.length := hb i (List.mem_cons_self _ _)
    have hidx : r i % 52 < letterRunes.length := by
      rw [letterRunes_length]
      exact Nat.mod_lt _ (by decide)
    have hIntn : Intn (r i) letterRunes.length = some (r i % 52) := by
      simp [Intn, letterRunes_length]
    have hget : letterRunes[r i % 52]? = some (letterRunes[r i % 52]) :=
      List.getElem?_eq_getElem hidx
    have hmem : letterRunes[r i % 52] ∈ letterRunes := List.getElem_mem hidx
    obtain ⟨b2, hfill, hlen, hall⟩ := ih (b.set i (letterRunes[r i % 52]))
      (by
        intro k hk
        rw [List.length_set]
        exact hb k (List.mem_cons_of_mem _ hk))
    refine ⟨b2, ?_, ?_, ?_⟩
    · simp only [fillRunes, hIntn, hget]
      exact hfill
    · rw [hlen, List.length_set]
    · intro j hj
      have hj2 : j < (b.set i (letterRunes[r i % 52])).length := by
        rw [List.length_set]
        exact hj
      obtain ⟨hin, hout⟩ := hall j hj2
      by_cases hjr : j ∈ rest
      · exact ⟨fun _ => hin hjr, fun hnot => absurd (List.mem_cons_of_mem _ hjr) hnot⟩
      · have hval := hout hjr
        by_cases hji : j = i
        · subst hji
          refine ⟨fun _ => ⟨_, hmem, ?_⟩, fun hnot => absurd (List.mem_cons_self _ _) hnot⟩
          rw [hval, List.getElem?_set_self hj]
        · refine ⟨fun hmem2 => ?_, fun _ => ?_⟩
          · rcases List.mem_cons.mp hmem2 with h | h
            · exact absurd h hji
            · exact absurd h hjr
          · rw [hval, List.getElem?_set_ne (fun h => hji h.symm)]

theorem GenRandomString_spec (r : Nat → Nat) (n : Int) (hn : 0 ≤ n) :
    ∃ s, GenRandomString r n = some s ∧ s.length = n.toNat ∧
      ∀ ch ∈ s.data, ch ∈ letterRunes := by
  obtain ⟨b2, hfill, hlen, hall⟩ := fillRunes_spec r (List.range n.toNat)
    (List.replicate n.toNat (Char.ofNat 0))
    (by
      intro i hi
      rw [List.length_replicate]
      exact List.mem_range.mp hi)
  rw [List.length_replicate] at hlen hall
  refine ⟨String.mk b2, ?_, ?_, ?_⟩
  · have hneg : ¬ n < 0 := by omega
    simp [GenRandomString, hneg, hfill]
  · rw [String.length]
    exact hlen
  · intro ch hch
    obtain ⟨j, hj, hget⟩ := List.getElem_of_mem hch
    have hj2 : j < n.toNat := by
      rw [← hlen]
      exact hj
    obtain ⟨ch2, hch2, hget2⟩ := (hall j hj2).1 (List.mem_range.mpr hj2)
    have hget3 : (b2 : List Char)[j]? = some ch := by
      rw [List.getElem?_eq_getElem hj, hget]
    rw [hget3] at hget2
    rw [Option.some.inj hget2]
    exact hch2

/-- C19 as stated fails: the name that `GenRandomString(256)` generates, here
with a generator that always draws 0, has positive length and 256 letters, and
does not pass the name rules that the tests expect: it is too long, like the
name `GenLongString(256)` of the same length in
`TestCreateCollectionInvalidName`. -/
theorem GenRandomString_valid_counterexample :
    ∃ s, GenRandomString (fun _ => 0) 256 = some s ∧ s.length = 256 ∧
      passesNameRules s = false := by
  obtain ⟨s, hs, hlen, _⟩ := GenRandomString_spec (fun _ => 0) 256 (by decide)
  have hlen2 : s.length = 256 := hlen
  refine ⟨s, hs, hlen2, ?_⟩
  unfold passesNameRules
  cases hd : s.data with
  | nil => rfl
  | cons first rest => simp [hlen2]

/-- C19, amended: for every `n >= 0` and every generator, `GenRandomString(n)`
does not panic and returns a string of exactly `n` characters, each one of the
52 letters of `letterRunes`, all of which are ASCII letters; a generated name of
positive length starts with a letter, and with fewer than 255 characters it
passes the name rules that the tests expect. -/
theorem GenRandomString_letters (r : Nat → Nat) (n : Int) (hn : 0 ≤ n) :
    letterRunes.length = 52 ∧ (∀ ch ∈ letterRunes, ch.isAlpha = true) ∧
    ∃ s, GenRandomString r n = some s ∧ (s.length : Int) = n ∧
      (∀ ch ∈ s.data, ch ∈ letterRunes) ∧
      (0 < n → ∃ first rest, s.data = first :: rest ∧ first.isAlpha = true) ∧
      (0 < n → n < 255 → passesNameRules s = true) := by
  obtain ⟨s, hs, hlen, hall⟩ := GenRandomString_spec r n hn
  have hfirst : 0 < n → ∃ first rest, s.data = first :: rest ∧ first.isAlpha = true := by
    intro hpos
    cases hd : s.data with
    | nil =>
      exfalso
      rw [String.length, hd] at hlen
      simp at hlen
      omega
    | cons first rest =>
      refine ⟨first, rest, rfl, ?_⟩
      apply letterRunes_isAlpha
      apply hall
      rw [hd]
      exact List.mem_cons_self _ _
  refine ⟨letterRunes_length, letterRunes_isAlpha, s, hs, ?_, hall, hfirst, ?_⟩
  · rw [hlen]
    omega
  · intro hpos hlt
    obtain ⟨first, rest, hd, halpha⟩ := hfirst hpos
    have hlt2 : s.length < 255 := by
      rw [hlen]
      omega
    unfold passesNameRules
    rw [hd]
    simp [halpha, hlt2]

/-- A use of C19, amended: the collection names of the tests have 6 characters. -/
theorem GenRandomString_letters_witness :
    (0 : Int) ≤ 6 ∧ GenRandomString (fun i => i * 7 + 30) 6 = some "ELSZgn" ∧
    (letterRunes.length = 52 ∧ (∀ ch ∈ letterRunes, ch.isAlpha = true) ∧
      ∃ s, GenRandomString (fun i => i * 7 + 30) 6 = some s ∧ (s.length : Int) = 6 ∧
        (∀ ch ∈ s.data, ch ∈ letterRunes) ∧
        ((0 : Int) < 6 → ∃ first rest, s.data = first :: rest ∧ first.isAlpha = true) ∧
        ((0 : Int) < 6 → (6 : Int) < 255 → passesNameRules s = true)) :=
  ⟨by decide, by decide, GenRandomString_letters (fun i => i * 7 + 30) 6 (by decide)⟩


/-! ## Failure of the persistent fetch, and the sleeps of the wait loop -/

/-- C21: if, after a successful load request, `GetPersistentSegmentInfo`
returns an error and no segments, the snapshot is empty and the synchronous
`LoadPartitions` returns success right after that call, for every iteration
bound, with no call of `GetQuerySegmentInfo`. -/
theorem LoadPartitions_persistent_failure (c : grpcClient) (collName : String)
    (partitionNames : List String) (ids : GoMap Int Unit) (tr2 : List Event) (e : Error)
    (hv : validateAndLoad c collName partitionNames = (Except.ok ids, tr2))
    (hp : c.GetPersistentSegmentInfo tr2 collName = ([], some e)) :
    snapshotAt c collName ids tr2 = [] ∧
    ∀ fuel,
      LoadPartitions c fuel collName partitionNames false =
        (Outcome.returned none,
          tr2 ++ [Event.GetPersistentSegmentInfo collName [] (some e)]) ∧
      (LoadPartitions c fuel collName partitionNames false).2.countP Event.isQueryPoll = 0 := by
  have hsnap : snapshotAt c collName ids tr2 = [] := by
    simp [snapshotAt, hp, capture]
  refine ⟨hsnap, ?_⟩
  intro fuel
  have hrun : LoadPartitions c fuel collName partitionNames false =
      (Outcome.returned none,
        tr2 ++ [Event.GetPersistentSegmentInfo collName [] (some e)]) := by
    rw [LoadPartitions_sync_eq c fuel collName partitionNames ids tr2 hv, hsnap, waitLoop_nil]
    simp [persistentEvent, hp]
  refine ⟨hrun, ?_⟩
  have hq := validateAndLoad_ok_quiet c collName partitionNames ids tr2 hv
  have h1 : tr2.countP Event.isQueryPoll = 0 := by
    rw [List.countP_eq_zero]
    intro x hx
    simp [(hq x hx).1]
  rw [hrun]
  simp [List.countP_append, h1, Event.isQueryPoll]

/-- A run of C21: the persistent fetch of `scenarioStatsDown` fails. -/
theorem LoadPartitions_persistent_failure_witness :
    validateAndLoad scenarioStatsDown "c" ["p"] =
      (Except.ok [(10, ())], scenarioBTrace.take 4) ∧
    scenarioStatsDown.GetPersistentSegmentInfo (scenarioBTrace.take 4) "c" =
      ([], some (Error.remote "unavailable")) ∧
    LoadPartitions scenarioStatsDown 0 "c" ["p"] false =
      (Outcome.returned none,
        scenarioBTrace.take 4 ++
          [Event.GetPersistentSegmentInfo "c" [] (some (Error.remote "unavailable"))]) ∧
    (LoadPartitions scenarioStatsDown 0 "c" ["p"] false).2.countP Event.isQueryPoll = 0 :=
  ⟨by rfl, by rfl,
    (LoadPartitions_persistent_failure scenarioStatsDown "c" ["p"] [(10, ())]
      (scenarioBTrace.take 4) (Error.remote "unavailable") (by rfl) (by rfl)).2 0⟩

theorem sleepMillis_append (a b : List Event) :
    sleepMillis (a ++ b) = sleepMillis a + sleepMillis b := by
  induction a with
  | nil => simp [sleepMillis]
  | cons x rest ih =>
    cases x <;> simp [sleepMillis, ih, Nat.add_assoc]

theorem sleepMillis_of_no_sleep (a : List Event) (h : ∀ x ∈ a, x.isSleep = false) :
    sleepMillis a = 0 := by
  induction a with
  | nil => rfl
  | cons x rest ih =>
    have hx := h x (List.mem_cons_self _ _)
    have hrest := ih (fun y hy => h y (List.mem_cons_of_mem _ hy))
    cases x <;> simp_all [sleepMillis, Event.isSleep]

theorem sleepMillis_pollEvents (collName : String)
    (polls : List (List Segment × Option Error)) :
    sleepMillis (pollEvents collName polls) = 100 * polls.length := by
  induction polls with
  | nil => rfl
  | cons poll rest ih =>
    simp only [pollEvents, sleepMillis, ih, List.length_cons]
    omega

theorem pollEvents_split (collName : String) (polls : List (List Segment × Option Error)) :
    ∀ (a : List Event) (x : Event) (post : List Event),
      pollEvents collName polls = a ++ x :: post → x.isQueryPoll = true →
      ∃ post2, post = Event.Sleep 100 :: post2 ∧
        ∀ y rest, post2 = y :: rest → y.isQueryPoll = true := by
  induction polls with
  | nil =>
    intro a x post h _
    simp [pollEvents] at h
  | cons poll more ih =>
    intro a x post h hx
    cases a with
    | nil =>
      simp only [pollEvents, List.nil_append, List.cons.injEq] at h
      refine ⟨pollEvents collName more, h.2.symm, ?_⟩
      intro y rest hy
      cases more with
      | nil => simp [pollEvents] at hy
      | cons next others =>
        simp only [pollEvents, List.cons.injEq] at hy
        rw [← hy.1]
        rfl
    | cons a1 a2 =>
      cases a2 with
      | nil =>
        exfalso
        simp only [pollEvents, List.cons_append, List.nil_append, List.cons.injEq] at h
        rw [← h.2.1] at hx
        simp [Event.isQueryPoll] at hx
      | cons a3 a4 =>
        simp only [pollEvents, List.cons_append, List.cons.injEq] at h
        exact ih a4 x post h.2.2 hx

theorem LoadPartitions_trace_polls (c : grpcClient) (fuel : Nat) (collName : String)
    (partitionNames : List String) (async : Bool) :
    ∃ before, ∃ polls : List (List Segment × Option Error),
      (LoadPartitions c fuel collName partitionNames async).2 =
        before ++ pollEvents collName polls ∧
      (∀ x ∈ before, x.isQueryPoll = false ∧ x.isSleep = false) ∧ polls.length ≤ fuel := by
  obtain ⟨checks, rest, htr, hchecks, hrest⟩ :=
    LoadPartitions_trace_grammar c fuel collName partitionNames async
  have hq : ∀ x ∈ checks, x.isQueryPoll = false ∧ x.isSleep = false := by
    intro x hx
    have h := (checks_quiet checks hchecks).2 x hx
    exact ⟨isQueryPoll_le_isStatsFetch x h.2.1, h.2.2⟩
  rcases hrest with rfl | ⟨service, sreply, rest2, _, _, _, rfl, hrest2⟩
  · refine ⟨checks, [], by simpa [pollEvents] using htr, hq, Nat.zero_le _⟩
  · rcases hrest2 with rfl | ⟨resp, partitions, ids, lreply, rest3, _, _, _, _, rfl, hrest3⟩
    · refine ⟨checks ++ [Event.ShowPartitions collName sreply], [],
        by simpa [pollEvents] using htr, ?_, Nat.zero_le _⟩
      intro x hx
      simp only [List.mem_append, List.mem_singleton] at hx
      rcases hx with hx | rfl
      · exact hq x hx
      · exact ⟨rfl, rfl⟩
    · have hq2 : ∀ x ∈ checks ++ [Event.ShowPartitions collName sreply,
          Event.LoadPartitions collName partitionNames lreply],
          x.isQueryPoll = false ∧ x.isSleep = false := by
        intro x hx
        simp only [List.mem_append, List.mem_cons, List.mem_singleton, List.not_mem_nil,
          or_false] at hx
        rcases hx with hx | rfl | rfl
        · exact hq x hx
        · exact ⟨rfl, rfl⟩
        · exact ⟨rfl, rfl⟩
      rcases hrest3 with rfl | ⟨st, polls, _, _, _, hle, rfl⟩
      · exact ⟨_, [], by simpa [pollEvents] using htr, hq2, Nat.zero_le _⟩
      · refine ⟨(checks ++ [Event.ShowPartitions collName sreply,
            Event.LoadPartitions collName partitionNames lreply]) ++
            [persistentEvent c collName
              ((checks ++ [Event.ShowPartitions collName sreply]) ++
                [Event.LoadPartitions collName partitionNames lreply])], polls, ?_, ?_, hle⟩
        · rw [htr]
          simp
        · intro x hx
          rcases List.mem_append.mp hx with hx | hx
          · exact hq2 x hx
          · simp only [List.mem_singleton] at hx
            subst hx
            exact ⟨rfl, rfl⟩

/-- C22: in the trace of every invocation each call of `GetQuerySegmentInfo`,
whatever it returned, is followed at once by one sleep of 100 ms, after which
comes the next poll or the end of the trace; every sleep lasts 100 ms; so a
trace with `k` polls holds `k` sleeps, 100 * k ms in total. -/
theorem LoadPartitions_sleeps (c : grpcClient) (fuel : Nat) (collName : String)
    (partitionNames : List String) (async : Bool) :
    (∀ pre x post, (LoadPartitions c fuel collName partitionNames async).2 = pre ++ x :: post →
      x.isQueryPoll = true →
      ∃ post2, post = Event.Sleep 100 :: post2 ∧
        ∀ y rest, post2 = y :: rest → y.isQueryPoll = true) ∧
    (∀ x ∈ (LoadPartitions c fuel collName partitionNames async).2, x.isSleep = true →
      x = Event.Sleep 100) ∧
    (LoadPartitions c fuel collName partitionNames async).2.countP Event.isSleep =
      (LoadPartitions c fuel collName partitionNames async).2.countP Event.isQueryPoll ∧
    sleepMillis (LoadPartitions c fuel collName partitionNames async).2 =
      100 * (LoadPartitions c fuel collName partitionNames async).2.countP Event.isQueryPoll := by
  obtain ⟨before, polls, htr, hq, _⟩ :=
    LoadPartitions_trace_polls c fuel collName partitionNames async
  have hc1 : before.countP Event.isQueryPoll = 0 := by
    rw [List.countP_eq_zero]
    intro x hx
    simp [(hq x hx).1]
  have hc2 : before.countP Event.isSleep = 0 := by
    rw [List.countP_eq_zero]
    intro x hx
    simp [(hq x hx).2]
  rw [htr]
  refine ⟨?_, ?_, ?_, ?_⟩
  · intro pre x post hsplit hx
    have hxnot : x ∉ before := by
      intro hin
      rw [(hq x hin).1] at hx
      simp at hx
    obtain ⟨a, hpre⟩ := split_after_prefix before _ pre post x hsplit hxnot
    rw [hpre, List.append_assoc] at hsplit
    exact pollEvents_split collName polls a x post (List.append_cancel_left hsplit) hx
  · intro x hx hsleep
    rcases List.mem_append.mp hx with hx | hx
    · rw [(hq x hx).2] at hsleep
      simp at hsleep
    · rcases (mem_pollEvents collName polls x hx).2.2.2.2 with ⟨poll, _, rfl⟩ | rfl
      · simp [Event.isSleep] at hsleep
      · rfl
  · rw [List.countP_append, List.countP_append, hc1, hc2,
      (countP_pollEvents collName polls).1, (countP_pollEvents collName polls).2]
  · rw [sleepMillis_append, sleepMillis_of_no_sleep before (fun x hx => (hq x hx).2),
      sleepMillis_pollEvents, List.countP_append, hc1, (countP_pollEvents collName polls).1]
    omega

/-- A run of C22: the second poll of `scenarioB`, which empties the pending
map, is followed by a sleep of 100 ms as well. -/
theorem LoadPartitions_sleeps_witness :
    (LoadPartitions scenarioB 2 "c" ["p"] false).2 =
      scenarioBTrace.take 7 ++ Event.GetQuerySegmentInfo "c" [⟨1, 10, 10⟩] none ::
        [Event.Sleep 100] ∧
    (∃ post2, [Event.Sleep 100] = Event.Sleep 100 :: post2 ∧
      ∀ y rest, post2 = y :: rest → y.isQueryPoll = true) ∧
    sleepMillis (LoadPartitions scenarioB 2 "c" ["p"] false).2 = 200 :=
  ⟨by decide,
    (LoadPartitions_sleeps scenarioB 2 "c" ["p"] false).1 (scenarioBTrace.take 7)
      (Event.GetQuerySegmentInfo "c" [⟨1, 10, 10⟩] none) [Event.Sleep 100] (by decide)
      (by decide),
    by decide⟩

/-! ## Independence of a poll cycle from the order of the observations -/

theorem reconcile_append (a b : List Segment) :
    ∀ target : GoMap Int Segment,
      reconcile target (a ++ b) = reconcile (reconcile target a) b := by
  induction a with
  | nil =>
    intro target
    rfl
  | cons s rest ih =>
    intro target
    cases hl : GoMap.lookup target s.ID with
    | none => simp [reconcile, hl, ih]
    | some ts =>
      by_cases hge : s.NumRows ≥ ts.NumRows
      · simp [reconcile, hl, hge, ih]
      · simp [reconcile, hl, hge, ih]

theorem reachedBy_cons (s : Segment) (rest : List Segment) (id : Int)
    (expected : Option Segment) :
    reachedBy (s :: rest) id expected =
      ((match expected with
        | none => false
        | some ts => decide (s.ID = id) && decide (s.NumRows ≥ ts.NumRows)) ||
        reachedBy rest id expected) := by
  cases expected <;> simp [reachedBy]

theorem reachedBy_cons_of_miss (target : GoMap Int Segment) (s : Segment)
    (rest : List Segment)
    (hmiss : ∀ ts, GoMap.lookup target s.ID = some ts → ¬ s.NumRows ≥ ts.NumRows) (id : Int) :
    reachedBy (s :: rest) id (GoMap.lookup target id) =
      reachedBy rest id (GoMap.lookup target id) := by
  rw [reachedBy_cons]
  cases hl : GoMap.lookup target id with
  | none => simp
  | some ts =>
    by_cases hid : s.ID = id
    · have hno := hmiss ts (by rw [hid]; exact hl)
      simp [hno]
    · simp [hid]

theorem reconcile_eq_filter (current : List Segment) :
    ∀ target : GoMap Int Segment,
      reconcile target current =
        target.filter (fun e => !reachedBy current e.1 (GoMap.lookup target e.1)) := by
  induction current with
  | nil =>
    intro target
    have hnil : ∀ (id : Int) (expected : Option Segment), reachedBy [] id expected = false := by
      intro id expected
      cases expected <;> rfl
    simp [reconcile, hnil]
  | cons s rest ih =>
    intro target
    cases hl : GoMap.lookup target s.ID with
    | none =>
      have hr : reconcile target (s :: rest) = reconcile target rest := by
        simp [reconcile, hl]
      rw [hr, ih]
      apply List.filter_congr
      intro e _
      rw [reachedBy_cons_of_miss target s rest (by simp [hl]) e.1]
    | some ts =>
      by_cases hge : s.NumRows ≥ ts.NumRows
      · have hr : reconcile target (s :: rest) =
            reconcile (GoMap.delete target s.ID) rest := by
          simp [reconcile, hl, hge]
        rw [hr, ih]
        have hd : GoMap.delete target s.ID =
            target.filter (fun e => decide (e.1 ≠ s.ID)) := rfl
        rw [hd, List.filter_filter]
        apply List.filter_congr
        intro e _
        rw [← hd, GoMap.lookup_delete]
        by_cases hid : e.1 = s.ID
        · rw [reachedBy_cons, hid, hl]
          simp [hge]
        · have hne : ¬ s.ID = e.1 := fun h => hid h.symm
          rw [reachedBy_cons, if_neg hid]
          cases GoMap.lookup target e.1 <;> simp [hid, hne]
      · have hr : reconcile target (s :: rest) = reconcile target rest := by
          simp [reconcile, hl, hge]
        rw [hr, ih]
        apply List.filter_congr
        intro e _
        have hmiss : ∀ t0, GoMap.lookup target s.ID = some t0 → ¬ s.NumRows ≥ t0.NumRows := by
          intro t0 h0
          rw [hl] at h0
          rw [← Option.some.inj h0]
          exact hge
        rw [reachedBy_cons_of_miss target s rest hmiss e.1]

theorem lookup_filter_key (q : Int → Bool) (m : GoMap Int Segment) (id : Int) :
    GoMap.lookup (m.filter (fun e => q e.1)) id = if q id = true then GoMap.lookup m id
      else none := by
  induction m with
  | nil => simp [GoMap.lookup]
  | cons e rest ih =>
    obtain ⟨k, v⟩ := e
    by_cases hk : q k = true
    · have hf : List.filter (fun e => q e.1) ((k, v) :: rest) =
          (k, v) :: List.filter (fun e => q e.1) rest := by
        simp [List.filter, hk]
      rw [hf]
      by_cases hid : k = id
      · subst hid
        simp [GoMap.lookup, hk]
      · simp only [GoMap.lookup, if_neg hid, ih]
    · have hf : List.filter (fun e => q e.1) ((k, v) :: rest) =
          List.filter (fun e => q e.1) rest := by
        simp [List.filter, hk]
      rw [hf, ih]
      by_cases hid : k = id
      · subst hid
        simp [hk]
      · simp only [GoMap.lookup, if_neg hid]

theorem reconcile_twice (target : GoMap Int Segment) (a b : List Segment) :
    reconcile (reconcile target a) b =
      target.filter (fun e => !reachedBy b e.1 (GoMap.lookup target e.1) &&
        !reachedBy a e.1 (GoMap.lookup target e.1)) := by
  rw [reconcile_eq_filter b (reconcile target a), reconcile_eq_filter a target]
  rw [← List.filter_filter]
  apply List.filter_congr
  intro e he
  have hpass : (!reachedBy a e.1 (GoMap.lookup target e.1)) = true :=
    (List.mem_filter.mp he).2
  rw [lookup_filter_key (fun id => !reachedBy a id (GoMap.lookup target id)) target e.1,
    if_pos hpass]

theorem reconcile_comm (target : GoMap Int Segment) (a b : List Segment) :
    reconcile (reconcile target a) b = reconcile (reconcile target b) a := by
  rw [reconcile_twice, reconcile_twice]
  apply List.filter_congr
  intro e _
  exact Bool.and_comm _ _

theorem reconcile_perm (a a2 : List Segment) (h : List.Perm a a2) :
    ∀ target : GoMap Int Segment, reconcile target a = reconcile target a2 := by
  induction h with
  | nil =>
    intro target
    rfl
  | cons x _ ih =>
    intro target
    show reconcile target ([x] ++ _) = reconcile target ([x] ++ _)
    rw [reconcile_append, reconcile_append, ih]
  | swap x y l =>
    intro target
    have h1 := reconcile_append [y, x] l target
    have h2 := reconcile_append [x, y] l target
    have h3 := reconcile_append [y] [x] target
    have h4 := reconcile_append [x] [y] target
    simp only [List.cons_append, List.nil_append, List.singleton_append] at h1 h2 h3 h4
    rw [h1, h2, h3, h4, reconcile_comm target [y] [x]]
  | trans _ _ ih1 ih2 =>
    intro target
    rw [ih1, ih2]

/-- C23: two successful poll cycles with the observed lists `a` and `b` yield
the same pending map in either order, the same as one cycle with `a ++ b`; and
a cycle with any permutation of `a` yields the same pending map as with `a`. -/
theorem pollCycle_order_independent (target : GoMap Int Segment) (a b : List Segment) :
    pollCycle (pollCycle target (a, none)) (b, none) =
      pollCycle (pollCycle target (b, none)) (a, none) ∧
    pollCycle (pollCycle target (a, none)) (b, none) = pollCycle target (a ++ b, none) ∧
    (∀ a2, List.Perm a a2 → pollCycle target (a, none) = pollCycle target (a2, none)) := by
  have hp : ∀ t l, pollCycle t (l, none) = reconcile t l := fun _ _ => rfl
  simp only [hp]
  exact ⟨reconcile_comm target a b, (reconcile_append a b target).symm,
    fun a2 h => reconcile_perm a a2 h target⟩

/-- A use of C23: the observed list of a poll in reverse order. -/
theorem pollCycle_order_independent_witness :
    List.Perm [(⟨1, 7, 10⟩ : Segment), ⟨2, 7, 3⟩] [⟨2, 7, 3⟩, ⟨1, 7, 10⟩] ∧
    pollCycle [(1, ⟨1, 7, 10⟩), (2, ⟨2, 7, 5⟩)] ([⟨1, 7, 10⟩, ⟨2, 7, 3⟩], none) =
      pollCycle [(1, ⟨1, 7, 10⟩), (2, ⟨2, 7, 5⟩)] ([⟨2, 7, 3⟩, ⟨1, 7, 10⟩], none) :=
  ⟨List.Perm.swap _ _ _,
    (pollCycle_order_independent [(1, ⟨1, 7, 10⟩), (2, ⟨2, 7, 5⟩)]
      [⟨1, 7, 10⟩, ⟨2, 7, 3⟩] []).2.2 [⟨2, 7, 3⟩, ⟨1, 7, 10⟩] (List.Perm.swap _ _ _)⟩

/-! ## `ShowPartitions` and the nil-service guard -/

theorem pairPartitions_spec (names : List String) (ids : List Int) :
    ∀ (idx : Nat) (acc : List Partition), idx + ids.length ≤ names.length →
      pairPartitions names ids idx acc =
        some (acc ++ List.zipWith Partition.mk ids (names.drop idx)) := by
  induction ids with
  | nil =>
    intro idx acc _
    simp [pairPartitions]
  | cons id rest ih =>
    intro idx acc h
    have hidx : idx < names.length := by
      simp only [List.length_cons] at h
      omega
    have hget : names[idx]? = some names[idx] := List.getElem?_eq_getElem hidx
    have hrest : idx + 1 + rest.length ≤ names.length := by
      simp only [List.length_cons] at h
      omega
    have hdrop : List.drop idx names = names[idx] :: List.drop (idx + 1) names :=
      List.drop_eq_getElem_cons hidx
    simp only [pairPartitions, hget]
    rw [ih (idx + 1) _ hrest, hdrop, List.zipWith_cons_cons]
    simp

/-- C24: when the response has at least as many names as ids, `ShowPartitions`
does not panic and returns, without error, one partition per id, in the order of
the response, the `i`-th with `ID = ids[i]` and `Name = names[i]`; when the
remote call fails, it returns an empty list together with the error. -/
theorem ShowPartitions_pairs_by_index (c : grpcClient) (service : MilvusServiceClient)
    (collName : String) (tr : List Event) (hs : c.service = some service) :
    (∀ resp, service.ShowPartitions tr collName = Reply.ok resp →
      resp.PartitionIDs.length ≤ resp.PartitionNames.length →
      ShowPartitions c collName tr =
        (some (List.zipWith Partition.mk resp.PartitionIDs resp.PartitionNames, none),
          tr ++ [Event.ShowPartitions collName (Reply.ok resp)]) ∧
      (List.zipWith Partition.mk resp.PartitionIDs resp.PartitionNames).length =
        resp.PartitionIDs.length ∧
      ∀ i, i < resp.PartitionIDs.length →
        ∃ id name, resp.PartitionIDs[i]? = some id ∧ resp.PartitionNames[i]? = some name ∧
          (List.zipWith Partition.mk resp.PartitionIDs resp.PartitionNames)[i]? =
            some ⟨id, name⟩) ∧
    (∀ e, service.ShowPartitions tr collName = Reply.fail e →
      ShowPartitions c collName tr =
        (some ([], some e), tr ++ [Event.ShowPartitions collName (Reply.fail e)])) := by
  refine ⟨?_, ?_⟩
  · intro resp hsh hlen
    have hpair := pairPartitions_spec resp.PartitionNames resp.PartitionIDs 0 []
      (by omega)
    simp only [List.drop_zero, List.nil_append] at hpair
    refine ⟨by simp [ShowPartitions, hs, hsh, hpair], ?_, ?_⟩
    · rw [List.length_zipWith]
      omega
    · intro i hi
      have hi2 : i < resp.PartitionNames.length := by omega
      refine ⟨resp.PartitionIDs[i], resp.PartitionNames[i], List.getElem?_eq_getElem hi,
        List.getElem?_eq_getElem hi2, ?_⟩
      rw [List.getElem?_zipWith, List.getElem?_eq_getElem hi, List.getElem?_eq_getElem hi2]
  · intro e hsh
    simp [ShowPartitions, hs, hsh]

/-- A run of C24 on a response with two ids and three names. -/
theorem ShowPartitions_pairs_by_index_witness :
    (scriptedClient ["p"] [10, 11] ["p", "q", "r"] (Reply.ok statusSuccess)
        ([], none) []).service =
      some (scriptedService ["p"] [10, 11] ["p", "q", "r"] (Reply.ok statusSuccess)) ∧
    (scriptedService ["p"] [10, 11] ["p", "q", "r"] (Reply.ok statusSuccess)).ShowPartitions []
        "c" = Reply.ok ⟨statusSuccess, ["p", "q", "r"], [10, 11]⟩ ∧
    ShowPartitions (scriptedClient ["p"] [10, 11] ["p", "q", "r"] (Reply.ok statusSuccess)
        ([], none) []) "c" [] =
      (some (List.zipWith Partition.mk [10, 11] ["p", "q", "r"], none),
        [] ++ [Event.ShowPartitions "c" (Reply.ok ⟨statusSuccess, ["p", "q", "r"], [10, 11]⟩)]) ∧
    List.zipWith Partition.mk [10, 11] ["p", "q", "r"] = [⟨10, "p"⟩, ⟨11, "q"⟩] :=
  ⟨rfl, rfl,
    ((ShowPartitions_pairs_by_index
      (scriptedClient ["p"] [10, 11] ["p", "q", "r"] (Reply.ok statusSuccess) ([], none) [])
      (scriptedService ["p"] [10, 11] ["p", "q", "r"] (Reply.ok statusSuccess)) "c" [] rfl).1
      ⟨statusSuccess, ["p", "q", "r"], [10, 11]⟩ rfl (by decide)).1,
    by decide⟩

/-- C25: when the client has no service, each of `CreatePartition`,
`DropPartition`, `HasPartition`, `ShowPartitions`, `LoadPartitions` and
`ReleasePartitions` returns `ErrClientNotReady` (`HasPartition` with the value
false, `ShowPartitions` with an empty list) and leaves the trace as it was: no
check and no remote call is made. -/
theorem not_ready_guard (c : grpcClient) (hs : c.service = none) (collName partitionName : String)
    (partitionNames : List String) (fuel : Nat) (async : Bool) (tr : List Event) :
    CreatePartition c collName partitionName tr = (some Error.ErrClientNotReady, tr) ∧
    DropPartition c collName partitionName tr = (some Error.ErrClientNotReady, tr) ∧
    HasPartition c collName partitionName tr = ((false, some Error.ErrClientNotReady), tr) ∧
    ShowPartitions c collName tr = (some ([], some Error.ErrClientNotReady), tr) ∧
    LoadPartitions c fuel collName partitionNames async =
      (Outcome.returned (some Error.ErrClientNotReady), []) ∧
    ReleasePartitions c collName partitionNames tr = (some Error.ErrClientNotReady, tr) := by
  refine ⟨?_, ?_, ?_, ?_, ?_, ?_⟩
  · simp [CreatePartition, hs]
  · simp [DropPartition, hs]
  · simp [HasPartition, hs]
  · simp [ShowPartitions, hs]
  · simp [LoadPartitions, validateAndLoad, hs]
  · simp [ReleasePartitions, hs]

/-- A run of C25 on `scenarioNotReady`. -/
theorem not_ready_guard_witness :
    scenarioNotReady.service = none ∧
    CreatePartition scenarioNotReady "c" "p" [] = (some Error.ErrClientNotReady, []) ∧
    DropPartition scenarioNotReady "c" "p" [] = (some Error.ErrClientNotReady, []) ∧
    HasPartition scenarioNotReady "c" "p" [] = ((false, some Error.ErrClientNotReady), []) ∧
    ShowPartitions scenarioNotReady "c" [] = (some ([], some Error.ErrClientNotReady), []) ∧
    LoadPartitions scenarioNotReady 3 "c" ["p"] false =
      (Outcome.returned (some Error.ErrClientNotReady), []) ∧
    ReleasePartitions scenarioNotReady "c" ["p"] [] = (some Error.ErrClientNotReady, []) :=
  ⟨rfl, not_ready_guard scenarioNotReady rfl "c" "p" ["p"] 3 false []⟩

/-! ## The generated column data -/

theorem foldl_append_length {α β : Type} (f : β → α) (l : List β) :
    ∀ init : List α,
      (l.foldl (fun vec j => vec ++ [f j]) init).length = init.length + l.length := by
  induction l with
  | nil =>
    intro init
    simp
  | cons x rest ih =>
    intro init
    rw [List.foldl_cons, ih]
    simp
    omega

theorem genVec_length {φ : Type} (rand : Nat → φ) (dim : Int) (drawn : Nat) :
    (genVec rand dim drawn).length = dim.toNat := by
  unfold genVec
  rw [foldl_append_length (fun j => rand (drawn + j))]
  simp

theorem columnLoop_spec {φ : Type} (float32 : Int → φ) (rand : Nat → φ) (dim : Int) (n : Nat) :
    (List.range n).foldl
        (fun (st : (List Int × List φ × List (List φ)) × Nat) (i : Nat) =>
          ((st.1.1 ++ [Int.ofNat i], st.1.2.1 ++ [float32 (Int.ofNat i)],
            st.1.2.2 ++ [genVec rand dim st.2]), st.2 + dim.toNat))
        (([], [], []), 0) =
      (((List.range n).map (fun (i : Nat) => Int.ofNat i),
        (List.range n).map (fun (i : Nat) => float32 (Int.ofNat i)),
        (List.range n).map (fun (i : Nat) => genVec rand dim (i * dim.toNat))),
        n * dim.toNat) := by
  induction n with
  | zero => simp
  | succ n ih =>
    rw [List.range_succ, List.foldl_append, ih]
    simp [Nat.succ_mul]

/-- C26: for `nb >= 0` the call does not panic, the int64 column holds 0, 1,
..., nb-1 in order, the float column the same numbers converted, and the vector
column `nb` vectors of `dim` values each (none for a negative `dim`); but the
vector column is declared with `DefaultDim`, 128, whatever `dim` is, so that for
`nb > 0` and a `dim >= 0` other than 128 the vectors do not have the declared
dimension, as for `nb = 1` and `dim = 4`. -/
theorem GenDefaultColumnData_columns {φ : Type} (float32 : Int → φ) (rand : Nat → φ) :
    (∀ nb dim : Int, 0 ≤ nb →
      ∃ intColumn floatColumn vecColumn,
        GenDefaultColumnData float32 rand nb dim = some (intColumn, floatColumn, vecColumn) ∧
        intColumn.values = (List.range nb.toNat).map (fun (i : Nat) => Int.ofNat i) ∧
        floatColumn.values =
          (List.range nb.toNat).map (fun (i : Nat) => float32 (Int.ofNat i)) ∧
        vecColumn.values.length = nb.toNat ∧
        (∀ v ∈ vecColumn.values, (v.length : Int) = max dim 0) ∧
        vecColumn.dim = 128 ∧
        (0 < nb → 0 ≤ dim → dim ≠ 128 →
          ∃ v ∈ vecColumn.values, (v.length : Int) ≠ vecColumn.dim)) ∧
    (∃ intColumn floatColumn vecColumn,
      GenDefaultColumnData float32 rand 1 4 = some (intColumn, floatColumn, vecColumn) ∧
      vecColumn.values = [[rand 0, rand 1, rand 2, rand 3]] ∧ vecColumn.dim = 128) := by
  refine ⟨?_, ?_⟩
  · intro nb dim hnb
    have hneg : ¬ nb < 0 := by omega
    have hlen : ∀ v ∈ (List.range nb.toNat).map (fun i => genVec rand dim (i * dim.toNat)),
        (v.length : Int) = max dim 0 := by
      intro v hv
      obtain ⟨i, _, rfl⟩ := List.mem_map.mp hv
      rw [genVec_length]
      omega
    refine ⟨⟨DefaultIntFieldName, (List.range nb.toNat).map (fun (i : Nat) => Int.ofNat i)⟩,
      ⟨DefaultFloatFieldName,
        (List.range nb.toNat).map (fun (i : Nat) => float32 (Int.ofNat i))⟩,
      ⟨DefaultFloatVecFieldName, DefaultDim,
        (List.range nb.toNat).map (fun i => genVec rand dim (i * dim.toNat))⟩,
      ?_, rfl, rfl, ?_, hlen, rfl, ?_⟩
    · simp only [GenDefaultColumnData, if_neg hneg, columnLoop_spec]
    · simp
    · intro hpos hdim hne
      have hmem : genVec rand dim (0 * dim.toNat) ∈
          (List.range nb.toNat).map (fun i => genVec rand dim (i * dim.toNat)) := by
        apply List.mem_map.mpr
        exact ⟨0, List.mem_range.mpr (by omega), rfl⟩
      refine ⟨_, hmem, ?_⟩
      rw [hlen _ hmem]
      show max dim 0 ≠ ((DefaultDim : Nat) : Int)
      have h128 : ((DefaultDim : Nat) : Int) = 128 := rfl
      rw [h128]
      omega
  · exact ⟨_, _, _, rfl, rfl, rfl⟩

/-- A use of C26: one vector of 4 values in a column declared with dimension
128. -/
theorem GenDefaultColumnData_columns_witness :
    (0 : Int) < 1 ∧ (0 : Int) ≤ 4 ∧ (4 : Int) ≠ 128 ∧
    ∃ vecColumn : ColumnFloatVector Nat,
      (GenDefaultColumnData (fun i => i.toNat) (fun k => k) 1 4).map (fun cols => cols.2.2.values)
        = some vecColumn.values ∧
      ∃ v ∈ vecColumn.values, (v.length : Int) ≠ vecColumn.dim := by
  obtain ⟨intColumn, floatColumn, vecColumn, heq, _, _, _, _, _, hbad⟩ :=
    (GenDefaultColumnData_columns (fun i => i.toNat) (fun k => k)).1 1 4 (by decide)
  refine ⟨by decide, by decide, by decide, vecColumn, ?_, hbad (by decide) (by decide)
    (by decide)⟩
  rw [heq]
  rfl

end Milvus
